import Mathlib

/-!
Verification development for the multi-algorithm shortest-path engine of the
pathfinding-visualizer repository.  The TypeScript sources are shallowly
embedded: grid cells are coordinate pairs, the mutable per-node search fields
become a functional state, JavaScript numbers used as distances become the
type DVal (naturals plus Infinity), and every imperative loop becomes a
step function iterated with explicit fuel.  The five strategies (dijkstra,
astar, greedyBfs, bidirectionalSwarm, bmssp) are translated function by
function from src/algorithms and the unnamed bmssp module.
-/

/-- JavaScript numbers as used for distances in the engine: a natural number
or Infinity. -/
inductive DVal where
  | fin : Nat → DVal
  | inf : DVal
deriving DecidableEq, Repr

/-- Boolean less-or-equal on distance values, with Infinity as top. -/
def DVal.leb : DVal → DVal → Bool
  | _, .inf => true
  | .inf, .fin _ => false
  | .fin m, .fin n => m ≤ n

/-- Boolean strict order on distance values. -/
def DVal.ltb (a b : DVal) : Bool := !(DVal.leb b a)

instance : LE DVal := ⟨fun a b => a.leb b = true⟩
instance : LT DVal := ⟨fun a b => a.ltb b = true⟩

instance (a b : DVal) : Decidable (a ≤ b) :=
  inferInstanceAs (Decidable (a.leb b = true))

instance (a b : DVal) : Decidable (a < b) :=
  inferInstanceAs (Decidable (a.ltb b = true))

/-- The JavaScript expression d + 1 on a distance value (Infinity + 1 = Infinity). -/
def DVal.succ : DVal → DVal
  | .fin n => .fin (n+1)
  | .inf => .inf

/-- Addition of distance values (used for totalDistance = distance + heuristic). -/
def DVal.add : DVal → DVal → DVal
  | .fin m, .fin n => .fin (m+n)
  | _, _ => .inf

/-- A grid cell identified by its (row, col) coordinates.  The TypeScript code
compares nodes by object identity and every cell owns exactly one node object,
so coordinates are a faithful identity. -/
abbrev Pos := Nat × Nat

/-- The mutable search fields of a NodeData record (src/types): distance,
isVisited, previousNode, heuristicDistance, totalDistance.  The immutable
row/col live in the Pos key and isWall/isStart/isFinish in the Grid. -/
structure NodeState where
  distance : DVal
  isVisited : Bool
  previousNode : Option Pos
  heuristicDistance : DVal
  totalDistance : DVal
deriving DecidableEq, Repr

/-- The static part of the grid: dimensions and the wall flags. -/
structure Grid where
  rows : Nat
  cols : Nat
  isWall : Pos → Bool

/-- The caller-guaranteed reset state of every node before a run: infinite
distance, unvisited, no predecessor (spec section 4.1). -/
def resetState : Pos → NodeState :=
  fun _ => ⟨DVal.inf, false, none, DVal.inf, DVal.inf⟩

/-- Functional update of one node's search state. -/
def setNode (st : Pos → NodeState) (p : Pos) (ns : NodeState) : Pos → NodeState :=
  fun q => if q = p then ns else st q

/-- A position lies on the grid. -/
def Grid.inBounds (g : Grid) (p : Pos) : Prop := p.1 < g.rows ∧ p.2 < g.cols

instance (g : Grid) (p : Pos) : Decidable (g.inBounds p) := by
  unfold Grid.inBounds; infer_instance

/-- The raw 4-neighbour enumeration shared verbatim by all five strategies:
up, down, left, right, guarded by the bounds checks of the source. -/
def neighborPositions (g : Grid) (p : Pos) : List Pos :=
  let row := p.1
  let col := p.2
  (if 0 < row then [((row - 1, col) : Pos)] else []) ++
  (if row < g.rows - 1 then [((row + 1, col) : Pos)] else []) ++
  (if 0 < col then [((row, col - 1) : Pos)] else []) ++
  (if col < g.cols - 1 then [((row, col + 1) : Pos)] else [])

/-- Stable insertion into an ascending list: an element goes after all the
earlier elements it does not strictly precede, which matches the stable
Array.prototype.sort of modern JavaScript engines. -/
def insertSorted {α : Type} (le : α → α → Bool) (x : α) : List α → List α
  | [] => [x]
  | y :: ys => if le y x then y :: insertSorted le x ys else x :: y :: ys

/-- Stable ascending sort, the model of Array.prototype.sort with a
key-difference comparator. -/
def stableSort {α : Type} (le : α → α → Bool) (l : List α) : List α :=
  l.foldl (fun acc x => insertSorted le x acc) []

/-- Walk previousNode links from a node, building the start-to-node list just
as getNodesInShortestPathOrder does with unshift; fuel bounds the walk. -/
def walkPrev (st : Pos → NodeState) : Nat → Pos → List Pos
  | 0, p => [p]
  | fuel+1, p =>
    match (st p).previousNode with
    | none => [p]
    | some q => walkPrev st fuel q ++ [p]

/-- The shared output shape of every strategy (spec section 4.1). -/
structure SearchResult where
  visitedNodesInOrder : List Pos
  nodesInShortestPathOrder : List Pos
deriving DecidableEq, Repr

/-! ## Dijkstra (src/algorithms/dijkstra.ts) -/

/-- Loop state of the dijkstra while loop: node fields, the open set array in
its current order, the visitation trace, and the returned path once the
function has returned. -/
structure DijkstraState where
  st : Pos → NodeState
  openSet : List Pos
  visitedOrder : List Pos
  result : Option (List Pos)

/-- getUnvisitedNeighbors of dijkstra.ts: the raw neighbours filtered by
isVisited only — walls are not filtered here. -/
def getUnvisitedNeighbors (g : Grid) (st : Pos → NodeState) (p : Pos) : List Pos :=
  (neighborPositions g p).filter (fun q => !(st q).isVisited)

/-- updateUnvisitedNeighbors of dijkstra.ts: relax each unvisited neighbour,
re-pointing distance and previousNode when strictly closer, and push it to the
open set if absent. -/
def updateUnvisitedNeighbors (g : Grid) (node : Pos) (s : DijkstraState) : DijkstraState :=
  (getUnvisitedNeighbors g s.st node).foldl (fun s q =>
    let newDistance := (s.st node).distance.succ
    if newDistance < (s.st q).distance then
      { s with
        st := setNode s.st q
          { s.st q with distance := newDistance, previousNode := some node },
        openSet := if q ∈ s.openSet then s.openSet else s.openSet ++ [q] }
    else s) s

/-- Fuel for previousNode walks: one more than the cell count. -/
def walkFuel (g : Grid) : Nat := g.rows * g.cols + 1

/-- One iteration of the dijkstra while loop: sort by distance, shift, skip
walls and already-visited nodes, stop on Infinity or on the finish node,
otherwise close the node and relax its neighbours. -/
def dijkstraStep (g : Grid) (finishNode : Pos) (s : DijkstraState) : DijkstraState :=
  if s.result.isSome then s else
  match stableSort (fun a b => (s.st a).distance.leb ((s.st b).distance)) s.openSet with
  | [] => { s with result := some [] }
  | closest :: rest =>
    if g.isWall closest then { s with openSet := rest }
    else if (s.st closest).distance = DVal.inf then
      { s with openSet := rest, result := some [] }
    else if (s.st closest).isVisited then { s with openSet := rest }
    else
      let s1 : DijkstraState :=
        { s with
          st := setNode s.st closest { s.st closest with isVisited := true },
          openSet := rest,
          visitedOrder := s.visitedOrder ++ [closest] }
      if closest = finishNode then
        { s1 with result := some (walkPrev s1.st (walkFuel g) finishNode) }
      else updateUnvisitedNeighbors g closest s1

/-- Iterate the dijkstra loop a given number of times. -/
def dijkstraIter (g : Grid) (finishNode : Pos) : Nat → DijkstraState → DijkstraState
  | 0, s => s
  | n+1, s => dijkstraIter g finishNode n (dijkstraStep g finishNode s)

/-- Initial dijkstra state on a reset grid: start distance zero, open set
holding exactly the start node. -/
def dijkstraInit (startNode : Pos) : DijkstraState :=
  { st := setNode resetState startNode
      { resetState startNode with distance := DVal.fin 0 },
    openSet := [startNode], visitedOrder := [], result := none }

/-- A loop-iteration budget large enough for the small grids evaluated concretely. -/
def runFuel (g : Grid) : Nat := (g.rows * g.cols + 2) * (g.rows * g.cols + 2)

/-- The dijkstra strategy of the engine. -/
def dijkstra (g : Grid) (startNode finishNode : Pos) : SearchResult :=
  let s := dijkstraIter g finishNode (runFuel g) (dijkstraInit startNode)
  ⟨s.visitedOrder, s.result.getD []⟩

/-! ### concrete grids used in the claims -/

/-- The wall-free one-row two-column grid of the single-cell scenario. -/
def grid1x2 : Grid := ⟨1, 2, fun _ => false⟩

/-- A 1 by 3 corridor whose left cell is a wall; start is the middle cell. -/
def grid1x3w : Grid := ⟨1, 3, fun p => decide (p = ((0, 0) : Pos))⟩

/-- The wall-free 2 by 2 grid. -/
def grid2x2 : Grid := ⟨2, 2, fun _ => false⟩

example : (dijkstra grid1x2 (0,0) (0,1)).nodesInShortestPathOrder = [(0,0),(0,1)] := by decide
example : (dijkstra grid1x2 (0,0) (0,1)).visitedNodesInOrder = [(0,0),(0,1)] := by decide

/-! ## A* (astar.ts, second part of src/algorithms/bidirectionalSwarm.ts) -/

/-- Manhattan distance between two cells, always finite. -/
def getManhattanDistance (a b : Pos) : DVal :=
  DVal.fin ((max a.1 b.1 - min a.1 b.1) + (max a.2 b.2 - min a.2 b.2))

/-- The A* comparator: totalDistance first, heuristicDistance as tie-break. -/
def astarLe (st : Pos → NodeState) (a b : Pos) : Bool :=
  if (st a).totalDistance = (st b).totalDistance then
    (st a).heuristicDistance.leb (st b).heuristicDistance
  else
    (st a).totalDistance.leb (st b).totalDistance

/-- updateUnvisitedNeighbors of astar.ts: relax on strictly smaller g-score,
recompute heuristic and total distance, push if absent. -/
def astarUpdateNeighbors (g : Grid) (node finishNode : Pos) (s : DijkstraState) :
    DijkstraState :=
  (getUnvisitedNeighbors g s.st node).foldl (fun s q =>
    let newDistance := (s.st node).distance.succ
    if newDistance < (s.st q).distance then
      let h := getManhattanDistance q finishNode
      { s with
        st := setNode s.st q
          { s.st q with
            distance := newDistance,
            heuristicDistance := h,
            totalDistance := newDistance.add h,
            previousNode := some node },
        openSet := if q ∈ s.openSet then s.openSet else s.openSet ++ [q] }
    else s) s

/-- One iteration of the astar while loop. -/
def astarStep (g : Grid) (finishNode : Pos) (s : DijkstraState) : DijkstraState :=
  if s.result.isSome then s else
  match stableSort (astarLe s.st) s.openSet with
  | [] => { s with result := some [] }
  | closest :: rest =>
    if g.isWall closest then { s with openSet := rest }
    else if (s.st closest).isVisited then { s with openSet := rest }
    else
      let s1 : DijkstraState :=
        { s with
          st := setNode s.st closest { s.st closest with isVisited := true },
          openSet := rest,
          visitedOrder := s.visitedOrder ++ [closest] }
      if closest = finishNode then
        { s1 with result := some (walkPrev s1.st (walkFuel g) finishNode) }
      else astarUpdateNeighbors g closest finishNode s1

/-- Iterate the astar loop. -/
def astarIter (g : Grid) (finishNode : Pos) : Nat → DijkstraState → DijkstraState
  | 0, s => s
  | n+1, s => astarIter g finishNode n (astarStep g finishNode s)

/-- Initial astar state: start gets distance 0, its heuristic, and their sum. -/
def astarInit (startNode finishNode : Pos) : DijkstraState :=
  let h := getManhattanDistance startNode finishNode
  { st := setNode resetState startNode
      { resetState startNode with
        distance := DVal.fin 0, heuristicDistance := h,
        totalDistance := (DVal.fin 0).add h },
    openSet := [startNode], visitedOrder := [], result := none }

/-- The astar strategy of the engine. -/
def astar (g : Grid) (startNode finishNode : Pos) : SearchResult :=
  let s := astarIter g finishNode (runFuel g) (astarInit startNode finishNode)
  ⟨s.visitedOrder, s.result.getD []⟩

/-! ## Greedy Best-First (src/algorithms/greedyBfs.ts) -/

/-- updateUnvisitedNeighbors of greedyBfs.ts: a neighbour is relaxed only the
first time it is seen (distance still Infinity), and is always pushed then. -/
def greedyUpdateNeighbors (g : Grid) (node finishNode : Pos) (s : DijkstraState) :
    DijkstraState :=
  (getUnvisitedNeighbors g s.st node).foldl (fun s q =>
    if (s.st q).distance = DVal.inf then
      { s with
        st := setNode s.st q
          { s.st q with
            distance := (s.st node).distance.succ,
            heuristicDistance := getManhattanDistance q finishNode,
            previousNode := some node },
        openSet := s.openSet ++ [q] }
    else s) s

/-- One iteration of the greedyBfs while loop, ordered by heuristic alone. -/
def greedyStep (g : Grid) (finishNode : Pos) (s : DijkstraState) : DijkstraState :=
  if s.result.isSome then s else
  match stableSort (fun a b => (s.st a).heuristicDistance.leb ((s.st b).heuristicDistance))
      s.openSet with
  | [] => { s with result := some [] }
  | closest :: rest =>
    if g.isWall closest then { s with openSet := rest }
    else if (s.st closest).isVisited then { s with openSet := rest }
    else
      let s1 : DijkstraState :=
        { s with
          st := setNode s.st closest { s.st closest with isVisited := true },
          openSet := rest,
          visitedOrder := s.visitedOrder ++ [closest] }
      if closest = finishNode then
        { s1 with result := some (walkPrev s1.st (walkFuel g) finishNode) }
      else greedyUpdateNeighbors g closest finishNode s1

/-- Iterate the greedyBfs loop. -/
def greedyIter (g : Grid) (finishNode : Pos) : Nat → DijkstraState → DijkstraState
  | 0, s => s
  | n+1, s => greedyIter g finishNode n (greedyStep g finishNode s)

/-- Initial greedyBfs state: start gets distance 0 and its heuristic. -/
def greedyInit (startNode finishNode : Pos) : DijkstraState :=
  { st := setNode resetState startNode
      { resetState startNode with
        distance := DVal.fin 0,
        heuristicDistance := getManhattanDistance startNode finishNode },
    openSet := [startNode], visitedOrder := [], result := none }

/-- The greedyBfs strategy of the engine. -/
def greedyBfs (g : Grid) (startNode finishNode : Pos) : SearchResult :=
  let s := greedyIter g finishNode (runFuel g) (greedyInit startNode finishNode)
  ⟨s.visitedOrder, s.result.getD []⟩

example : (astar grid1x2 (0,0) (0,1)).nodesInShortestPathOrder = [(0,0),(0,1)] := by decide
example : (astar grid1x2 (0,0) (0,1)).visitedNodesInOrder = [(0,0),(0,1)] := by decide
example : (greedyBfs grid1x2 (0,0) (0,1)).nodesInShortestPathOrder = [(0,0),(0,1)] := by decide
example : (greedyBfs grid1x2 (0,0) (0,1)).visitedNodesInOrder = [(0,0),(0,1)] := by decide

/-! ## Bidirectional Swarm (src/algorithms/bidirectionalSwarm.ts)

The two frontiers keep their g-scores, f-scores and parent links in per-run
maps keyed by node identity; the JavaScript Map is modelled by an association
list (only get, set and has are used, so iteration order never matters). -/

/-- Map.get on an association list. -/
def alistGet {α : Type} : List (Pos × α) → Pos → Option α
  | [], _ => none
  | (k, v) :: rest, q => if k = q then some v else alistGet rest q

/-- Map.set on an association list: replace the existing binding or append. -/
def alistSet {α : Type} : List (Pos × α) → Pos → α → List (Pos × α)
  | [], q, v => [(q, v)]
  | (k, w) :: rest, q, v =>
    if k = q then (q, v) :: rest else (k, w) :: alistSet rest q v

/-- Map.has on an association list. -/
def alistHas {α : Type} (m : List (Pos × α)) (q : Pos) : Bool := (alistGet m q).isSome

/-- The f-score sort key of sortNodes: map lookup defaulting to Infinity. -/
def swarmKey (m : List (Pos × DVal)) (p : Pos) : DVal := (alistGet m p).getD DVal.inf

/-- The comparator of sortNodes. -/
def swarmLe (m : List (Pos × DVal)) (a b : Pos) : Bool :=
  (swarmKey m a).leb (swarmKey m b)

/-- updateNeighbor of bidirectionalSwarm.ts: skip walls, relax the per-run
g/f/parent maps on strictly smaller tentative g, push if absent.  Returns the
updated (gScoreMap, fScoreMap, visitedMap, openSet). -/
def updateNeighbor (g : Grid) (neighbor current : Pos)
    (gMap fMap : List (Pos × DVal)) (vMap : List (Pos × Pos))
    (openSet : List Pos) (targetNode : Pos) :
    List (Pos × DVal) × List (Pos × DVal) × List (Pos × Pos) × List Pos :=
  if g.isWall neighbor then (gMap, fMap, vMap, openSet) else
  let tentativeG := ((alistGet gMap current).getD DVal.inf).succ
  if tentativeG < (alistGet gMap neighbor).getD DVal.inf then
    (alistSet gMap neighbor tentativeG,
     alistSet fMap neighbor (tentativeG.add (getManhattanDistance neighbor targetNode)),
     alistSet vMap neighbor current,
     if neighbor ∈ openSet then openSet else openSet ++ [neighbor])
  else (gMap, fMap, vMap, openSet)

/-- The backwards half of reconstructBidirectionalPathRevisited: unshift the
current node, stop at the start node or on a missing parent. -/
def reconBack (vS : List (Pos × Pos)) (startNode : Pos) : Nat → Pos → List Pos
  | 0, _ => []
  | fuel+1, curr =>
    if curr = startNode then []
    else
      match alistGet vS curr with
      | none => [curr]
      | some parent => reconBack vS startNode fuel parent ++ [curr]

/-- The forwards half of reconstructBidirectionalPathRevisited: follow the
finish-side parents from the meeting node's parent, appending the finish node
again when the chain reaches it. -/
def reconFwd (vF : List (Pos × Pos)) (finishNode : Pos) : Nat → Option Pos → List Pos
  | 0, _ => []
  | _+1, none => []
  | fuel+1, some c =>
    if c = finishNode then [finishNode]
    else c :: reconFwd vF finishNode fuel (alistGet vF c)

/-- reconstructBidirectionalPathRevisited: stitch the two parent chains at the
meeting node. -/
def reconstructBidirectionalPathRevisited (g : Grid) (meeting : Pos)
    (vS vF : List (Pos × Pos)) (startNode finishNode : Pos) : List Pos :=
  (startNode :: reconBack vS startNode (walkFuel g) meeting) ++
    reconFwd vF finishNode (walkFuel g) (alistGet vF meeting)

/-- Loop state of bidirectionalSwarm: the node fields (only isVisited is ever
written there), the two open sets, the six per-run maps, trace and result. -/
structure SwarmState where
  st : Pos → NodeState
  startOpen : List Pos
  finishOpen : List Pos
  gScoreStart : List (Pos × DVal)
  gScoreFinish : List (Pos × DVal)
  fScoreStart : List (Pos × DVal)
  fScoreFinish : List (Pos × DVal)
  visitedByStart : List (Pos × Pos)
  visitedByFinish : List (Pos × Pos)
  visitedOrder : List Pos
  result : Option (List Pos)

/-- The start-side half of one loop iteration: sort, shift, skip walls, mark
visited, meeting check against the finish side's g-scores, else expand. -/
def swarmStartPhase (g : Grid) (startNode finishNode : Pos) (s : SwarmState) : SwarmState :=
  match stableSort (swarmLe s.fScoreStart) s.startOpen with
  | [] => s
  | currentStart :: rest =>
    if g.isWall currentStart then { s with startOpen := rest }
    else
      let wasVisited := (s.st currentStart).isVisited
      let s1 : SwarmState :=
        { s with
          st := if wasVisited then s.st
                else setNode s.st currentStart { s.st currentStart with isVisited := true },
          visitedOrder := if wasVisited then s.visitedOrder
                          else s.visitedOrder ++ [currentStart],
          startOpen := rest }
      if alistHas s1.gScoreFinish currentStart then
        { s1 with result := some (reconstructBidirectionalPathRevisited g currentStart
            s1.visitedByStart s1.visitedByFinish startNode finishNode) }
      else
        (neighborPositions g currentStart).foldl (fun s2 nb =>
          let r := updateNeighbor g nb currentStart s2.gScoreStart s2.fScoreStart
              s2.visitedByStart s2.startOpen finishNode
          { s2 with gScoreStart := r.1, fScoreStart := r.2.1,
                    visitedByStart := r.2.2.1, startOpen := r.2.2.2 }) s1

/-- The finish-side half of one loop iteration, mirroring the start side with
the roles of the maps swapped and the heuristic aimed at the start. -/
def swarmFinishPhase (g : Grid) (startNode finishNode : Pos) (s : SwarmState) : SwarmState :=
  match stableSort (swarmLe s.fScoreFinish) s.finishOpen with
  | [] => s
  | currentFinish :: rest =>
    if g.isWall currentFinish then { s with finishOpen := rest }
    else
      let wasVisited := (s.st currentFinish).isVisited
      let s1 : SwarmState :=
        { s with
          st := if wasVisited then s.st
                else setNode s.st currentFinish { s.st currentFinish with isVisited := true },
          visitedOrder := if wasVisited then s.visitedOrder
                          else s.visitedOrder ++ [currentFinish],
          finishOpen := rest }
      if alistHas s1.gScoreStart currentFinish then
        { s1 with result := some (reconstructBidirectionalPathRevisited g currentFinish
            s1.visitedByStart s1.visitedByFinish startNode finishNode) }
      else
        (neighborPositions g currentFinish).foldl (fun s2 nb =>
          let r := updateNeighbor g nb currentFinish s2.gScoreFinish s2.fScoreFinish
              s2.visitedByFinish s2.finishOpen startNode
          { s2 with gScoreFinish := r.1, fScoreFinish := r.2.1,
                    visitedByFinish := r.2.2.1, finishOpen := r.2.2.2 }) s1

/-- One iteration of the bidirectionalSwarm while loop: exit with an empty
path when either open set is exhausted, else expand start side then finish
side, stopping as soon as the start side meets. -/
def swarmStep (g : Grid) (startNode finishNode : Pos) (s : SwarmState) : SwarmState :=
  if s.result.isSome then s
  else if s.startOpen.isEmpty then { s with result := some [] }
  else if s.finishOpen.isEmpty then { s with result := some [] }
  else
    let s1 := swarmStartPhase g startNode finishNode s
    if s1.result.isSome then s1
    else swarmFinishPhase g startNode finishNode s1

/-- Iterate the bidirectionalSwarm loop. -/
def swarmIter (g : Grid) (startNode finishNode : Pos) : Nat → SwarmState → SwarmState
  | 0, s => s
  | n+1, s => swarmIter g startNode finishNode n (swarmStep g startNode finishNode s)

/-- Initial bidirectionalSwarm state: each root carries g-score 0, its
heuristic as f-score, and itself as sentinel parent. -/
def swarmInit (startNode finishNode : Pos) : SwarmState :=
  { st := resetState,
    startOpen := [startNode], finishOpen := [finishNode],
    gScoreStart := [(startNode, DVal.fin 0)],
    gScoreFinish := [(finishNode, DVal.fin 0)],
    fScoreStart := [(startNode, getManhattanDistance startNode finishNode)],
    fScoreFinish := [(finishNode, getManhattanDistance finishNode startNode)],
    visitedByStart := [(startNode, startNode)],
    visitedByFinish := [(finishNode, finishNode)],
    visitedOrder := [], result := none }

/-- The bidirectionalSwarm strategy of the engine. -/
def bidirectionalSwarm (g : Grid) (startNode finishNode : Pos) : SearchResult :=
  let s := swarmIter g startNode finishNode (runFuel g) (swarmInit startNode finishNode)
  ⟨s.visitedOrder, s.result.getD []⟩

example : (bidirectionalSwarm grid1x2 (0,0) (0,1)).nodesInShortestPathOrder
    = [(0,0),(0,1),(0,1)] := by decide
example : (bidirectionalSwarm grid1x2 (0,0) (0,1)).visitedNodesInOrder
    = [(0,0),(0,1)] := by decide

/-! ## BMSSP (the unnamed bmssp module, src/unnamed/part 002)

The module-scoped mutable context (grid reference, k, t, the visitation
trace) is threaded explicitly.  In addition the state carries a ghost log of
every relaxation write (distance/previousNode assignment), recording the old
and new values and whether the target was already marked visited; the log is
pure instrumentation and feeds no computation. -/

/-- One relaxation write: a joint assignment of distance and previousNode. -/
structure RelaxEvent where
  target : Pos
  oldDist : DVal
  newDist : DVal
  oldPrev : Option Pos
  newPrev : Option Pos
  visitedAtWrite : Bool
deriving DecidableEq, Repr

/-- The threaded bmssp context: node fields, the visitedNodesInOrder trace,
and the ghost relaxation log. -/
structure BmsspSt where
  st : Pos → NodeState
  trace : List Pos
  log : List RelaxEvent

/-- getNeighbors of the bmssp module: the raw neighbours filtered by isWall. -/
def bmGetNeighbors (g : Grid) (p : Pos) : List Pos :=
  (neighborPositions g p).filter (fun q => !(g.isWall q))

/-- Perform the joint distance/previousNode write of a relaxation, logging it. -/
def bmWrite (bst : BmsspSt) (v : Pos) (nd : DVal) (u : Pos) : BmsspSt :=
  let old := bst.st v
  { bst with
    st := setNode bst.st v { old with distance := nd, previousNode := some u },
    log := bst.log ++ [⟨v, old.distance, nd, old.previousNode, some u, old.isVisited⟩] }

/-! ### the MinHeap of the bmssp module -/

/-- Indexed read of the heap array (indices are always in range in runs). -/
def heapGet (es : List (Pos × DVal)) (i : Nat) : Pos × DVal :=
  es.getD i ((0, 0), DVal.inf)

/-- bubbleUp: sift the element at index n towards the root. -/
def bubbleUp : Nat → List (Pos × DVal) → Nat → List (Pos × DVal)
  | 0, es, _ => es
  | fuel+1, es, n =>
    if n = 0 then es
    else
      let parentIdx := (n + 1) / 2 - 1
      let element := heapGet es n
      let parent := heapGet es parentIdx
      if parent.2.leb element.2 then es
      else bubbleUp fuel ((es.set parentIdx element).set n parent) parentIdx

/-- bubbleDown: sift the element at index n towards the leaves, preferring
the smaller child exactly as the source's swap selection does. -/
def bubbleDown : Nat → List (Pos × DVal) → Nat → List (Pos × DVal)
  | 0, es, _ => es
  | fuel+1, es, n =>
    let length := es.length
    let element := heapGet es n
    let child2N := (n + 1) * 2
    let child1N := child2N - 1
    let swapA : Option Nat :=
      if child1N < length then
        (if (heapGet es child1N).2.ltb element.2 then some child1N else none)
      else none
    let swapB : Option Nat :=
      if child2N < length then
        (if (heapGet es child2N).2.ltb
            (match swapA with
             | none => element.2
             | some _ => (heapGet es child1N).2) then some child2N else swapA)
      else swapA
    match swapB with
    | none => es
    | some sw => bubbleDown fuel ((es.set n (heapGet es sw)).set sw element) sw

/-- MinHeap.push. -/
def heapPush (es : List (Pos × DVal)) (node : Pos) (dist : DVal) : List (Pos × DVal) :=
  let es1 := es ++ [(node, dist)]
  bubbleUp es1.length es1 (es1.length - 1)

/-- MinHeap.pop: return the root and the restored heap. -/
def heapPop (es : List (Pos × DVal)) : Option ((Pos × DVal) × List (Pos × DVal)) :=
  match es with
  | [] => none
  | mn :: _ =>
    let rest := es.dropLast
    match rest with
    | [] => some (mn, [])
    | _ :: tail => some (mn, bubbleDown es.length (heapGet es (es.length - 1) :: tail) 0)

/-- MinHeap.contains. -/
def heapContains (es : List (Pos × DVal)) (node : Pos) : Bool :=
  es.any (fun e => e.1 = node)

/-- MinHeap.decreaseKey: lower an existing key and sift it up. -/
def heapDecreaseKey (es : List (Pos × DVal)) (node : Pos) (dist : DVal) : List (Pos × DVal) :=
  match es.findIdx? (fun e => e.1 = node) with
  | none => es
  | some idx =>
    if dist.ltb (heapGet es idx).2 then
      bubbleUp es.length (es.set idx (node, dist)) idx
    else es

/-! ### the bucketed frontier StructureD -/

/-- Structure D of the bmssp module: a value-sorted list with a batch bound. -/
structure StructureD where
  items : List (Pos × DVal)
  M : Nat
  B : DVal

/-- The binary search of StructureD.insert: lower bound position for val. -/
def binSearch (items : List (Pos × DVal)) (val : DVal) : Nat → Nat → Nat → Nat
  | 0, low, _ => low
  | fuel+1, low, high =>
    if low < high then
      let mid := (low + high) / 2
      if (heapGet items mid).2.ltb val then binSearch items val fuel (mid + 1) high
      else binSearch items val fuel low mid
    else low

/-- StructureD.insert: keep only the best value per node, then insert in
sorted position. -/
def dInsert (D : StructureD) (node : Pos) (val : DVal) : StructureD :=
  let step : Option (List (Pos × DVal)) :=
    match D.items.findIdx? (fun i => i.1 = node) with
    | some idx =>
      if val.ltb (heapGet D.items idx).2 then some (D.items.eraseIdx idx) else none
    | none => some D.items
  match step with
  | none => D
  | some items1 =>
    let low := binSearch items1 val (items1.length + 1) 0 items1.length
    { D with items := items1.take low ++ (node, val) :: items1.drop low }

/-- StructureD.pull: remove the up-to-M smallest entries and report the next
boundary value (the outer bound when the structure empties). -/
def dPull (D : StructureD) : (DVal × List Pos) × StructureD :=
  match D.items with
  | [] => ((D.B, []), D)
  | _ :: _ =>
    let count := min D.items.length D.M
    let subset := D.items.take count
    let items1 := D.items.drop count
    let Bi := match items1 with
      | [] => D.B
      | it :: _ => it.2
    ((Bi, subset.map (fun i => i.1)), { D with items := items1 })

/-! ### Algorithm 1: findPivots -/

/-- One relaxation of the findPivots wave: the non-strict guard u.d + 1 <=
v.d, a trace push for not-yet-finalized nodes, and W-curr collection below
the bound. -/
def fpRelaxOne (B : DVal) (u : Pos) (acc : BmsspSt × List Pos) (v : Pos) :
    BmsspSt × List Pos :=
  let (bst, wCurr) := acc
  let nd := (bst.st u).distance.succ
  if nd.leb (bst.st v).distance then
    let wasVisited := (bst.st v).isVisited
    let bst1 := bmWrite bst v nd u
    let bst2 := if wasVisited then bst1 else { bst1 with trace := bst1.trace ++ [v] }
    if (bst2.st v).distance.ltb B then
      (bst2, if v ∈ wCurr then wCurr else wCurr ++ [v])
    else (bst2, wCurr)
  else (bst, wCurr)

/-- One full wave of findPivots: relax out of every member of W-prev. -/
def fpRound (g : Grid) (B : DVal) (wPrev : List Pos) (bst : BmsspSt) : BmsspSt × List Pos :=
  wPrev.foldl (fun acc u => (bmGetNeighbors g u).foldl (fpRelaxOne B u) acc) (bst, [])

/-- The k-round loop of findPivots, with the early return when the witness
set outgrows k times the source count. -/
def fpLoop (g : Grid) (k : Nat) (B : DVal) (S : List Pos) :
    Nat → List Pos → List Pos → BmsspSt → (List Pos × List Pos) × BmsspSt
  | 0, _, wList, bst => ((S, wList), bst)
  | fuel+1, wPrev, wList, bst =>
    let (bst1, wCurr) := fpRound g B wPrev bst
    let wList1 := wCurr.foldl (fun wl v => if v ∈ wl then wl else wl ++ [v]) wList
    if k * S.length < wList1.length then ((S, wList1), bst1)
    else if wCurr.isEmpty then ((S, wList1), bst1)
    else fpLoop g k B S fuel wCurr wList1 bst1

/-- findPivots of the bmssp module. -/
def findPivots (g : Grid) (k : Nat) (B : DVal) (S : List Pos) (bst : BmsspSt) :
    (List Pos × List Pos) × BmsspSt :=
  fpLoop g k B S k S S bst

/-! ### Algorithm 2: baseCase -/

/-- One relaxation of the bounded mini-Dijkstra: guard u.d + 1 <= v.d and
u.d + 1 < B, unconditional trace push, then decreaseKey-or-push. -/
def bcRelaxOne (B : DVal) (u : Pos) (acc : BmsspSt × List (Pos × DVal)) (v : Pos) :
    BmsspSt × List (Pos × DVal) :=
  let (bst, heap) := acc
  let nd := (bst.st u).distance.succ
  if nd.leb (bst.st v).distance && nd.ltb B then
    let bst1 := bmWrite bst v nd u
    let bst2 := { bst1 with trace := bst1.trace ++ [v] }
    let heap1 :=
      if heapContains heap v then heapDecreaseKey heap v ((bst2.st v).distance)
      else heapPush heap v ((bst2.st v).distance)
    (bst2, heap1)
  else (bst, heap)

/-- The pop loop of baseCase: stop when the heap empties, the closed set
reaches k + 1 members, or the popped key reaches the bound. -/
def bcLoop (g : Grid) (k : Nat) (B : DVal) :
    Nat → List Pos → List (Pos × DVal) → BmsspSt → List Pos × BmsspSt
  | 0, U0, _, bst => (U0, bst)
  | fuel+1, U0, heap, bst =>
    if heap.isEmpty then (U0, bst)
    else if k + 1 ≤ U0.length then (U0, bst)
    else
      match heapPop heap with
      | none => (U0, bst)
      | some ((u, dist), heap1) =>
        if B.leb dist then (U0, bst)
        else
          let U0' := if u ∈ U0 then U0 else U0 ++ [u]
          let bst1 :=
            if (bst.st u).isVisited then bst
            else { bst with st := setNode bst.st u { bst.st u with isVisited := true },
                            trace := bst.trace ++ [u] }
          let (bst2, heap2) := (bmGetNeighbors g u).foldl (bcRelaxOne B u) (bst1, heap1)
          bcLoop g k B fuel U0' heap2 bst2

/-- The return step of baseCase: the whole closed set under boundary B when
small, otherwise the tightened boundary (maximum finite closed distance) and
the closed nodes strictly below it. -/
def bcPost (k : Nat) (B : DVal) (U0 : List Pos) (st : Pos → NodeState) : DVal × List Pos :=
  if U0.length ≤ k then (B, U0)
  else
    let maxDist := U0.foldl (fun m p =>
      match (st p).distance with
      | DVal.fin d => if m < d then d else m
      | DVal.inf => m) 0
    (DVal.fin maxDist, U0.filter (fun p => (st p).distance.ltb (DVal.fin maxDist)))

/-- The closed set built by the pop loop of baseCase (U0 of the source),
starting from the deduplicated sources. -/
def bcClosedSet (g : Grid) (k : Nat) (bcFuel : Nat) (B : DVal) (S : List Pos)
    (bst : BmsspSt) : List Pos × BmsspSt :=
  let U0init := S.foldl (fun l x => if x ∈ l then l else l ++ [x]) []
  let heap0 := S.foldl (fun h x => heapPush h x ((bst.st x).distance)) []
  bcLoop g k B bcFuel U0init heap0 bst

/-- baseCase of the bmssp module. -/
def baseCase (g : Grid) (k : Nat) (bcFuel : Nat) (B : DVal) (S : List Pos)
    (bst : BmsspSt) : (DVal × List Pos) × BmsspSt :=
  let (U0, bst1) := bcClosedSet g k bcFuel B S bst
  (bcPost k B U0 bst1.st, bst1)

/-! ### Algorithm 3: the recursive driver -/

/-- One relaxation of the recursive merge step: the non-strict guard, then
route the neighbour into D or into the batch list K by distance window. -/
def bmRelaxOne (B Bi Bpi : DVal) (u : Pos)
    (acc : BmsspSt × StructureD × List (Pos × DVal)) (v : Pos) :
    BmsspSt × StructureD × List (Pos × DVal) :=
  let (bst, D, K) := acc
  let nd := (bst.st u).distance.succ
  if nd.leb (bst.st v).distance then
    let bst1 := bmWrite bst v nd u
    let newDist := (bst1.st v).distance
    if Bi.leb newDist && newDist.ltb B then (bst1, dInsert D v newDist, K)
    else if Bpi.leb newDist && newDist.ltb Bi then (bst1, D, K ++ [(v, newDist)])
    else (bst1, D, K)
  else (bst, D, K)

/-- The while loop of bmsspRecursive: pull a batch, recurse a level down,
merge and mark the returned set, relax out of it, batch-prepend the in-window
leftovers, and overwrite the running boundary. -/
def bmLoopGo (g : Grid) (B : DVal) (sizeLimit : Nat)
    (recurse : DVal → List Pos → BmsspSt → (DVal × List Pos) × BmsspSt) :
    Nat → List Pos → StructureD → DVal → BmsspSt → (DVal × List Pos) × BmsspSt
  | 0, U, _, Bp, bst => ((Bp, U), bst)
  | fuel+1, U, D, Bp, bst =>
    if sizeLimit ≤ U.length then ((Bp, U), bst)
    else if D.items.isEmpty then ((Bp, U), bst)
    else
      let pulled := dPull D
      let Bi := pulled.1.1
      let Si := pulled.1.2
      let D1 := pulled.2
      let rec1 := recurse Bi Si bst
      let Bpi := rec1.1.1
      let Ui := rec1.1.2
      let bst1 := rec1.2
      let merged := Ui.foldl (fun (acc : List Pos × BmsspSt) node =>
        let U' := if node ∈ acc.1 then acc.1 else acc.1 ++ [node]
        if (acc.2.st node).isVisited then (U', acc.2)
        else (U', { acc.2 with
          st := setNode acc.2.st node { acc.2.st node with isVisited := true },
          trace := acc.2.trace ++ [node] })) (U, bst1)
      let relaxed := Ui.foldl (fun acc u =>
        (bmGetNeighbors g u).foldl (bmRelaxOne B Bi Bpi u) acc)
        (merged.2, D1, ([] : List (Pos × DVal)))
      let bst3 := relaxed.1
      let K := relaxed.2.2
      let prependList := K ++ (Si.filter (fun x =>
        Bpi.leb ((bst3.st x).distance) && ((bst3.st x).distance).ltb Bi)).map
        (fun x => (x, (bst3.st x).distance))
      let D3 := prependList.foldl (fun D it => dInsert D it.1 it.2) relaxed.2.1
      let Bp' := if Bpi.leb B then Bpi else B
      bmLoopGo g B sizeLimit recurse fuel merged.1 D3 Bp' bst3

/-- bmsspRecursive of the bmssp module: level 0 delegates to baseCase, higher
levels run findPivots, seed D with the pivots, loop, then absorb the cheap
witnesses. -/
def bmsspRecursive (g : Grid) (k t bcFuel loopFuel : Nat)
    (level : Nat) : DVal → List Pos → BmsspSt → (DVal × List Pos) × BmsspSt :=
  Nat.rec
    (motive := fun _ => DVal → List Pos → BmsspSt → (DVal × List Pos) × BmsspSt)
    (fun B S bst => baseCase g k bcFuel B S bst)
    (fun l ih B S bst =>
    let fp := findPivots g k B S bst
    let P := fp.1.1
    let W := fp.1.2
    let bst1 := fp.2
    let M := 2 ^ (l * t)
    let D1 := P.foldl (fun D x => dInsert D x ((bst1.st x).distance))
      ({ items := [], M := M, B := B } : StructureD)
    let Bp0 := P.foldl (fun b x =>
      if ((bst1.st x).distance).ltb b then (bst1.st x).distance else b) DVal.inf
    let Bp1 := if P.isEmpty then B else Bp0
    let sizeLimit := k * 2 ^ ((l + 1) * t)
    let looped := bmLoopGo g B sizeLimit ih loopFuel [] D1 Bp1 bst1
    let Bp2 := looped.1.1
    let U2 := looped.1.2
    let bst4 := looped.2
    let wAbsorbed := W.foldl (fun (acc : List Pos × BmsspSt) x =>
      if ((acc.2.st x).distance).ltb Bp2 then
        let U' := if x ∈ acc.1 then acc.1 else acc.1 ++ [x]
        if (acc.2.st x).isVisited then (U', acc.2)
        else (U', { acc.2 with
          st := setNode acc.2.st x { acc.2.st x with isVisited := true },
          trace := acc.2.trace ++ [x] })
      else acc) (U2, bst4)
    ((Bp2, wAbsorbed.1), wAbsorbed.2))
    level

/-! ### parameters and the top-level bmssp -/

/-- Largest a in 0..bound satisfying a monotone predicate (0 when none do). -/
def maxIndexSat (f : Nat → Bool) (bound : Nat) : Nat :=
  (List.range (bound + 1)).foldl (fun acc a => if f a then a else acc) 0

/-- floor of (log2 N) to the power 1/3, clamped to at least 2: a natural a is
at most the cube root of log2 N exactly when 2 to the a-cubed is at most N. -/
def kParam (N : Nat) : Nat :=
  max 2 (maxIndexSat (fun a => decide (2 ^ (a ^ 3) ≤ N)) 5)

/-- The integer floor of log2, as the largest m with 2 to the m at most N. -/
def log2floor (N : Nat) : Nat := maxIndexSat (fun m => decide (2 ^ m ≤ N)) 64

/-- floor of (log2 N) to the power 2/3, clamped to at least 2, via the
integer log2; this matches the source's floating-point floor whenever N is a
power of two, which covers every grid evaluated concretely below. -/
def tParam (N : Nat) : Nat :=
  max 2 (maxIndexSat (fun a => decide (a ^ 3 ≤ (log2floor N) ^ 2)) 64)

/-- ceil of log2 N divided by t: the least l with N at most 2 to the l times
t. -/
def lParam (N t : Nat) : Nat :=
  ((List.range (N + 2)).find? (fun l => decide (N ≤ 2 ^ (l * t)))).getD 0

/-- The in-place reset the bmssp entry point performs on every grid node:
distance Infinity, unvisited, no predecessor (heuristic fields untouched). -/
def bmsspReset (g : Grid) (st : Pos → NodeState) : Pos → NodeState :=
  fun p =>
    if g.inBounds p then
      { st p with distance := DVal.inf, isVisited := false, previousNode := none }
    else st p

/-- Loop fuel for the bmssp runs evaluated concretely. -/
def bmsspFuel (g : Grid) : Nat := (g.rows * g.cols + 4) * (g.rows * g.cols + 4)

/-- The full bmssp run: reset, parameter derivation, the top-level recursive
call, and the final path reconstruction from the finish node. -/
structure BmsspRun where
  bst : BmsspSt
  boundary : DVal
  finalU : List Pos
  path : List Pos

/-- bmssp of the bmssp module, exposing the final context. -/
def bmsspFull (g : Grid) (startNode finishNode : Pos) : BmsspRun :=
  let st1 := bmsspReset g resetState
  let st2 := setNode st1 startNode { st1 startNode with distance := DVal.fin 0 }
  let N := g.rows * g.cols
  let k := kParam N
  let t := tParam N
  let l := lParam N t
  let r := bmsspRecursive g k t (bmsspFuel g) (bmsspFuel g) l DVal.inf [startNode]
    ⟨st2, [], []⟩
  let bst := r.2
  let path :=
    if (bst.st finishNode).distance = DVal.inf then []
    else walkPrev bst.st (walkFuel g) finishNode
  ⟨bst, r.1.1, r.1.2, path⟩

/-- The bmssp strategy of the engine. -/
def bmssp (g : Grid) (startNode finishNode : Pos) : SearchResult :=
  let r := bmsspFull g startNode finishNode
  ⟨r.bst.trace, r.path⟩

example : (bmssp grid1x2 (0,0) (0,1)).nodesInShortestPathOrder = [(0,0),(0,1)] := by decide
example : (bmssp grid1x2 (0,0) (0,1)).visitedNodesInOrder
    = [(0,1),(0,0),(0,1),(0,1)] := by decide
example : (bmssp grid2x2 (0,0) (0,1)).nodesInShortestPathOrder = [(0,0),(0,1)] := by decide
example : (bmssp grid2x2 (0,0) (0,1)).visitedNodesInOrder
    = [(1,0),(0,1),(0,0),(1,0),(0,1),(1,0),(1,1),(0,1),(1,1),(1,1)] := by decide
example : (bmsspFull grid2x2 (0,0) (0,1)).bst.log.any (fun e =>
    e.oldPrev.isSome && !(decide (e.newPrev = e.oldPrev)) && !(e.newDist.ltb e.oldDist))
    = true := by decide

/-! ## Order lemmas for distance values -/

theorem DVal.le_def {a b : DVal} : a ≤ b ↔ a.leb b = true := Iff.rfl

theorem DVal.lt_def {a b : DVal} : a < b ↔ a.ltb b = true := Iff.rfl

theorem DVal.not_lt_inf_left {b : DVal} : ¬ (DVal.inf < b) := by
  cases b <;> simp [DVal.lt_def, DVal.ltb, DVal.leb]

theorem DVal.le_refl (a : DVal) : a ≤ a := by
  cases a <;> simp [DVal.le_def, DVal.leb]

theorem DVal.fin_of_lt {a b : DVal} (h : a < b) : ∃ n, a = DVal.fin n := by
  cases a with
  | fin n => exact ⟨n, rfl⟩
  | inf => exact absurd h DVal.not_lt_inf_left

theorem DVal.lt_irrefl (a : DVal) : ¬ (a < a) := by
  cases a <;> simp [DVal.lt_def, DVal.ltb, DVal.leb]

theorem DVal.fin_lt_fin {m n : Nat} : DVal.fin m < DVal.fin n ↔ m < n := by
  simp [DVal.lt_def, DVal.ltb, DVal.leb]

theorem DVal.fin_le_fin {m n : Nat} : DVal.fin m ≤ DVal.fin n ↔ m ≤ n := by
  simp [DVal.le_def, DVal.leb]

theorem DVal.fin_lt_inf {m : Nat} : DVal.fin m < DVal.inf := by
  simp [DVal.lt_def, DVal.ltb, DVal.leb]

theorem DVal.le_inf (a : DVal) : a ≤ DVal.inf := by
  cases a <;> simp [DVal.le_def, DVal.leb]

theorem DVal.lt_trans {a b c : DVal} (h1 : a < b) (h2 : b < c) : a < c := by
  cases a <;> cases b <;> cases c <;>
    simp_all [DVal.lt_def, DVal.ltb, DVal.leb] <;> omega

theorem DVal.le_of_lt {a b : DVal} (h : a < b) : a ≤ b := by
  cases a <;> cases b <;>
    simp_all [DVal.lt_def, DVal.le_def, DVal.ltb, DVal.leb] <;> omega

theorem DVal.lt_of_le_of_lt {a b c : DVal} (h1 : a ≤ b) (h2 : b < c) : a < c := by
  cases a <;> cases b <;> cases c <;>
    simp_all [DVal.lt_def, DVal.le_def, DVal.ltb, DVal.leb] <;> omega

theorem DVal.lt_of_lt_of_le {a b c : DVal} (h1 : a < b) (h2 : b ≤ c) : a < c := by
  cases a <;> cases b <;> cases c <;>
    simp_all [DVal.lt_def, DVal.le_def, DVal.ltb, DVal.leb] <;> omega

theorem DVal.le_trans {a b c : DVal} (h1 : a ≤ b) (h2 : b ≤ c) : a ≤ c := by
  cases a <;> cases b <;> cases c <;>
    simp_all [DVal.le_def, DVal.leb] <;> omega

theorem DVal.lt_succ_self {n : Nat} : DVal.fin n < (DVal.fin n).succ := by
  simp [DVal.succ, DVal.fin_lt_fin]

theorem DVal.succ_ne_inf_of_fin {n : Nat} : (DVal.fin n).succ ≠ DVal.inf := by
  simp [DVal.succ]

theorem DVal.ne_inf_of_lt {a b : DVal} (h : a < b) : a ≠ DVal.inf := by
  intro he; subst he; exact DVal.not_lt_inf_left h

theorem DVal.not_lt_of_le {a b : DVal} (h : a ≤ b) : ¬ (b < a) := by
  cases a <;> cases b <;>
    simp_all [DVal.lt_def, DVal.le_def, DVal.ltb, DVal.leb] <;> omega

theorem DVal.le_of_not_lt {a b : DVal} (h : ¬ (b < a)) : a ≤ b := by
  cases a <;> cases b <;>
    simp_all [DVal.lt_def, DVal.le_def, DVal.ltb, DVal.leb]

/-! ## Claim C3 -/

/-- C3: the path-contiguity claim fails on the code.  On the wall-free 1 by 2
grid with start (0,0) and finish (0,1), bidirectionalSwarm meets at the finish
node and its reconstruction appends the finish a second time (the sentinel
parent of the finish-side root resolves to the finish itself), returning the
three-entry path start, finish, finish whose last two entries are equal and
hence not 4-adjacent.  The claim and spec section 8 require consecutive path
nodes to be 4-adjacent, so this run contradicts them: the spec is the clear
intent and the duplicated tail entry is a reconstruction slip. -/
theorem c3_swarm_path_duplicates_finish :
    (bidirectionalSwarm grid1x2 (0,0) (0,1)).nodesInShortestPathOrder
      = [(0,0),(0,1),(0,1)] := by
  decide

/-! ## Claim C6 -/

/-- C6 counterexample: the single-cell scenario claim is false as stated.  On
the wall-free 1 by 2 grid, bidirectionalSwarm returns a three-node path (the
finish duplicated), not a two-node path, and bmssp's visitedNodesInOrder trace
holds four entries (with duplicates), not at most two. -/
theorem c6_counterexample :
    ¬ ((bidirectionalSwarm grid1x2 (0,0) (0,1)).nodesInShortestPathOrder.length = 2
       ∧ (bmssp grid1x2 (0,0) (0,1)).visitedNodesInOrder.length ≤ 2) := by
  decide

/-- C6 amended: on the wall-free 1 by 2 grid with start (0,0) and finish
(0,1), dijkstra, astar and greedyBfs return the two-node path and a two-entry
visitation trace; bidirectionalSwarm returns a two-entry trace but the
three-node path start, finish, finish; bmssp returns the two-node path but a
four-entry visitation trace with duplicate probe entries. -/
theorem c6_amended :
    (dijkstra grid1x2 (0,0) (0,1)).nodesInShortestPathOrder = [(0,0),(0,1)]
  ∧ (dijkstra grid1x2 (0,0) (0,1)).visitedNodesInOrder = [(0,0),(0,1)]
  ∧ (astar grid1x2 (0,0) (0,1)).nodesInShortestPathOrder = [(0,0),(0,1)]
  ∧ (astar grid1x2 (0,0) (0,1)).visitedNodesInOrder = [(0,0),(0,1)]
  ∧ (greedyBfs grid1x2 (0,0) (0,1)).nodesInShortestPathOrder = [(0,0),(0,1)]
  ∧ (greedyBfs grid1x2 (0,0) (0,1)).visitedNodesInOrder = [(0,0),(0,1)]
  ∧ (bidirectionalSwarm grid1x2 (0,0) (0,1)).nodesInShortestPathOrder
      = [(0,0),(0,1),(0,1)]
  ∧ (bidirectionalSwarm grid1x2 (0,0) (0,1)).visitedNodesInOrder = [(0,0),(0,1)]
  ∧ (bmssp grid1x2 (0,0) (0,1)).nodesInShortestPathOrder = [(0,0),(0,1)]
  ∧ (bmssp grid1x2 (0,0) (0,1)).visitedNodesInOrder = [(0,1),(0,0),(0,1),(0,1)] := by
  refine ⟨by decide, by decide, by decide, by decide, by decide,
          by decide, by decide, by decide, by decide, by decide⟩

/-! ## Claim C10 -/

/-- The reset values of the four node fields bidirectionalSwarm never writes. -/
def SwarmUntouched (ns : NodeState) : Prop :=
  ns.distance = DVal.inf ∧ ns.previousNode = none ∧
  ns.heuristicDistance = DVal.inf ∧ ns.totalDistance = DVal.inf

theorem foldl_st_const {α : Type} (f : SwarmState → α → SwarmState)
    (hf : ∀ s a, (f s a).st = s.st) (l : List α) (s : SwarmState) :
    (l.foldl f s).st = s.st := by
  induction l generalizing s with
  | nil => rfl
  | cons a l ih => rw [List.foldl_cons, ih, hf]

theorem foldl_untouched {α : Type} (f : SwarmState → α → SwarmState)
    (hf : ∀ s a, (f s a).st = s.st) (l : List α) (s : SwarmState) (p : Pos)
    (h : SwarmUntouched (s.st p)) : SwarmUntouched ((l.foldl f s).st p) := by
  rw [foldl_st_const f hf]; exact h

theorem setNode_visited_untouched (st : Pos → NodeState) (c p : Pos)
    (h : ∀ q, SwarmUntouched (st q)) :
    SwarmUntouched ((setNode st c { st c with isVisited := true }) p) := by
  unfold setNode
  by_cases hq : p = c
  · subst hq; simp only [if_pos rfl]
    exact ⟨(h p).1, (h p).2.1, (h p).2.2.1, (h p).2.2.2⟩
  · simp only [if_neg hq]; exact h p

theorem swarmStartPhase_untouched (g : Grid) (a b : Pos) (s : SwarmState)
    (h : ∀ p, SwarmUntouched (s.st p)) (p : Pos) :
    SwarmUntouched ((swarmStartPhase g a b s).st p) := by
  unfold swarmStartPhase
  split
  · exact h p
  · next c rest heq =>
    dsimp only
    split
    · exact h p
    · have hst : ∀ q, SwarmUntouched
          ((if (s.st c).isVisited = true then s.st
            else setNode s.st c { s.st c with isVisited := true }) q) := by
        intro q
        split
        · exact h q
        · exact setNode_visited_untouched s.st c q h
      split
      · exact hst p
      · apply foldl_untouched
        · intro s2 nb; rfl
        · exact hst p

theorem swarmFinishPhase_untouched (g : Grid) (a b : Pos) (s : SwarmState)
    (h : ∀ p, SwarmUntouched (s.st p)) (p : Pos) :
    SwarmUntouched ((swarmFinishPhase g a b s).st p) := by
  unfold swarmFinishPhase
  split
  · exact h p
  · next c rest heq =>
    dsimp only
    split
    · exact h p
    · have hst : ∀ q, SwarmUntouched
          ((if (s.st c).isVisited = true then s.st
            else setNode s.st c { s.st c with isVisited := true }) q) := by
        intro q
        split
        · exact h q
        · exact setNode_visited_untouched s.st c q h
      split
      · exact hst p
      · apply foldl_untouched
        · intro s2 nb; rfl
        · exact hst p

theorem swarmStep_untouched (g : Grid) (a b : Pos) (s : SwarmState)
    (h : ∀ p, SwarmUntouched (s.st p)) (p : Pos) :
    SwarmUntouched ((swarmStep g a b s).st p) := by
  unfold swarmStep
  split
  · exact h p
  · split
    · exact h p
    · split
      · exact h p
      · dsimp only
        split
        · exact swarmStartPhase_untouched g a b s h p
        · exact swarmFinishPhase_untouched g a b _ (swarmStartPhase_untouched g a b s h) p

theorem swarmIter_untouched (g : Grid) (a b : Pos) (n : Nat) (s : SwarmState)
    (h : ∀ p, SwarmUntouched (s.st p)) (p : Pos) :
    SwarmUntouched ((swarmIter g a b n s).st p) := by
  induction n generalizing s with
  | zero => exact h p
  | succ n ih => exact ih _ (swarmStep_untouched g a b s h)

/-- C10: for every grid, start and finish, at every point of the
bidirectionalSwarm run the distance, previousNode, heuristicDistance and
totalDistance fields of every node still hold their caller-reset values — the
strategy keeps its g-scores, f-scores and parent links in per-run maps and the
only node field it mutates is isVisited. -/
theorem c10_swarm_mutates_only_isVisited (g : Grid) (startNode finishNode : Pos)
    (n : Nat) (p : Pos) :
    ((swarmIter g startNode finishNode n (swarmInit startNode finishNode)).st p).distance
      = DVal.inf
  ∧ ((swarmIter g startNode finishNode n (swarmInit startNode finishNode)).st p).previousNode
      = none
  ∧ ((swarmIter g startNode finishNode n (swarmInit startNode finishNode)).st p).heuristicDistance
      = DVal.inf
  ∧ ((swarmIter g startNode finishNode n (swarmInit startNode finishNode)).st p).totalDistance
      = DVal.inf :=
  swarmIter_untouched g startNode finishNode n _ (fun _ => ⟨rfl, rfl, rfl, rfl⟩) p

/-! ## Claim C9 -/

theorem bcPost_max_spec (st : Pos → NodeState) (l : List Pos) (m0 : Nat) :
    (l.foldl (fun m p => match (st p).distance with
        | DVal.fin d => if m < d then d else m
        | DVal.inf => m) m0 = m0
      ∨ ∃ p ∈ l, (st p).distance
          = DVal.fin (l.foldl (fun m p => match (st p).distance with
              | DVal.fin d => if m < d then d else m
              | DVal.inf => m) m0))
    ∧ (∀ p ∈ l, (st p).distance ≠ DVal.inf →
        (st p).distance ≤ DVal.fin (l.foldl (fun m p => match (st p).distance with
            | DVal.fin d => if m < d then d else m
            | DVal.inf => m) m0))
    ∧ m0 ≤ l.foldl (fun m p => match (st p).distance with
        | DVal.fin d => if m < d then d else m
        | DVal.inf => m) m0 := by
  induction l generalizing m0 with
  | nil => exact ⟨Or.inl rfl, by simp, Nat.le_refl m0⟩
  | cons a l ih =>
    simp only [List.foldl_cons]
    rcases hd : (st a).distance with d | _
    · by_cases hlt : m0 < d
      · simp only [hd, if_pos hlt]
        obtain ⟨h1, h2, h3⟩ := ih d
        refine ⟨?_, ?_, ?_⟩
        · rcases h1 with h1 | ⟨p, hp, hpd⟩
          · exact Or.inr ⟨a, List.mem_cons_self a l, by rw [hd, h1]⟩
          · exact Or.inr ⟨p, List.mem_cons_of_mem a hp, hpd⟩
        · intro p hp hpne
          rcases List.mem_cons.mp hp with rfl | hp
          · rw [hd]; exact DVal.fin_le_fin.mpr h3
          · exact h2 p hp hpne
        · exact Nat.le_trans (Nat.le_of_lt hlt) h3
      · simp only [hd, if_neg hlt]
        obtain ⟨h1, h2, h3⟩ := ih m0
        refine ⟨?_, ?_, h3⟩
        · rcases h1 with h1 | ⟨p, hp, hpd⟩
          · exact Or.inl h1
          · exact Or.inr ⟨p, List.mem_cons_of_mem a hp, hpd⟩
        · intro p hp hpne
          rcases List.mem_cons.mp hp with rfl | hp
          · rw [hd]
            exact DVal.fin_le_fin.mpr (Nat.le_trans (Nat.le_of_not_lt hlt) h3)
          · exact h2 p hp hpne
    · simp only [hd]
      obtain ⟨h1, h2, h3⟩ := ih m0
      refine ⟨?_, ?_, h3⟩
      · rcases h1 with h1 | ⟨p, hp, hpd⟩
        · exact Or.inl h1
        · exact Or.inr ⟨p, List.mem_cons_of_mem a hp, hpd⟩
      · intro p hp hpne
        rcases List.mem_cons.mp hp with rfl | hp
        · exact absurd hd hpne
        · exact h2 p hp hpne

/-- C9: for every bound B, source set S and context, baseCase returns the
untightened boundary B together with the full closed set exactly when the
closed set of its pop loop ends with at most k members; otherwise it returns
the maximum finite distance among closed nodes as the tightened boundary
together with exactly those closed nodes whose distance is strictly below
that boundary. -/
theorem c9_baseCase_postcondition (g : Grid) (k bcFuel : Nat) (B : DVal)
    (S : List Pos) (bst : BmsspSt) :
    (baseCase g k bcFuel B S bst).2 = (bcClosedSet g k bcFuel B S bst).2
    ∧ ((bcClosedSet g k bcFuel B S bst).1.length ≤ k →
        (baseCase g k bcFuel B S bst).1
          = (B, (bcClosedSet g k bcFuel B S bst).1))
    ∧ (k < (bcClosedSet g k bcFuel B S bst).1.length →
        (∃ m : Nat, (baseCase g k bcFuel B S bst).1.1 = DVal.fin m
          ∧ (∀ p ∈ (bcClosedSet g k bcFuel B S bst).1,
              ((bcClosedSet g k bcFuel B S bst).2.st p).distance ≠ DVal.inf →
              ((bcClosedSet g k bcFuel B S bst).2.st p).distance ≤ DVal.fin m)
          ∧ (m = 0 ∨ ∃ p ∈ (bcClosedSet g k bcFuel B S bst).1,
              ((bcClosedSet g k bcFuel B S bst).2.st p).distance = DVal.fin m))
        ∧ (∀ p, p ∈ (baseCase g k bcFuel B S bst).1.2 ↔
            p ∈ (bcClosedSet g k bcFuel B S bst).1
            ∧ ((bcClosedSet g k bcFuel B S bst).2.st p).distance
                < (baseCase g k bcFuel B S bst).1.1)) := by
  rcases hC : bcClosedSet g k bcFuel B S bst with ⟨U0, bst1⟩
  have hbase : baseCase g k bcFuel B S bst = (bcPost k B U0 bst1.st, bst1) := by
    unfold baseCase; rw [hC]
  rw [hbase]
  unfold bcPost
  by_cases hlen : U0.length ≤ k
  · rw [if_pos hlen]
    exact ⟨rfl, fun _ => rfl, fun hk => absurd hlen (Nat.not_le_of_lt hk)⟩
  · rw [if_neg hlen]
    obtain ⟨h1, h2, _⟩ := bcPost_max_spec bst1.st U0 0
    refine ⟨rfl, fun hle => absurd hle hlen, fun _ => ⟨⟨_, rfl, h2, h1⟩, ?_⟩⟩
    intro p
    constructor
    · intro hp
      exact ⟨(List.mem_filter.mp hp).1, (List.mem_filter.mp hp).2⟩
    · intro hpc
      exact List.mem_filter.mpr ⟨hpc.1, hpc.2⟩

/-- C9 witness context: the reset grid with start distance zero, as the
top-level bmssp call would pass to its recursion. -/
def c9ctx : BmsspSt :=
  ⟨setNode resetState (0,0) { resetState (0,0) with distance := DVal.fin 0 }, [], []⟩

theorem c9_witness :
    (bcClosedSet grid1x2 2 10 DVal.inf [(0,0)] c9ctx).1.length ≤ 2
    ∧ (baseCase grid1x2 2 10 DVal.inf [(0,0)] c9ctx).1
        = (DVal.inf, (bcClosedSet grid1x2 2 10 DVal.inf [(0,0)] c9ctx).1) :=
  ⟨by decide,
   (c9_baseCase_postcondition grid1x2 2 10 DVal.inf [(0,0)] c9ctx).2.1 (by decide)⟩

/-! ## Claim C4 -/

theorem alistGet_set_self {α : Type} (m : List (Pos × α)) (k : Pos) (v : α) :
    alistGet (alistSet m k v) k = some v := by
  induction m with
  | nil => simp [alistSet, alistGet]
  | cons a m ih =>
    by_cases h : a.1 = k
    · simp [alistSet, alistGet, h]
    · simp only [alistSet, alistGet]
      rw [if_neg h, alistGet]
      rw [if_neg h]
      exact ih

theorem alistGet_set_ne {α : Type} (m : List (Pos × α)) (k : Pos) (v : α) (q : Pos)
    (h : k ≠ q) : alistGet (alistSet m k v) q = alistGet m q := by
  induction m with
  | nil => simp [alistSet, alistGet, h]
  | cons a m ih =>
    by_cases ha : a.1 = k
    · simp only [alistSet, if_pos ha, alistGet, if_neg h]
      have hne : ¬ (a.1 = q) := by rw [ha]; exact h
      rw [if_neg hne]
    · simp only [alistSet, if_neg ha, alistGet]
      by_cases hq : a.1 = q
      · rw [if_pos hq, if_pos hq]
      · rw [if_neg hq, if_neg hq]
        exact ih

/-- The strict-relaxation relation: distances only drop, and any change of
predecessor comes with a strict distance drop. -/
def RelaxMono (s s' : DijkstraState) : Prop :=
  ∀ q, ((s'.st q).distance ≤ (s.st q).distance)
     ∧ ((s'.st q).previousNode ≠ (s.st q).previousNode →
          (s'.st q).distance < (s.st q).distance)

theorem relaxMono_refl (s : DijkstraState) : RelaxMono s s :=
  fun q => ⟨DVal.le_refl _, fun h => absurd rfl h⟩

theorem relaxMono_trans {s t u : DijkstraState} (h1 : RelaxMono s t)
    (h2 : RelaxMono t u) : RelaxMono s u := by
  intro q
  refine ⟨DVal.le_trans ((h2 q).1) ((h1 q).1), fun hne => ?_⟩
  by_cases hm : (u.st q).previousNode = (t.st q).previousNode
  · have : (t.st q).previousNode ≠ (s.st q).previousNode := by
      intro he; exact hne (hm.trans he)
    exact DVal.lt_of_le_of_lt (h2 q).1 ((h1 q).2 this)
  · exact DVal.lt_of_lt_of_le ((h2 q).2 hm) (h1 q).1

theorem foldl_relaxMono_inv {α : Type} (f : DijkstraState → α → DijkstraState)
    (P : DijkstraState → Prop)
    (hf : ∀ s a, P s → P (f s a) ∧ RelaxMono s (f s a))
    (l : List α) (s : DijkstraState) (hP : P s) :
    P (l.foldl f s) ∧ RelaxMono s (l.foldl f s) := by
  induction l generalizing s with
  | nil => exact ⟨hP, relaxMono_refl s⟩
  | cons a l ih =>
    obtain ⟨hPa, hMa⟩ := hf s a hP
    obtain ⟨hPl, hMl⟩ := ih (f s a) hPa
    exact ⟨hPl, relaxMono_trans hMa hMl⟩

theorem updateUnvisitedNeighbors_relaxMono (g : Grid) (node : Pos) (s : DijkstraState) :
    RelaxMono s (updateUnvisitedNeighbors g node s) := by
  unfold updateUnvisitedNeighbors
  refine (foldl_relaxMono_inv _ (fun _ => True) ?_ _ s trivial).2
  intro s' a _
  refine ⟨trivial, ?_⟩
  dsimp only
  split
  · next hlt =>
    intro q
    by_cases hq : q = a
    · subst hq
      simp only [setNode, if_pos rfl]
      exact ⟨DVal.le_of_lt hlt, fun _ => hlt⟩
    · simp only [setNode, if_neg hq]
      exact ⟨DVal.le_refl _, fun h => absurd rfl h⟩
  · exact relaxMono_refl s'

theorem astarUpdateNeighbors_relaxMono (g : Grid) (node finishNode : Pos)
    (s : DijkstraState) : RelaxMono s (astarUpdateNeighbors g node finishNode s) := by
  unfold astarUpdateNeighbors
  refine (foldl_relaxMono_inv _ (fun _ => True) ?_ _ s trivial).2
  intro s' a _
  refine ⟨trivial, ?_⟩
  dsimp only
  split
  · next hlt =>
    intro q
    by_cases hq : q = a
    · subst hq
      simp only [setNode, if_pos rfl]
      exact ⟨DVal.le_of_lt hlt, fun _ => hlt⟩
    · simp only [setNode, if_neg hq]
      exact ⟨DVal.le_refl _, fun h => absurd rfl h⟩
  · exact relaxMono_refl s'

theorem setNode_self (st : Pos → NodeState) (p : Pos) (ns : NodeState) :
    setNode st p ns p = ns := by
  unfold setNode; rw [if_pos rfl]

theorem setNode_ne (st : Pos → NodeState) (p : Pos) (ns : NodeState) (q : Pos)
    (h : q ≠ p) : setNode st p ns q = st q := by
  unfold setNode; rw [if_neg h]

theorem greedyUpdateNeighbors_relaxMono (g : Grid) (node finishNode : Pos)
    (s : DijkstraState) (hfin : (s.st node).distance ≠ DVal.inf) :
    RelaxMono s (greedyUpdateNeighbors g node finishNode s) := by
  unfold greedyUpdateNeighbors
  refine (foldl_relaxMono_inv _ (fun t => (t.st node).distance = (s.st node).distance)
    ?_ _ s rfl).2
  intro s' a hP
  constructor
  · dsimp only
    split
    · next hinf =>
      by_cases hq : node = a
      · have hcontra : (s.st node).distance = DVal.inf := by
          rw [← hP, hq]; exact hinf
        exact absurd hcontra hfin
      · show (setNode s'.st a _ node).distance = _
        rw [setNode_ne _ _ _ _ hq]
        exact hP
    · exact hP
  · dsimp only
    split
    · next hinf =>
      intro q
      have hne : (s'.st node).distance ≠ DVal.inf := by rw [hP]; exact hfin
      by_cases hq : q = a
      · subst hq
        constructor
        · show ((setNode s'.st q _ q)).distance ≤ _
          rw [setNode_self, hinf]
          exact DVal.le_inf _
        · intro
          show ((setNode s'.st q _ q)).distance < _
          rw [setNode_self, hinf]
          rcases hd : (s'.st node).distance with d | _
          · exact DVal.fin_lt_inf
          · exact absurd hd hne
      · constructor
        · show ((setNode s'.st a _ q)).distance ≤ _
          rw [setNode_ne _ _ _ _ hq]
          exact DVal.le_refl _
        · intro h
          dsimp only at h
          rw [setNode_ne _ _ _ _ hq] at h
          exact absurd rfl h
    · exact relaxMono_refl s'

theorem updateNeighbor_strict_reparent (g : Grid) (nb cur : Pos)
    (gMap fMap : List (Pos × DVal)) (vMap : List (Pos × Pos))
    (os : List Pos) (tgt : Pos) (q : Pos)
    (h : alistGet (updateNeighbor g nb cur gMap fMap vMap os tgt).2.2.1 q
           ≠ alistGet vMap q) :
    ((alistGet (updateNeighbor g nb cur gMap fMap vMap os tgt).1 q).getD DVal.inf)
      < (alistGet gMap q).getD DVal.inf := by
  unfold updateNeighbor at *
  by_cases hw : g.isWall nb = true
  · rw [if_pos hw] at h
    exact absurd rfl h
  · rw [if_neg hw] at h ⊢
    dsimp only at h ⊢
    split at h
    · next hlt =>
      rw [if_pos hlt]
      by_cases hq : nb = q
      · subst hq
        simp only [alistGet_set_self]
        exact hlt
      · rw [alistGet_set_ne _ _ _ _ hq] at h
        exact absurd rfl h
    · exact absurd rfl h

theorem fpRelaxOne_st (B : DVal) (u : Pos) (bst : BmsspSt) (w : List Pos) (v : Pos) :
    ((fpRelaxOne B u (bst, w) v).1).st = bst.st
    ∨ (((fpRelaxOne B u (bst, w) v).1).st
        = setNode bst.st v
            { bst.st v with
              distance := (bst.st u).distance.succ, previousNode := some u }
       ∧ (bst.st u).distance.succ ≤ (bst.st v).distance) := by
  unfold fpRelaxOne
  dsimp only
  split
  · next hle =>
    right
    refine ⟨?_, hle⟩
    split <;> split <;> rfl
  · left; rfl

theorem bcRelaxOne_st (B : DVal) (u : Pos) (bst : BmsspSt) (heap : List (Pos × DVal))
    (v : Pos) :
    ((bcRelaxOne B u (bst, heap) v).1).st = bst.st
    ∨ (((bcRelaxOne B u (bst, heap) v).1).st
        = setNode bst.st v
            { bst.st v with
              distance := (bst.st u).distance.succ, previousNode := some u }
       ∧ (bst.st u).distance.succ ≤ (bst.st v).distance) := by
  unfold bcRelaxOne
  dsimp only
  split
  · next hle =>
    right
    have hle' : ((bst.st u).distance.succ.leb (bst.st v).distance
        && (bst.st u).distance.succ.ltb B) = true := hle
    exact ⟨rfl, (Bool.and_eq_true _ _ |>.mp hle').1⟩
  · left; rfl

theorem bmRelaxOne_st (B Bi Bpi : DVal) (u : Pos) (bst : BmsspSt) (D : StructureD)
    (K : List (Pos × DVal)) (v : Pos) :
    ((bmRelaxOne B Bi Bpi u (bst, D, K) v).1).st = bst.st
    ∨ (((bmRelaxOne B Bi Bpi u (bst, D, K) v).1).st
        = setNode bst.st v
            { bst.st v with
              distance := (bst.st u).distance.succ, previousNode := some u }
       ∧ (bst.st u).distance.succ ≤ (bst.st v).distance) := by
  unfold bmRelaxOne
  dsimp only
  split
  · next hle =>
    right
    refine ⟨?_, hle⟩
    split
    · rfl
    · split <;> rfl
  · left; rfl

theorem write_nonstrict (bst : BmsspSt) (u v q : Pos)
    (hle : (bst.st u).distance.succ ≤ (bst.st v).distance) :
    ((setNode bst.st v
        { bst.st v with
          distance := (bst.st u).distance.succ, previousNode := some u }) q).distance
      ≤ (bst.st q).distance := by
  unfold setNode
  by_cases hq : q = v
  · subst hq; rw [if_pos rfl]; exact hle
  · rw [if_neg hq]; exact DVal.le_refl _

theorem fpRelaxOne_nonstrict (B : DVal) (u : Pos) (bst : BmsspSt) (w : List Pos)
    (v q : Pos) :
    ((fpRelaxOne B u (bst, w) v).1.st q).distance ≤ (bst.st q).distance := by
  rcases fpRelaxOne_st B u bst w v with hst | ⟨hst, hle⟩
  · rw [hst]; exact DVal.le_refl _
  · rw [hst]; exact write_nonstrict bst u v q hle

theorem bcRelaxOne_nonstrict (B : DVal) (u : Pos) (bst : BmsspSt)
    (heap : List (Pos × DVal)) (v q : Pos) :
    ((bcRelaxOne B u (bst, heap) v).1.st q).distance ≤ (bst.st q).distance := by
  rcases bcRelaxOne_st B u bst heap v with hst | ⟨hst, hle⟩
  · rw [hst]; exact DVal.le_refl _
  · rw [hst]; exact write_nonstrict bst u v q hle

theorem bmRelaxOne_nonstrict (B Bi Bpi : DVal) (u : Pos) (bst : BmsspSt)
    (D : StructureD) (K : List (Pos × DVal)) (v q : Pos) :
    ((bmRelaxOne B Bi Bpi u (bst, D, K) v).1.st q).distance ≤ (bst.st q).distance := by
  rcases bmRelaxOne_st B Bi Bpi u bst D K v with hst | ⟨hst, hle⟩
  · rw [hst]; exact DVal.le_refl _
  · rw [hst]; exact write_nonstrict bst u v q hle

/-- C4 counterexample: in the bmssp run on the wall-free 2 by 2 grid with
start (0,0) and finish (0,1), the relaxation log contains a write that moves
node (1,1) from parent (1,0) to parent (0,1) while its distance stays 2 — a
re-parenting without a strictly smaller tentative distance, refuting the
claim that every strategy re-parents only on strict improvement. -/
theorem c4_counterexample :
    ((⟨(1,1), DVal.fin 2, DVal.fin 2, some (1,0), some (0,1), false⟩ : RelaxEvent)
      ∈ (bmsspFull grid2x2 (0,0) (0,1)).bst.log)
    ∧ ¬ (DVal.fin 2 < DVal.fin 2) := by
  constructor
  · decide
  · decide

/-- C4 amended: in dijkstra, astar and greedyBfs (for greedyBfs under the
run-invariant that the expanding node has finite distance) a node's
previousNode is reassigned only when the tentative distance is strictly
smaller than its recorded distance, and bidirectionalSwarm re-parents its
per-run parent map only on a strictly smaller tentative g-score; BMSSP's
relaxation instead re-parents whenever the tentative distance is less than
or equal to the recorded distance, so a node can be re-parented at an equal
distance, as happens in the 2 by 2 run. -/
theorem c4_amended :
    (∀ (g : Grid) (node : Pos) (s : DijkstraState) (q : Pos),
        ((updateUnvisitedNeighbors g node s).st q).previousNode
            ≠ (s.st q).previousNode →
        ((updateUnvisitedNeighbors g node s).st q).distance < (s.st q).distance)
  ∧ (∀ (g : Grid) (node finishNode : Pos) (s : DijkstraState) (q : Pos),
        ((astarUpdateNeighbors g node finishNode s).st q).previousNode
            ≠ (s.st q).previousNode →
        ((astarUpdateNeighbors g node finishNode s).st q).distance < (s.st q).distance)
  ∧ (∀ (g : Grid) (node finishNode : Pos) (s : DijkstraState) (q : Pos),
        (s.st node).distance ≠ DVal.inf →
        ((greedyUpdateNeighbors g node finishNode s).st q).previousNode
            ≠ (s.st q).previousNode →
        ((greedyUpdateNeighbors g node finishNode s).st q).distance < (s.st q).distance)
  ∧ (∀ (g : Grid) (nb cur : Pos) (gMap fMap : List (Pos × DVal))
        (vMap : List (Pos × Pos)) (os : List Pos) (tgt : Pos) (q : Pos),
        alistGet (updateNeighbor g nb cur gMap fMap vMap os tgt).2.2.1 q
            ≠ alistGet vMap q →
        ((alistGet (updateNeighbor g nb cur gMap fMap vMap os tgt).1 q).getD DVal.inf)
          < (alistGet gMap q).getD DVal.inf)
  ∧ (∀ (B : DVal) (u : Pos) (bst : BmsspSt) (w : List Pos) (v q : Pos),
        ((fpRelaxOne B u (bst, w) v).1.st q).distance ≤ (bst.st q).distance)
  ∧ (∀ (B : DVal) (u : Pos) (bst : BmsspSt) (heap : List (Pos × DVal)) (v q : Pos),
        ((bcRelaxOne B u (bst, heap) v).1.st q).distance ≤ (bst.st q).distance)
  ∧ (∀ (B Bi Bpi : DVal) (u : Pos) (bst : BmsspSt) (D : StructureD)
        (K : List (Pos × DVal)) (v q : Pos),
        ((bmRelaxOne B Bi Bpi u (bst, D, K) v).1.st q).distance ≤ (bst.st q).distance)
  ∧ (⟨(1,1), DVal.fin 2, DVal.fin 2, some (1,0), some (0,1), false⟩ : RelaxEvent)
      ∈ (bmsspFull grid2x2 (0,0) (0,1)).bst.log := by
  refine ⟨?_, ?_, ?_, ?_, ?_, ?_, ?_, by decide⟩
  · intro g node s q h
    exact (updateUnvisitedNeighbors_relaxMono g node s q).2 h
  · intro g node finishNode s q h
    exact (astarUpdateNeighbors_relaxMono g node finishNode s q).2 h
  · intro g node finishNode s q hfin h
    exact (greedyUpdateNeighbors_relaxMono g node finishNode s hfin q).2 h
  · intro g nb cur gMap fMap vMap os tgt q h
    exact updateNeighbor_strict_reparent g nb cur gMap fMap vMap os tgt q h
  · intro B u bst w v q
    exact fpRelaxOne_nonstrict B u bst w v q
  · intro B u bst heap v q
    exact bcRelaxOne_nonstrict B u bst heap v q
  · intro B Bi Bpi u bst D K v q
    exact bmRelaxOne_nonstrict B Bi Bpi u bst D K v q

/-- The state just before dijkstra relaxes the neighbours of the freshly
closed start node of the 1 by 2 grid, used to witness the amended claim. -/
def c4wSt : DijkstraState :=
  { st := setNode resetState (0,0)
      { distance := DVal.fin 0, isVisited := true, previousNode := none,
        heuristicDistance := DVal.inf, totalDistance := DVal.inf },
    openSet := [], visitedOrder := [(0,0)], result := none }

theorem c4_witness :
    ((updateUnvisitedNeighbors grid1x2 (0,0) c4wSt).st (0,1)).distance
      < (c4wSt.st (0,1)).distance :=
  c4_amended.1 grid1x2 (0,0) c4wSt (0,1) (by decide)

/-! ## Claim C5 -/

theorem foldl_preserves {α β : Type} (f : β → α → β) (P : β → Prop)
    (hf : ∀ s a, P s → P (f s a)) (l : List α) (s : β) (h : P s) :
    P (l.foldl f s) := by
  induction l generalizing s with
  | nil => exact h
  | cons a l ih => exact ih _ (hf s a h)

/-- No wall ever carries the visited mark. -/
def WallsUnvisited (g : Grid) (st : Pos → NodeState) : Prop :=
  ∀ p, g.isWall p = true → (st p).isVisited = false

theorem updateUnvisitedNeighbors_isVisited (g : Grid) (node : Pos) (s : DijkstraState)
    (p : Pos) :
    ((updateUnvisitedNeighbors g node s).st p).isVisited = (s.st p).isVisited := by
  unfold updateUnvisitedNeighbors
  refine foldl_preserves _ (fun t => ∀ q, (t.st q).isVisited = (s.st q).isVisited)
    ?_ _ s (fun _ => rfl) p
  intro t a ht q
  dsimp only
  split
  · by_cases hq : q = a
    · subst hq
      show (setNode t.st q _ q).isVisited = _
      rw [setNode_self]
      exact ht q
    · show (setNode t.st a _ q).isVisited = _
      rw [setNode_ne _ _ _ _ hq]
      exact ht q
  · exact ht q

theorem astarUpdateNeighbors_isVisited (g : Grid) (node finishNode : Pos)
    (s : DijkstraState) (p : Pos) :
    ((astarUpdateNeighbors g node finishNode s).st p).isVisited
      = (s.st p).isVisited := by
  unfold astarUpdateNeighbors
  refine foldl_preserves _ (fun t => ∀ q, (t.st q).isVisited = (s.st q).isVisited)
    ?_ _ s (fun _ => rfl) p
  intro t a ht q
  dsimp only
  split
  · by_cases hq : q = a
    · subst hq
      show (setNode t.st q _ q).isVisited = _
      rw [setNode_self]
      exact ht q
    · show (setNode t.st a _ q).isVisited = _
      rw [setNode_ne _ _ _ _ hq]
      exact ht q
  · exact ht q

theorem greedyUpdateNeighbors_isVisited (g : Grid) (node finishNode : Pos)
    (s : DijkstraState) (p : Pos) :
    ((greedyUpdateNeighbors g node finishNode s).st p).isVisited
      = (s.st p).isVisited := by
  unfold greedyUpdateNeighbors
  refine foldl_preserves _ (fun t => ∀ q, (t.st q).isVisited = (s.st q).isVisited)
    ?_ _ s (fun _ => rfl) p
  intro t a ht q
  dsimp only
  split
  · by_cases hq : q = a
    · subst hq
      show (setNode t.st q _ q).isVisited = _
      rw [setNode_self]
      exact ht q
    · show (setNode t.st a _ q).isVisited = _
      rw [setNode_ne _ _ _ _ hq]
      exact ht q
  · exact ht q

theorem dijkstraStep_wallsUnvisited (g : Grid) (f : Pos) (s : DijkstraState)
    (h : WallsUnvisited g s.st) : WallsUnvisited g (dijkstraStep g f s).st := by
  unfold dijkstraStep
  split
  · exact h
  · split
    · exact h
    · next closest rest heq =>
      split
      · exact h
      · split
        · exact h
        · split
          · exact h
          · next hw _ _ =>
            have hmark : WallsUnvisited g
                (setNode s.st closest { s.st closest with isVisited := true }) := by
              intro p hp
              have hne : p ≠ closest := by
                intro he; subst he; exact hw hp
              rw [setNode_ne _ _ _ _ hne]
              exact h p hp
            split
            · exact hmark
            · intro p hp
              rw [updateUnvisitedNeighbors_isVisited]
              exact hmark p hp

theorem astarStep_wallsUnvisited (g : Grid) (f : Pos) (s : DijkstraState)
    (h : WallsUnvisited g s.st) : WallsUnvisited g (astarStep g f s).st := by
  unfold astarStep
  split
  · exact h
  · split
    · exact h
    · next closest rest heq =>
      split
      · exact h
      · split
        · exact h
        · next hw _ =>
          have hmark : WallsUnvisited g
              (setNode s.st closest { s.st closest with isVisited := true }) := by
            intro p hp
            have hne : p ≠ closest := by
              intro he; subst he; exact hw hp
            rw [setNode_ne _ _ _ _ hne]
            exact h p hp
          split
          · exact hmark
          · intro p hp
            rw [astarUpdateNeighbors_isVisited]
            exact hmark p hp

theorem greedyStep_wallsUnvisited (g : Grid) (f : Pos) (s : DijkstraState)
    (h : WallsUnvisited g s.st) : WallsUnvisited g (greedyStep g f s).st := by
  unfold greedyStep
  split
  · exact h
  · split
    · exact h
    · next closest rest heq =>
      split
      · exact h
      · split
        · exact h
        · next hw _ =>
          have hmark : WallsUnvisited g
              (setNode s.st closest { s.st closest with isVisited := true }) := by
            intro p hp
            have hne : p ≠ closest := by
              intro he; subst he; exact hw hp
            rw [setNode_ne _ _ _ _ hne]
            exact h p hp
          split
          · exact hmark
          · intro p hp
            rw [greedyUpdateNeighbors_isVisited]
            exact hmark p hp

theorem dijkstraIter_wallsUnvisited (g : Grid) (f : Pos) (n : Nat) (s : DijkstraState)
    (h : WallsUnvisited g s.st) : WallsUnvisited g (dijkstraIter g f n s).st := by
  induction n generalizing s with
  | zero => exact h
  | succ n ih => exact ih _ (dijkstraStep_wallsUnvisited g f s h)

theorem astarIter_wallsUnvisited (g : Grid) (f : Pos) (n : Nat) (s : DijkstraState)
    (h : WallsUnvisited g s.st) : WallsUnvisited g (astarIter g f n s).st := by
  induction n generalizing s with
  | zero => exact h
  | succ n ih => exact ih _ (astarStep_wallsUnvisited g f s h)

theorem greedyIter_wallsUnvisited (g : Grid) (f : Pos) (n : Nat) (s : DijkstraState)
    (h : WallsUnvisited g s.st) : WallsUnvisited g (greedyIter g f n s).st := by
  induction n generalizing s with
  | zero => exact h
  | succ n ih => exact ih _ (greedyStep_wallsUnvisited g f s h)

theorem swarmStartPhase_wallsUnvisited (g : Grid) (a b : Pos) (s : SwarmState)
    (h : WallsUnvisited g s.st) : WallsUnvisited g (swarmStartPhase g a b s).st := by
  unfold swarmStartPhase
  split
  · exact h
  · next c rest heq =>
    dsimp only
    split
    · exact h
    · next hw =>
      have hst : WallsUnvisited g (if (s.st c).isVisited = true then s.st
          else setNode s.st c { s.st c with isVisited := true }) := by
        split
        · exact h
        · intro p hp
          have hne : p ≠ c := by
            intro he; subst he; exact hw hp
          rw [setNode_ne _ _ _ _ hne]
          exact h p hp
      split
      · exact hst
      · intro p hp
        rw [foldl_st_const]
        · exact hst p hp
        · intro s2 nb; rfl

theorem swarmFinishPhase_wallsUnvisited (g : Grid) (a b : Pos) (s : SwarmState)
    (h : WallsUnvisited g s.st) : WallsUnvisited g (swarmFinishPhase g a b s).st := by
  unfold swarmFinishPhase
  split
  · exact h
  · next c rest heq =>
    dsimp only
    split
    · exact h
    · next hw =>
      have hst : WallsUnvisited g (if (s.st c).isVisited = true then s.st
          else setNode s.st c { s.st c with isVisited := true }) := by
        split
        · exact h
        · intro p hp
          have hne : p ≠ c := by
            intro he; subst he; exact hw hp
          rw [setNode_ne _ _ _ _ hne]
          exact h p hp
      split
      · exact hst
      · intro p hp
        rw [foldl_st_const]
        · exact hst p hp
        · intro s2 nb; rfl

theorem swarmIter_wallsUnvisited (g : Grid) (a b : Pos) (n : Nat) (s : SwarmState)
    (h : WallsUnvisited g s.st) : WallsUnvisited g (swarmIter g a b n s).st := by
  induction n generalizing s with
  | zero => exact h
  | succ n ih =>
    refine ih _ ?_
    unfold swarmStep
    split
    · exact h
    · split
      · exact h
      · split
        · exact h
        · dsimp only
          split
          · exact swarmStartPhase_wallsUnvisited g a b s h
          · exact swarmFinishPhase_wallsUnvisited g a b _
              (swarmStartPhase_wallsUnvisited g a b s h)

/-- C5 counterexample: dijkstra's neighbour enumeration does not filter
walls.  On the 1 by 3 corridor whose left cell (0,0) is a wall, the dijkstra
run from start (0,1) writes the wall: its distance ends at 1 and its
previousNode at the start — refuting the claim that every wall's distance
stays Infinity and its previousNode stays null in every strategy. -/
theorem c5_counterexample :
    grid1x3w.isWall (0,0) = true
    ∧ ((dijkstraIter grid1x3w (0,2) (runFuel grid1x3w)
          (dijkstraInit (0,1))).st (0,0)).distance = DVal.fin 1
    ∧ ((dijkstraIter grid1x3w (0,2) (runFuel grid1x3w)
          (dijkstraInit (0,1))).st (0,0)).previousNode = some (0,1) := by
  refine ⟨by decide, by decide, by decide⟩

/-! ## Claim C8 -/

/-- The finite set of cells of a grid. -/
def gridCells (g : Grid) : Finset Pos :=
  (Finset.range g.rows) ×ˢ (Finset.range g.cols)

theorem mem_gridCells {g : Grid} {p : Pos} : p ∈ gridCells g ↔ g.inBounds p := by
  cases p with
  | mk r c => simp [gridCells, Grid.inBounds, Finset.mem_product]

theorem card_gridCells (g : Grid) : (gridCells g).card = g.rows * g.cols := by
  simp [gridCells]

/-- The number of grid cells whose distance is strictly below that of p. -/
def belowCount (g : Grid) (st : Pos → NodeState) (p : Pos) : Nat :=
  ((gridCells g).filter (fun q => (st q).distance < (st p).distance)).card

/-- The predecessor-links-are-wellfounded invariant: every link strictly
decreases the distance, links stay on the grid, a finite non-start node has a
link, and visited nodes are finite-distance grid cells. -/
structure ChainInv (g : Grid) (startNode : Pos) (st : Pos → NodeState) : Prop where
  prevLt : ∀ p u, (st p).previousNode = some u → (st u).distance < (st p).distance
  prevGrid : ∀ p u, (st p).previousNode = some u → g.inBounds p ∧ g.inBounds u
  finPrev : ∀ p, (st p).distance ≠ DVal.inf →
    p = startNode ∨ (st p).previousNode ≠ none
  visitedFin : ∀ p, (st p).isVisited = true → (st p).distance ≠ DVal.inf
  visitedGrid : ∀ p, (st p).isVisited = true → g.inBounds p

theorem belowCount_lt_of_prev (g : Grid) (startNode : Pos) (st : Pos → NodeState)
    (inv : ChainInv g startNode st) (p u : Pos)
    (h : (st p).previousNode = some u) :
    belowCount g st u < belowCount g st p := by
  apply Finset.card_lt_card
  constructor
  · intro q hq
    obtain ⟨hqg, hqlt⟩ := Finset.mem_filter.mp hq
    exact Finset.mem_filter.mpr ⟨hqg, DVal.lt_trans hqlt (inv.prevLt p u h)⟩
  · intro hback
    have hu : u ∈ (gridCells g).filter (fun q => (st q).distance < (st p).distance) :=
      Finset.mem_filter.mpr ⟨mem_gridCells.mpr (inv.prevGrid p u h).2, inv.prevLt p u h⟩
    exact DVal.lt_irrefl _ (Finset.mem_filter.mp (hback hu)).2

theorem belowCount_lt_card (g : Grid) (st : Pos → NodeState) (p : Pos)
    (hp : g.inBounds p) : belowCount g st p < g.rows * g.cols := by
  rw [← card_gridCells g]
  apply Finset.card_lt_card
  constructor
  · exact Finset.filter_subset _ _
  · intro hback
    have := Finset.mem_filter.mp (hback (mem_gridCells.mpr hp))
    exact DVal.lt_irrefl _ this.2

theorem walkPrev_ne_nil (st : Pos → NodeState) (fuel : Nat) (p : Pos) :
    walkPrev st fuel p ≠ [] := by
  cases fuel with
  | zero => simp [walkPrev]
  | succ fuel =>
    unfold walkPrev
    cases (st p).previousNode with
    | none => simp
    | some q => simp

theorem walkPrev_reaches (g : Grid) (startNode : Pos) (st : Pos → NodeState)
    (inv : ChainInv g startNode st) :
    ∀ (fuel : Nat) (p : Pos), g.inBounds p → (st p).distance ≠ DVal.inf →
      belowCount g st p < fuel →
      (walkPrev st fuel p).head? = some startNode
      ∧ (walkPrev st fuel p).length ≤ belowCount g st p + 1 := by
  intro fuel
  induction fuel with
  | zero => intro p _ _ h; omega
  | succ fuel ih =>
    intro p hg hfin hlt
    rcases hprev : (st p).previousNode with _ | u
    · rcases inv.finPrev p hfin with rfl | hne
      · constructor
        · unfold walkPrev; rw [hprev]; rfl
        · unfold walkPrev; rw [hprev]; simp
      · exact absurd hprev hne
    · have hu_fin : (st u).distance ≠ DVal.inf :=
        DVal.ne_inf_of_lt (inv.prevLt p u hprev)
      have hu_grid := (inv.prevGrid p u hprev).2
      have hbc := belowCount_lt_of_prev g startNode st inv p u hprev
      obtain ⟨ih1, ih2⟩ := ih u hu_grid hu_fin (by omega)
      have hwalk : walkPrev st (fuel+1) p = walkPrev st fuel u ++ [p] := by
        show (match (st p).previousNode with
              | none => [p]
              | some q => walkPrev st fuel q ++ [p]) = walkPrev st fuel u ++ [p]
        rw [hprev]
      constructor
      · rw [hwalk]
        rcases hcons : walkPrev st fuel u with _ | ⟨a, t⟩
        · exact absurd hcons (walkPrev_ne_nil st fuel u)
        · rw [hcons] at ih1
          simpa using ih1
      · rw [hwalk]
        rw [List.length_append]
        simp only [List.length_singleton]
        omega

/-- Members of the stable sort are exactly the members of the input. -/
theorem mem_insertSorted {α : Type} (le : α → α → Bool) (x y : α) (l : List α) :
    y ∈ insertSorted le x l ↔ y = x ∨ y ∈ l := by
  induction l with
  | nil => simp [insertSorted]
  | cons a l ih =>
    unfold insertSorted
    split
    · simp only [List.mem_cons, ih]
      tauto
    · simp only [List.mem_cons]

theorem mem_stableSort {α : Type} (le : α → α → Bool) (x : α) (l : List α) :
    x ∈ stableSort le l ↔ x ∈ l := by
  unfold stableSort
  suffices h : ∀ (acc : List α), x ∈ l.foldl (fun acc y => insertSorted le y acc) acc
      ↔ x ∈ acc ∨ x ∈ l by
    simpa using h []
  induction l with
  | nil => intro acc; simp
  | cons a l ih =>
    intro acc
    rw [List.foldl_cons, ih, mem_insertSorted]
    simp only [List.mem_cons]
    tauto

theorem neighborPositions_inBounds (g : Grid) (p q : Pos) (hp : g.inBounds p)
    (hq : q ∈ neighborPositions g p) : g.inBounds q := by
  obtain ⟨hr, hc⟩ := hp
  unfold neighborPositions at hq
  simp only [List.mem_append] at hq
  rcases hq with ((h1 | h2) | h3) | h4
  · split at h1
    · simp only [List.mem_singleton] at h1
      subst h1
      exact ⟨by omega, hc⟩
    · simp at h1
  · split at h2
    · next hcond =>
      simp only [List.mem_singleton] at h2
      subst h2
      exact ⟨by omega, hc⟩
    · simp at h2
  · split at h3
    · simp only [List.mem_singleton] at h3
      subst h3
      exact ⟨hr, by omega⟩
    · simp at h3
  · split at h4
    · next hcond =>
      simp only [List.mem_singleton] at h4
      subst h4
      exact ⟨hr, by omega⟩
    · simp at h4

theorem neighborPositions_ne_self (g : Grid) (p q : Pos)
    (hq : q ∈ neighborPositions g p) : q ≠ p := by
  unfold neighborPositions at hq
  simp only [List.mem_append] at hq
  rcases hq with ((h1 | h2) | h3) | h4
  · split at h1
    · next hcond =>
      simp only [List.mem_singleton] at h1
      subst h1
      intro he
      have := congrArg Prod.fst he
      simp at this
      omega
    · simp at h1
  · split at h2
    · next hcond =>
      simp only [List.mem_singleton] at h2
      subst h2
      intro he
      have := congrArg Prod.fst he
      simp at this
    · simp at h2
  · split at h3
    · next hcond =>
      simp only [List.mem_singleton] at h3
      subst h3
      intro he
      have := congrArg Prod.snd he
      simp at this
      omega
    · simp at h3
  · split at h4
    · next hcond =>
      simp only [List.mem_singleton] at h4
      subst h4
      intro he
      have := congrArg Prod.snd he
      simp at this
    · simp at h4

theorem DVal.lt_succ_of_fin {a : DVal} (h : a ≠ DVal.inf) : a < a.succ := by
  rcases a with d | _
  · simp [DVal.succ, DVal.fin_lt_fin]
  · exact absurd rfl h

theorem DVal.succ_ne_inf {a : DVal} (h : a ≠ DVal.inf) : a.succ ≠ DVal.inf := by
  rcases a with d | _
  · simp [DVal.succ]
  · exact absurd rfl h

theorem ChainInv_write (g : Grid) (startNode : Pos) (st : Pos → NodeState) (u v : Pos)
    (ns : NodeState) (inv : ChainInv g startNode st)
    (hd : ns.distance = (st u).distance.succ) (hpv : ns.previousNode = some u)
    (hvv : ns.isVisited = (st v).isVisited)
    (hu_fin : (st u).distance ≠ DVal.inf) (hu_g : g.inBounds u) (hv_g : g.inBounds v)
    (huv : u ≠ v)
    (hle : (st u).distance.succ ≤ (st v).distance) :
    ChainInv g startNode (setNode st v ns) := by
  refine ⟨?_, ?_, ?_, ?_, ?_⟩
  · intro p w hw
    by_cases hp : p = v
    · subst hp
      rw [setNode_self] at hw ⊢
      rw [hpv] at hw
      have hwu : w = u := by
        have : some u = some w := by rw [← hw]
        exact (Option.some_inj.mp this).symm
      subst hwu
      rw [setNode_ne _ _ _ _ huv, hd]
      exact DVal.lt_succ_of_fin hu_fin
    · rw [setNode_ne _ _ _ _ hp] at hw ⊢
      have hlt := inv.prevLt p w hw
      by_cases hwv : w = v
      · subst hwv
        rw [setNode_self, hd]
        exact DVal.lt_of_le_of_lt hle hlt
      · rw [setNode_ne _ _ _ _ hwv]
        exact hlt
  · intro p w hw
    by_cases hp : p = v
    · subst hp
      rw [setNode_self, hpv] at hw
      have hwu : w = u := by
        have : some u = some w := by rw [← hw]
        exact (Option.some_inj.mp this).symm
      subst hwu
      exact ⟨hv_g, hu_g⟩
    · rw [setNode_ne _ _ _ _ hp] at hw
      exact inv.prevGrid p w hw
  · intro p hfin
    by_cases hp : p = v
    · subst hp
      rw [setNode_self, hpv]
      right
      simp
    · rw [setNode_ne _ _ _ _ hp] at hfin ⊢
      exact inv.finPrev p hfin
  · intro p hvis
    by_cases hp : p = v
    · subst hp
      rw [setNode_self, hd]
      exact DVal.succ_ne_inf hu_fin
    · rw [setNode_ne _ _ _ _ hp] at hvis ⊢
      exact inv.visitedFin p hvis
  · intro p hvis
    by_cases hp : p = v
    · subst hp
      exact hv_g
    · rw [setNode_ne _ _ _ _ hp] at hvis
      exact inv.visitedGrid p hvis

theorem ChainInv_mark (g : Grid) (startNode : Pos) (st : Pos → NodeState) (u : Pos)
    (inv : ChainInv g startNode st)
    (hfin : (st u).distance ≠ DVal.inf) (hg : g.inBounds u) :
    ChainInv g startNode (setNode st u { st u with isVisited := true }) := by
  have hdist : ∀ q, ((setNode st u { st u with isVisited := true }) q).distance
      = (st q).distance := by
    intro q
    by_cases hq : q = u
    · subst hq; rw [setNode_self]
    · rw [setNode_ne _ _ _ _ hq]
  have hprev : ∀ q, ((setNode st u { st u with isVisited := true }) q).previousNode
      = (st q).previousNode := by
    intro q
    by_cases hq : q = u
    · subst hq; rw [setNode_self]
    · rw [setNode_ne _ _ _ _ hq]
  refine ⟨?_, ?_, ?_, ?_, ?_⟩
  · intro p w hw
    rw [hdist, hdist]
    exact inv.prevLt p w (by rw [← hprev p]; exact hw)
  · intro p w hw
    exact inv.prevGrid p w (by rw [← hprev p]; exact hw)
  · intro p hfin'
    rw [hprev]
    exact inv.finPrev p (by rw [← hdist p]; exact hfin')
  · intro p hvis
    rw [hdist]
    by_cases hp : p = u
    · subst hp; exact hfin
    · rw [setNode_ne _ _ _ _ hp] at hvis
      exact inv.visitedFin p hvis
  · intro p hvis
    by_cases hp : p = u
    · subst hp; exact hg
    · rw [setNode_ne _ _ _ _ hp] at hvis
      exact inv.visitedGrid p hvis

/-- The loop invariant of the three single-frontier strategies: well-founded
predecessor links plus finite-distance on-grid open-set members. -/
structure SInv (g : Grid) (startNode : Pos) (s : DijkstraState) : Prop where
  chain : ChainInv g startNode s.st
  openFin : ∀ p ∈ s.openSet, (s.st p).distance ≠ DVal.inf
  openGrid : ∀ p ∈ s.openSet, g.inBounds p

theorem foldl_preserves_mem {α β : Type} (f : β → α → β) (P : β → Prop) :
    ∀ (l : List α), (∀ s a, a ∈ l → P s → P (f s a)) → ∀ s, P s → P (l.foldl f s)
  | [], _, _, h => h
  | a :: t, hf, s, h =>
    foldl_preserves_mem f P t (fun s' b hb => hf s' b (List.mem_cons_of_mem a hb)) _
      (hf s a (List.mem_cons_self a t) h)

theorem mark_dist_eq (st : Pos → NodeState) (u q : Pos) :
    ((setNode st u { st u with isVisited := true }) q).distance = (st q).distance := by
  by_cases hq : q = u
  · subst hq; rw [setNode_self]
  · rw [setNode_ne _ _ _ _ hq]

theorem getUnvisitedNeighbors_sub (g : Grid) (st : Pos → NodeState) (p q : Pos)
    (hq : q ∈ getUnvisitedNeighbors g st p) : q ∈ neighborPositions g p :=
  (List.mem_filter.mp hq).1

theorem updateUnvisitedNeighbors_SInv (g : Grid) (startNode node : Pos)
    (s : DijkstraState) (hinv : SInv g startNode s)
    (hfin : (s.st node).distance ≠ DVal.inf) (hg : g.inBounds node) :
    SInv g startNode (updateUnvisitedNeighbors g node s) := by
  unfold updateUnvisitedNeighbors
  refine (foldl_preserves_mem _
    (fun t => SInv g startNode t ∧ (t.st node).distance = (s.st node).distance)
    _ ?_ s ⟨hinv, rfl⟩).1
  intro t a ha ⟨ht, hnd⟩
  have hanb := getUnvisitedNeighbors_sub g s.st node a ha
  have hag : g.inBounds a := neighborPositions_inBounds g node a hg hanb
  have hane : a ≠ node := neighborPositions_ne_self g node a hanb
  dsimp only
  split
  · next hlt =>
    have htfin : (t.st node).distance ≠ DVal.inf := by rw [hnd]; exact hfin
    constructor
    · refine ⟨?_, ?_, ?_⟩
      · exact ChainInv_write g startNode t.st node a _ ht.chain rfl rfl rfl
          htfin hg hag (fun he => hane he.symm) (DVal.le_of_lt hlt)
      · intro p hp
        by_cases hpa : p = a
        · subst hpa
          show ((setNode t.st p _ ) p).distance ≠ DVal.inf
          rw [setNode_self]
          exact DVal.succ_ne_inf htfin
        · show ((setNode t.st a _ ) p).distance ≠ DVal.inf
          rw [setNode_ne _ _ _ _ hpa]
          refine ht.openFin p ?_
          by_cases hmem : a ∈ t.openSet
          · simpa [hmem] using hp
          · simp only [if_neg hmem, List.mem_append, List.mem_singleton] at hp
            rcases hp with hp | hp
            · exact hp
            · exact absurd hp hpa
      · intro p hp
        by_cases hpa : p = a
        · subst hpa; exact hag
        · refine ht.openGrid p ?_
          by_cases hmem : a ∈ t.openSet
          · simpa [hmem] using hp
          · simp only [if_neg hmem, List.mem_append, List.mem_singleton] at hp
            rcases hp with hp | hp
            · exact hp
            · exact absurd hp hpa
    · show ((setNode t.st a _) node).distance = _
      rw [setNode_ne _ _ _ _ (fun he => hane he.symm |>.elim)]
      exact hnd
  · exact ⟨ht, hnd⟩

theorem dijkstraStep_SInv (g : Grid) (startNode f : Pos) (s : DijkstraState)
    (hinv : SInv g startNode s) : SInv g startNode (dijkstraStep g f s) := by
  unfold dijkstraStep
  split
  · exact hinv
  · split
    · exact ⟨hinv.chain, hinv.openFin, hinv.openGrid⟩
    · next closest rest heq =>
      have hmem : ∀ x ∈ closest :: rest, x ∈ s.openSet := by
        intro x hx
        rw [← mem_stableSort (fun a b => (s.st a).distance.leb ((s.st b).distance)) x
          s.openSet, heq]
        exact hx
      have hclosest : closest ∈ s.openSet := hmem closest (List.mem_cons_self _ _)
      have hrest : ∀ x ∈ rest, x ∈ s.openSet :=
        fun x hx => hmem x (List.mem_cons_of_mem _ hx)
      split
      · exact ⟨hinv.chain, fun p hp => hinv.openFin p (hrest p hp),
          fun p hp => hinv.openGrid p (hrest p hp)⟩
      · split
        · exact ⟨hinv.chain, fun p hp => hinv.openFin p (hrest p hp),
            fun p hp => hinv.openGrid p (hrest p hp)⟩
        · next hninf =>
          split
          · exact ⟨hinv.chain, fun p hp => hinv.openFin p (hrest p hp),
              fun p hp => hinv.openGrid p (hrest p hp)⟩
          · have hfin : (s.st closest).distance ≠ DVal.inf := hninf
            have hg := hinv.openGrid closest hclosest
            have hinv1 : SInv g startNode
                { s with
                  st := setNode s.st closest { s.st closest with isVisited := true },
                  openSet := rest,
                  visitedOrder := s.visitedOrder ++ [closest] } := by
              refine ⟨ChainInv_mark g startNode s.st closest hinv.chain hfin hg, ?_, ?_⟩
              · intro p hp
                show ((setNode s.st closest _) p).distance ≠ DVal.inf
                rw [mark_dist_eq]
                exact hinv.openFin p (hrest p hp)
              · intro p hp
                exact hinv.openGrid p (hrest p hp)
            split
            · exact ⟨hinv1.chain, hinv1.openFin, hinv1.openGrid⟩
            · exact updateUnvisitedNeighbors_SInv g startNode closest _ hinv1
                (by show ((setNode s.st closest _) closest).distance ≠ DVal.inf
                    rw [mark_dist_eq]; exact hfin) hg

theorem dijkstraIter_SInv (g : Grid) (startNode f : Pos) (n : Nat) (s : DijkstraState)
    (hinv : SInv g startNode s) : SInv g startNode (dijkstraIter g f n s) := by
  induction n generalizing s with
  | zero => exact hinv
  | succ n ih => exact ih _ (dijkstraStep_SInv g startNode f s hinv)

theorem astarUpdateNeighbors_SInv (g : Grid) (startNode node finishNode : Pos)
    (s : DijkstraState) (hinv : SInv g startNode s)
    (hfin : (s.st node).distance ≠ DVal.inf) (hg : g.inBounds node) :
    SInv g startNode (astarUpdateNeighbors g node finishNode s) := by
  unfold astarUpdateNeighbors
  refine (foldl_preserves_mem _
    (fun t => SInv g startNode t ∧ (t.st node).distance = (s.st node).distance)
    _ ?_ s ⟨hinv, rfl⟩).1
  intro t a ha ⟨ht, hnd⟩
  have hanb := getUnvisitedNeighbors_sub g s.st node a ha
  have hag : g.inBounds a := neighborPositions_inBounds g node a hg hanb
  have hane : a ≠ node := neighborPositions_ne_self g node a hanb
  dsimp only
  split
  · next hlt =>
    have htfin : (t.st node).distance ≠ DVal.inf := by rw [hnd]; exact hfin
    constructor
    · refine ⟨?_, ?_, ?_⟩
      · exact ChainInv_write g startNode t.st node a _ ht.chain rfl rfl rfl
          htfin hg hag (fun he => hane he.symm) (DVal.le_of_lt hlt)
      · intro p hp
        by_cases hpa : p = a
        · subst hpa
          show ((setNode t.st p _ ) p).distance ≠ DVal.inf
          rw [setNode_self]
          exact DVal.succ_ne_inf htfin
        · show ((setNode t.st a _ ) p).distance ≠ DVal.inf
          rw [setNode_ne _ _ _ _ hpa]
          refine ht.openFin p ?_
          by_cases hmem : a ∈ t.openSet
          · simpa [hmem] using hp
          · simp only [if_neg hmem, List.mem_append, List.mem_singleton] at hp
            rcases hp with hp | hp
            · exact hp
            · exact absurd hp hpa
      · intro p hp
        by_cases hpa : p = a
        · subst hpa; exact hag
        · refine ht.openGrid p ?_
          by_cases hmem : a ∈ t.openSet
          · simpa [hmem] using hp
          · simp only [if_neg hmem, List.mem_append, List.mem_singleton] at hp
            rcases hp with hp | hp
            · exact hp
            · exact absurd hp hpa
    · show ((setNode t.st a _) node).distance = _
      rw [setNode_ne _ _ _ _ (fun he => hane he.symm |>.elim)]
      exact hnd
  · exact ⟨ht, hnd⟩

theorem astarStep_SInv (g : Grid) (startNode f : Pos) (s : DijkstraState)
    (hinv : SInv g startNode s) : SInv g startNode (astarStep g f s) := by
  unfold astarStep
  split
  · exact hinv
  · split
    · exact ⟨hinv.chain, hinv.openFin, hinv.openGrid⟩
    · next closest rest heq =>
      have hmem : ∀ x ∈ closest :: rest, x ∈ s.openSet := by
        intro x hx
        rw [← mem_stableSort (astarLe s.st) x s.openSet, heq]
        exact hx
      have hclosest : closest ∈ s.openSet := hmem closest (List.mem_cons_self _ _)
      have hrest : ∀ x ∈ rest, x ∈ s.openSet :=
        fun x hx => hmem x (List.mem_cons_of_mem _ hx)
      split
      · exact ⟨hinv.chain, fun p hp => hinv.openFin p (hrest p hp),
          fun p hp => hinv.openGrid p (hrest p hp)⟩
      · split
        · exact ⟨hinv.chain, fun p hp => hinv.openFin p (hrest p hp),
            fun p hp => hinv.openGrid p (hrest p hp)⟩
        · have hfin : (s.st closest).distance ≠ DVal.inf := hinv.openFin closest hclosest
          have hg := hinv.openGrid closest hclosest
          have hinv1 : SInv g startNode
              { s with
                st := setNode s.st closest { s.st closest with isVisited := true },
                openSet := rest,
                visitedOrder := s.visitedOrder ++ [closest] } := by
            refine ⟨ChainInv_mark g startNode s.st closest hinv.chain hfin hg, ?_, ?_⟩
            · intro p hp
              show ((setNode s.st closest _) p).distance ≠ DVal.inf
              rw [mark_dist_eq]
              exact hinv.openFin p (hrest p hp)
            · intro p hp
              exact hinv.openGrid p (hrest p hp)
          split
          · exact ⟨hinv1.chain, hinv1.openFin, hinv1.openGrid⟩
          · exact astarUpdateNeighbors_SInv g startNode closest f _ hinv1
              (by show ((setNode s.st closest _) closest).distance ≠ DVal.inf
                  rw [mark_dist_eq]; exact hfin) hg

theorem astarIter_SInv (g : Grid) (startNode f : Pos) (n : Nat) (s : DijkstraState)
    (hinv : SInv g startNode s) : SInv g startNode (astarIter g f n s) := by
  induction n generalizing s with
  | zero => exact hinv
  | succ n ih => exact ih _ (astarStep_SInv g startNode f s hinv)

theorem greedyUpdateNeighbors_SInv (g : Grid) (startNode node finishNode : Pos)
    (s : DijkstraState) (hinv : SInv g startNode s)
    (hfin : (s.st node).distance ≠ DVal.inf) (hg : g.inBounds node) :
    SInv g startNode (greedyUpdateNeighbors g node finishNode s) := by
  unfold greedyUpdateNeighbors
  refine (foldl_preserves_mem _
    (fun t => SInv g startNode t ∧ (t.st node).distance = (s.st node).distance)
    _ ?_ s ⟨hinv, rfl⟩).1
  intro t a ha ⟨ht, hnd⟩
  have hanb := getUnvisitedNeighbors_sub g s.st node a ha
  have hag : g.inBounds a := neighborPositions_inBounds g node a hg hanb
  have hane : a ≠ node := neighborPositions_ne_self g node a hanb
  dsimp only
  split
  · next hinf =>
    have htfin : (t.st node).distance ≠ DVal.inf := by rw [hnd]; exact hfin
    constructor
    · refine ⟨?_, ?_, ?_⟩
      · refine ChainInv_write g startNode t.st node a _ ht.chain rfl rfl rfl
          htfin hg hag (fun he => hane he.symm) ?_
        rw [hinf]
        exact DVal.le_inf _
      · intro p hp
        by_cases hpa : p = a
        · subst hpa
          show ((setNode t.st p _ ) p).distance ≠ DVal.inf
          rw [setNode_self]
          exact DVal.succ_ne_inf htfin
        · show ((setNode t.st a _ ) p).distance ≠ DVal.inf
          rw [setNode_ne _ _ _ _ hpa]
          refine ht.openFin p ?_
          simp only [List.mem_append, List.mem_singleton] at hp
          rcases hp with hp | hp
          · exact hp
          · exact absurd hp hpa
      · intro p hp
        by_cases hpa : p = a
        · subst hpa; exact hag
        · refine ht.openGrid p ?_
          simp only [List.mem_append, List.mem_singleton] at hp
          rcases hp with hp | hp
          · exact hp
          · exact absurd hp hpa
    · show ((setNode t.st a _) node).distance = _
      rw [setNode_ne _ _ _ _ (fun he => hane he.symm |>.elim)]
      exact hnd
  · exact ⟨ht, hnd⟩

theorem greedyStep_SInv (g : Grid) (startNode f : Pos) (s : DijkstraState)
    (hinv : SInv g startNode s) : SInv g startNode (greedyStep g f s) := by
  unfold greedyStep
  split
  · exact hinv
  · split
    · exact ⟨hinv.chain, hinv.openFin, hinv.openGrid⟩
    · next closest rest heq =>
      have hmem : ∀ x ∈ closest :: rest, x ∈ s.openSet := by
        intro x hx
        rw [← mem_stableSort
          (fun a b => (s.st a).heuristicDistance.leb ((s.st b).heuristicDistance)) x
          s.openSet, heq]
        exact hx
      have hclosest : closest ∈ s.openSet := hmem closest (List.mem_cons_self _ _)
      have hrest : ∀ x ∈ rest, x ∈ s.openSet :=
        fun x hx => hmem x (List.mem_cons_of_mem _ hx)
      split
      · exact ⟨hinv.chain, fun p hp => hinv.openFin p (hrest p hp),
          fun p hp => hinv.openGrid p (hrest p hp)⟩
      · split
        · exact ⟨hinv.chain, fun p hp => hinv.openFin p (hrest p hp),
            fun p hp => hinv.openGrid p (hrest p hp)⟩
        · have hfin : (s.st closest).distance ≠ DVal.inf := hinv.openFin closest hclosest
          have hg := hinv.openGrid closest hclosest
          have hinv1 : SInv g startNode
              { s with
                st := setNode s.st closest { s.st closest with isVisited := true },
                openSet := rest,
                visitedOrder := s.visitedOrder ++ [closest] } := by
            refine ⟨ChainInv_mark g startNode s.st closest hinv.chain hfin hg, ?_, ?_⟩
            · intro p hp
              show ((setNode s.st closest _) p).distance ≠ DVal.inf
              rw [mark_dist_eq]
              exact hinv.openFin p (hrest p hp)
            · intro p hp
              exact hinv.openGrid p (hrest p hp)
          split
          · exact ⟨hinv1.chain, hinv1.openFin, hinv1.openGrid⟩
          · exact greedyUpdateNeighbors_SInv g startNode closest f _ hinv1
              (by show ((setNode s.st closest _) closest).distance ≠ DVal.inf
                  rw [mark_dist_eq]; exact hfin) hg

theorem greedyIter_SInv (g : Grid) (startNode f : Pos) (n : Nat) (s : DijkstraState)
    (hinv : SInv g startNode s) : SInv g startNode (greedyIter g f n s) := by
  induction n generalizing s with
  | zero => exact hinv
  | succ n ih => exact ih _ (greedyStep_SInv g startNode f s hinv)

theorem dijkstraInit_SInv (g : Grid) (startNode : Pos) (hs : g.inBounds startNode) :
    SInv g startNode (dijkstraInit startNode) := by
  have hprev : ∀ p, ((dijkstraInit startNode).st p).previousNode = none := by
    intro p
    show ((setNode resetState startNode _) p).previousNode = none
    by_cases hp : p = startNode
    · subst hp; rw [setNode_self]; rfl
    · rw [setNode_ne _ _ _ _ hp]; rfl
  have hvis : ∀ p, ((dijkstraInit startNode).st p).isVisited = false := by
    intro p
    show ((setNode resetState startNode _) p).isVisited = false
    by_cases hp : p = startNode
    · subst hp; rw [setNode_self]; rfl
    · rw [setNode_ne _ _ _ _ hp]; rfl
  have hdist : ∀ p, p ≠ startNode → ((dijkstraInit startNode).st p).distance = DVal.inf := by
    intro p hp
    show ((setNode resetState startNode _) p).distance = DVal.inf
    rw [setNode_ne _ _ _ _ hp]; rfl
  refine ⟨⟨?_, ?_, ?_, ?_, ?_⟩, ?_, ?_⟩
  · intro p u h
    rw [hprev p] at h
    exact absurd h (by simp)
  · intro p u h
    rw [hprev p] at h
    exact absurd h (by simp)
  · intro p hfin
    by_cases hp : p = startNode
    · exact Or.inl hp
    · exact absurd (hdist p hp) hfin
  · intro p h
    rw [hvis p] at h
    exact absurd h (by simp)
  · intro p h
    rw [hvis p] at h
    exact absurd h (by simp)
  · intro p hp
    simp only [dijkstraInit, List.mem_singleton] at hp
    subst hp
    show ((setNode resetState p _) p).distance ≠ DVal.inf
    rw [setNode_self]
    simp
  · intro p hp
    simp only [dijkstraInit, List.mem_singleton] at hp
    subst hp
    exact hs

theorem astarInit_SInv (g : Grid) (startNode finishNode : Pos)
    (hs : g.inBounds startNode) : SInv g startNode (astarInit startNode finishNode) := by
  have hprev : ∀ p, ((astarInit startNode finishNode).st p).previousNode = none := by
    intro p
    show ((setNode resetState startNode _) p).previousNode = none
    by_cases hp : p = startNode
    · subst hp; rw [setNode_self]; rfl
    · rw [setNode_ne _ _ _ _ hp]; rfl
  have hvis : ∀ p, ((astarInit startNode finishNode).st p).isVisited = false := by
    intro p
    show ((setNode resetState startNode _) p).isVisited = false
    by_cases hp : p = startNode
    · subst hp; rw [setNode_self]; rfl
    · rw [setNode_ne _ _ _ _ hp]; rfl
  have hdist : ∀ p, p ≠ startNode →
      ((astarInit startNode finishNode).st p).distance = DVal.inf := by
    intro p hp
    show ((setNode resetState startNode _) p).distance = DVal.inf
    rw [setNode_ne _ _ _ _ hp]; rfl
  refine ⟨⟨?_, ?_, ?_, ?_, ?_⟩, ?_, ?_⟩
  · intro p u h
    rw [hprev p] at h
    exact absurd h (by simp)
  · intro p u h
    rw [hprev p] at h
    exact absurd h (by simp)
  · intro p hfin
    by_cases hp : p = startNode
    · exact Or.inl hp
    · exact absurd (hdist p hp) hfin
  · intro p h
    rw [hvis p] at h
    exact absurd h (by simp)
  · intro p h
    rw [hvis p] at h
    exact absurd h (by simp)
  · intro p hp
    simp only [astarInit, List.mem_singleton] at hp
    subst hp
    show ((setNode resetState p _) p).distance ≠ DVal.inf
    rw [setNode_self]
    simp
  · intro p hp
    simp only [astarInit, List.mem_singleton] at hp
    subst hp
    exact hs

theorem greedyInit_SInv (g : Grid) (startNode finishNode : Pos)
    (hs : g.inBounds startNode) : SInv g startNode (greedyInit startNode finishNode) := by
  have hprev : ∀ p, ((greedyInit startNode finishNode).st p).previousNode = none := by
    intro p
    show ((setNode resetState startNode _) p).previousNode = none
    by_cases hp : p = startNode
    · subst hp; rw [setNode_self]; rfl
    · rw [setNode_ne _ _ _ _ hp]; rfl
  have hvis : ∀ p, ((greedyInit startNode finishNode).st p).isVisited = false := by
    intro p
    show ((setNode resetState startNode _) p).isVisited = false
    by_cases hp : p = startNode
    · subst hp; rw [setNode_self]; rfl
    · rw [setNode_ne _ _ _ _ hp]; rfl
  have hdist : ∀ p, p ≠ startNode →
      ((greedyInit startNode finishNode).st p).distance = DVal.inf := by
    intro p hp
    show ((setNode resetState startNode _) p).distance = DVal.inf
    rw [setNode_ne _ _ _ _ hp]; rfl
  refine ⟨⟨?_, ?_, ?_, ?_, ?_⟩, ?_, ?_⟩
  · intro p u h
    rw [hprev p] at h
    exact absurd h (by simp)
  · intro p u h
    rw [hprev p] at h
    exact absurd h (by simp)
  · intro p hfin
    by_cases hp : p = startNode
    · exact Or.inl hp
    · exact absurd (hdist p hp) hfin
  · intro p h
    rw [hvis p] at h
    exact absurd h (by simp)
  · intro p h
    rw [hvis p] at h
    exact absurd h (by simp)
  · intro p hp
    simp only [greedyInit, List.mem_singleton] at hp
    subst hp
    show ((setNode resetState p _) p).distance ≠ DVal.inf
    rw [setNode_self]
    simp
  · intro p hp
    simp only [greedyInit, List.mem_singleton] at hp
    subst hp
    exact hs

/-- Every member of the list is an on-grid cell with finite distance. -/
def GoodList (g : Grid) (st : Pos → NodeState) (l : List Pos) : Prop :=
  ∀ p ∈ l, g.inBounds p ∧ (st p).distance ≠ DVal.inf

theorem GoodList_transfer {g : Grid} {st st' : Pos → NodeState} {l : List Pos}
    (h : GoodList g st l)
    (hpersist : ∀ q, (st q).distance ≠ DVal.inf → (st' q).distance ≠ DVal.inf) :
    GoodList g st' l :=
  fun p hp => ⟨(h p hp).1, hpersist p (h p hp).2⟩

theorem write_keeps_fin (st : Pos → NodeState) (v : Pos) (ns : NodeState)
    (hns : ns.distance ≠ DVal.inf) (q : Pos)
    (hq : (st q).distance ≠ DVal.inf) : ((setNode st v ns) q).distance ≠ DVal.inf := by
  by_cases hqv : q = v
  · subst hqv; rw [setNode_self]; exact hns
  · rw [setNode_ne _ _ _ _ hqv]; exact hq

theorem bmGetNeighbors_sub (g : Grid) (p q : Pos) (hq : q ∈ bmGetNeighbors g p) :
    q ∈ neighborPositions g p :=
  (List.mem_filter.mp hq).1

theorem fpRelaxOne_good (g : Grid) (startNode : Pos) (B : DVal) (u : Pos)
    (bst : BmsspSt) (w : List Pos) (v : Pos)
    (hinv : ChainInv g startNode bst.st)
    (hug : g.inBounds u) (huf : (bst.st u).distance ≠ DVal.inf)
    (hv : v ∈ bmGetNeighbors g u)
    (hw : GoodList g bst.st w) :
    ChainInv g startNode (fpRelaxOne B u (bst, w) v).1.st
    ∧ (∀ q, (bst.st q).distance ≠ DVal.inf →
        ((fpRelaxOne B u (bst, w) v).1.st q).distance ≠ DVal.inf)
    ∧ GoodList g (fpRelaxOne B u (bst, w) v).1.st (fpRelaxOne B u (bst, w) v).2 := by
  have hvnb := bmGetNeighbors_sub g u v hv
  have hvg : g.inBounds v := neighborPositions_inBounds g u v hug hvnb
  have hvne : v ≠ u := neighborPositions_ne_self g u v hvnb
  unfold fpRelaxOne
  dsimp only
  split
  · next hle =>
    have hchain' : ChainInv g startNode (setNode bst.st v
        { bst.st v with distance := (bst.st u).distance.succ, previousNode := some u }) :=
      ChainInv_write g startNode bst.st u v _ hinv rfl rfl rfl huf hug hvg
        (fun he => hvne he.symm) hle
    have hpersist : ∀ q, (bst.st q).distance ≠ DVal.inf →
        ((setNode bst.st v
          { bst.st v with distance := (bst.st u).distance.succ, previousNode := some u })
          q).distance ≠ DVal.inf :=
      fun q hq => write_keeps_fin bst.st v _ (DVal.succ_ne_inf huf) q hq
    have hw' : GoodList g (setNode bst.st v
        { bst.st v with distance := (bst.st u).distance.succ, previousNode := some u }) w :=
      GoodList_transfer hw hpersist
    have hvgood : g.inBounds v ∧ ((setNode bst.st v
        { bst.st v with distance := (bst.st u).distance.succ, previousNode := some u })
          v).distance ≠ DVal.inf := by
      refine ⟨hvg, ?_⟩
      rw [setNode_self]
      exact DVal.succ_ne_inf huf
    have hwext : GoodList g (setNode bst.st v
        { bst.st v with distance := (bst.st u).distance.succ, previousNode := some u })
        (w ++ [v]) := by
      intro p hp
      rcases List.mem_append.mp hp with hp | hp
      · exact hw' p hp
      · rw [List.mem_singleton] at hp
        subst hp
        exact hvgood
    repeat' split
    all_goals
      first
        | exact ⟨hchain', hpersist, hw'⟩
        | exact ⟨hchain', hpersist, hwext⟩
  · exact ⟨hinv, fun q hq => hq, hw⟩

theorem fpRound_good (g : Grid) (startNode : Pos) (B : DVal) (wPrev : List Pos)
    (bst : BmsspSt) (hinv : ChainInv g startNode bst.st)
    (hprev : GoodList g bst.st wPrev) :
    ChainInv g startNode (fpRound g B wPrev bst).1.st
    ∧ (∀ q, (bst.st q).distance ≠ DVal.inf →
        ((fpRound g B wPrev bst).1.st q).distance ≠ DVal.inf)
    ∧ GoodList g (fpRound g B wPrev bst).1.st (fpRound g B wPrev bst).2 := by
  unfold fpRound
  refine foldl_preserves_mem _
    (fun acc : BmsspSt × List Pos => ChainInv g startNode acc.1.st
      ∧ (∀ q, (bst.st q).distance ≠ DVal.inf → (acc.1.st q).distance ≠ DVal.inf)
      ∧ GoodList g acc.1.st acc.2)
    wPrev ?_ (bst, []) ⟨hinv, fun q hq => hq, fun p hp => absurd hp (by simp)⟩
  intro acc u hu hacc
  refine foldl_preserves_mem _
    (fun acc2 : BmsspSt × List Pos => ChainInv g startNode acc2.1.st
      ∧ (∀ q, (bst.st q).distance ≠ DVal.inf → (acc2.1.st q).distance ≠ DVal.inf)
      ∧ GoodList g acc2.1.st acc2.2)
    (bmGetNeighbors g u) ?_ acc hacc
  intro acc2 v hv hacc2
  obtain ⟨hc2, hpers2, hgw2⟩ := hacc2
  rcases acc2 with ⟨bst2, w2⟩
  have hug := hprev u hu
  have hstep := fpRelaxOne_good g startNode B u bst2 w2 v hc2 hug.1
    (hpers2 u hug.2) hv hgw2
  exact ⟨hstep.1, fun q hq => hstep.2.1 q (hpers2 q hq), hstep.2.2⟩

theorem mem_dedupAppend (l add : List Pos) :
    ∀ x ∈ add.foldl (fun wl v => if v ∈ wl then wl else wl ++ [v]) l,
      x ∈ l ∨ x ∈ add := by
  refine foldl_preserves_mem _ (fun wl => ∀ x ∈ wl, x ∈ l ∨ x ∈ add) add ?_ l
    (fun x hx => Or.inl hx)
  intro wl v hvmem hwl x hx
  split at hx
  · exact hwl x hx
  · rcases List.mem_append.mp hx with hx | hx
    · exact hwl x hx
    · rw [List.mem_singleton] at hx
      subst hx
      exact Or.inr hvmem

theorem fpLoop_good (g : Grid) (startNode : Pos) (k : Nat) (B : DVal) (S : List Pos) :
    ∀ (fuel : Nat) (wPrev wList : List Pos) (bst : BmsspSt),
      ChainInv g startNode bst.st → GoodList g bst.st wPrev →
      GoodList g bst.st wList →
      ChainInv g startNode (fpLoop g k B S fuel wPrev wList bst).2.st
      ∧ (∀ q, (bst.st q).distance ≠ DVal.inf →
          ((fpLoop g k B S fuel wPrev wList bst).2.st q).distance ≠ DVal.inf)
      ∧ GoodList g (fpLoop g k B S fuel wPrev wList bst).2.st
          (fpLoop g k B S fuel wPrev wList bst).1.2 := by
  intro fuel
  induction fuel with
  | zero =>
    intro wPrev wList bst hinv hp hl
    exact ⟨hinv, fun q hq => hq, hl⟩
  | succ fuel ih =>
    intro wPrev wList bst hinv hp hl
    have hr := fpRound_good g startNode B wPrev bst hinv hp
    have hl1 : GoodList g (fpRound g B wPrev bst).1.st
        ((fpRound g B wPrev bst).2.foldl
          (fun wl v => if v ∈ wl then wl else wl ++ [v]) wList) := by
      intro x hx
      rcases mem_dedupAppend wList (fpRound g B wPrev bst).2 x hx with hx | hx
      · exact (GoodList_transfer hl hr.2.1) x hx
      · exact hr.2.2 x hx
    show (ChainInv g startNode (fpLoop g k B S (fuel+1) wPrev wList bst).2.st) ∧ _
    unfold fpLoop
    rcases hround : fpRound g B wPrev bst with ⟨bst1, wCurr⟩
    rw [hround] at hr hl1
    dsimp only at hr hl1 ⊢
    split
    · exact ⟨hr.1, hr.2.1, hl1⟩
    · split
      · exact ⟨hr.1, hr.2.1, hl1⟩
      · have := ih wCurr _ bst1 hr.1 hr.2.2 hl1
        exact ⟨this.1, fun q hq => this.2.1 q (hr.2.1 q hq), this.2.2⟩

theorem fpLoop_P_eq (g : Grid) (k : Nat) (B : DVal) (S : List Pos) :
    ∀ (fuel : Nat) (wPrev wList : List Pos) (bst : BmsspSt),
      (fpLoop g k B S fuel wPrev wList bst).1.1 = S := by
  intro fuel
  induction fuel with
  | zero => intro wPrev wList bst; rfl
  | succ fuel ih =>
    intro wPrev wList bst
    unfold fpLoop
    dsimp only
    split
    · rfl
    · split
      · rfl
      · exact ih _ _ _

theorem findPivots_good (g : Grid) (startNode : Pos) (k : Nat) (B : DVal)
    (S : List Pos) (bst : BmsspSt)
    (hinv : ChainInv g startNode bst.st) (hS : GoodList g bst.st S) :
    ChainInv g startNode (findPivots g k B S bst).2.st
    ∧ (∀ q, (bst.st q).distance ≠ DVal.inf →
        ((findPivots g k B S bst).2.st q).distance ≠ DVal.inf)
    ∧ GoodList g (findPivots g k B S bst).2.st (findPivots g k B S bst).1.1
    ∧ GoodList g (findPivots g k B S bst).2.st (findPivots g k B S bst).1.2 := by
  have h := fpLoop_good g startNode k B S k S S bst hinv hS hS
  have hP : (findPivots g k B S bst).1.1 = S := fpLoop_P_eq g k B S k S S bst
  exact ⟨h.1, h.2.1, by rw [hP]; exact GoodList_transfer hS h.2.1, h.2.2⟩

theorem heapGet_mem (es : List (Pos × DVal)) (i : Nat) (h : i < es.length) :
    heapGet es i ∈ es := by
  unfold heapGet
  rw [List.getD_eq_getElem es _ h]
  exact List.getElem_mem h

theorem bubbleUp_subset : ∀ (fuel : Nat) (es : List (Pos × DVal)) (n : Nat),
    n < es.length → ∀ x ∈ bubbleUp fuel es n, x ∈ es := by
  intro fuel
  induction fuel with
  | zero => intro es n _ x hx; exact hx
  | succ fuel ih =>
    intro es n hn x hx
    unfold bubbleUp at hx
    dsimp only at hx
    split at hx
    · exact hx
    · split at hx
      · exact hx
      · have hpidx : (n + 1) / 2 - 1 < es.length := by omega
        have hlen : ((es.set ((n + 1) / 2 - 1) (heapGet es n)).set n
            (heapGet es ((n + 1) / 2 - 1))).length = es.length := by
          rw [List.length_set, List.length_set]
        have hx2 := ih _ _ (by rw [hlen]; exact hpidx) x hx
        rcases List.mem_or_eq_of_mem_set hx2 with hx3 | hx3
        · rcases List.mem_or_eq_of_mem_set hx3 with hx4 | hx4
          · exact hx4
          · subst hx4; exact heapGet_mem es n hn
        · subst hx3; exact heapGet_mem es ((n + 1) / 2 - 1) hpidx

theorem bubbleDown_subset : ∀ (fuel : Nat) (es : List (Pos × DVal)) (n : Nat),
    n < es.length → ∀ x ∈ bubbleDown fuel es n, x ∈ es := by
  intro fuel
  induction fuel with
  | zero => intro es n _ x hx; exact hx
  | succ fuel ih =>
    intro es n hn x hx
    unfold bubbleDown at hx
    dsimp only at hx
    split at hx
    · exact hx
    · next sw heq =>
      have hsw : sw < es.length := by
        repeat' split at heq
        all_goals first
          | (rw [Option.some_inj] at heq; omega)
          | (exact Option.noConfusion heq)
      have hlen : ((es.set n (heapGet es sw)).set sw (heapGet es n)).length
          = es.length := by
        rw [List.length_set, List.length_set]
      have hx2 := ih _ _ (by rw [hlen]; exact hsw) x hx
      rcases List.mem_or_eq_of_mem_set hx2 with hx3 | hx3
      · rcases List.mem_or_eq_of_mem_set hx3 with hx4 | hx4
        · exact hx4
        · subst hx4; exact heapGet_mem es sw hsw
      · subst hx3; exact heapGet_mem es n hn

theorem heapPush_subset (es : List (Pos × DVal)) (node : Pos) (dist : DVal) :
    ∀ x ∈ heapPush es node dist, x ∈ es ∨ x = (node, dist) := by
  intro x hx
  unfold heapPush at hx
  dsimp only at hx
  have hlen : (es ++ [(node, dist)]).length - 1 < (es ++ [(node, dist)]).length := by
    simp
  have hmem := bubbleUp_subset _ _ _ hlen x hx
  rcases List.mem_append.mp hmem with h | h
  · exact Or.inl h
  · rw [List.mem_singleton] at h
    exact Or.inr h

theorem findIdxq_lt_length_go {α : Type} (p : α → Bool) :
    ∀ (l : List α) (s i : Nat), List.findIdx? p l s = some i → i < s + l.length := by
  intro l
  induction l with
  | nil => intro s i h; exact Option.noConfusion h
  | cons a t ih =>
    intro s i h
    simp only [List.findIdx?] at h
    split at h
    · rw [Option.some_inj] at h
      simp only [List.length_cons]
      omega
    · have := ih (s + 1) i h
      simp only [List.length_cons]
      omega

theorem findIdxq_lt_length {α : Type} (p : α → Bool) (l : List α) (i : Nat)
    (h : l.findIdx? p = some i) : i < l.length := by
  have := findIdxq_lt_length_go p l 0 i h
  omega

theorem heapDecreaseKey_subset (es : List (Pos × DVal)) (node : Pos) (dist : DVal) :
    ∀ x ∈ heapDecreaseKey es node dist, x ∈ es ∨ x = (node, dist) := by
  intro x hx
  unfold heapDecreaseKey at hx
  split at hx
  · exact Or.inl hx
  · next idx hidx =>
    have hlt := findIdxq_lt_length _ es idx hidx
    split at hx
    · have hlen : (es.set idx (node, dist)).length = es.length := List.length_set es _ _
      have hmem := bubbleUp_subset _ _ _ (by rw [hlen]; exact hlt) x hx
      rcases List.mem_or_eq_of_mem_set hmem with h | h
      · exact Or.inl h
      · exact Or.inr h
    · exact Or.inl hx

theorem heapPop_subset (es : List (Pos × DVal)) (u : Pos) (d : DVal)
    (rest : List (Pos × DVal)) (h : heapPop es = some ((u, d), rest)) :
    (u, d) ∈ es ∧ ∀ x ∈ rest, x ∈ es := by
  cases es with
  | nil => exact Option.noConfusion h
  | cons mn tl =>
    unfold heapPop at h
    dsimp only at h
    split at h
    · next heq =>
      rw [Option.some_inj] at h
      injection h with h1 h2
      refine ⟨?_, ?_⟩
      · rw [← h1]
        exact List.mem_cons_self mn tl
      · intro x hx
        rw [← h2] at hx
        exact absurd hx (List.not_mem_nil x)
    · next h2 tail heq =>
      rw [Option.some_inj] at h
      injection h with h1 h3
      have hdl : ∀ y, y ∈ h2 :: tail → y ∈ mn :: tl := by
        intro y hy
        rw [← heq] at hy
        exact List.dropLast_subset _ hy
      refine ⟨?_, ?_⟩
      · rw [← h1]
        exact List.mem_cons_self mn tl
      · intro x hx
        rw [← h3] at hx
        have hn0 : 0 < (heapGet (mn :: tl) ((mn :: tl).length - 1) :: tail).length := by
          simp
        have hmem := bubbleDown_subset _ _ _ hn0 x hx
        rcases List.mem_cons.mp hmem with hmem | hmem
        · rw [hmem]
          exact heapGet_mem (mn :: tl) _ (by simp)
        · exact hdl x (List.mem_cons_of_mem h2 hmem)

/-- Every heap entry is a grid cell whose recorded node distance is finite. -/
def HeapGood (g : Grid) (st : Pos → NodeState) (heap : List (Pos × DVal)) : Prop :=
  ∀ e ∈ heap, g.inBounds e.1 ∧ (st e.1).distance ≠ DVal.inf

theorem HeapGood_transfer {g : Grid} {st st' : Pos → NodeState}
    {heap : List (Pos × DVal)} (h : HeapGood g st heap)
    (hpersist : ∀ q, (st q).distance ≠ DVal.inf → (st' q).distance ≠ DVal.inf) :
    HeapGood g st' heap :=
  fun e he => ⟨(h e he).1, hpersist e.1 (h e he).2⟩

theorem bcRelaxOne_good (g : Grid) (startNode : Pos) (B : DVal) (u : Pos)
    (bst : BmsspSt) (heap : List (Pos × DVal)) (v : Pos)
    (hinv : ChainInv g startNode bst.st)
    (hug : g.inBounds u) (huf : (bst.st u).distance ≠ DVal.inf)
    (hv : v ∈ bmGetNeighbors g u)
    (hh : HeapGood g bst.st heap) :
    ChainInv g startNode (bcRelaxOne B u (bst, heap) v).1.st
    ∧ (∀ q, (bst.st q).distance ≠ DVal.inf →
        ((bcRelaxOne B u (bst, heap) v).1.st q).distance ≠ DVal.inf)
    ∧ HeapGood g (bcRelaxOne B u (bst, heap) v).1.st (bcRelaxOne B u (bst, heap) v).2 := by
  have hvnb := bmGetNeighbors_sub g u v hv
  have hvg : g.inBounds v := neighborPositions_inBounds g u v hug hvnb
  have hvne : v ≠ u := neighborPositions_ne_self g u v hvnb
  unfold bcRelaxOne
  dsimp only
  split
  · next hle =>
    have hle2 := (Bool.and_eq_true _ _).mp hle
    have hchain' : ChainInv g startNode (setNode bst.st v
        { bst.st v with distance := (bst.st u).distance.succ, previousNode := some u }) :=
      ChainInv_write g startNode bst.st u v _ hinv rfl rfl rfl huf hug hvg
        (fun he => hvne he.symm) hle2.1
    have hpersist : ∀ q, (bst.st q).distance ≠ DVal.inf →
        ((setNode bst.st v
          { bst.st v with distance := (bst.st u).distance.succ, previousNode := some u })
          q).distance ≠ DVal.inf :=
      fun q hq => write_keeps_fin bst.st v _ (DVal.succ_ne_inf huf) q hq
    have hvfin : ((setNode bst.st v
        { bst.st v with distance := (bst.st u).distance.succ, previousNode := some u })
        v).distance ≠ DVal.inf := by
      rw [setNode_self]
      exact DVal.succ_ne_inf huf
    refine ⟨hchain', hpersist, ?_⟩
    intro e he
    have hsub : e ∈ heap ∨ e.1 = v := by
      split at he
      · rcases heapDecreaseKey_subset heap v _ e he with h | h
        · exact Or.inl h
        · right; rw [h]
      · rcases heapPush_subset heap v _ e he with h | h
        · exact Or.inl h
        · right; rw [h]
    rcases hsub with h | h
    · have := hh e h
      exact ⟨this.1, hpersist e.1 this.2⟩
    · rw [h]
      exact ⟨hvg, hvfin⟩
  · exact ⟨hinv, fun q hq => hq, hh⟩

theorem bcLoop_step_good (g : Grid) (startNode : Pos) (k : Nat) (B : DVal) (fuel : Nat)
    (ihyp : ∀ (U0 : List Pos) (heap : List (Pos × DVal)) (bst : BmsspSt),
      ChainInv g startNode bst.st → GoodList g bst.st U0 → HeapGood g bst.st heap →
      ChainInv g startNode (bcLoop g k B fuel U0 heap bst).2.st
      ∧ (∀ q, (bst.st q).distance ≠ DVal.inf →
          ((bcLoop g k B fuel U0 heap bst).2.st q).distance ≠ DVal.inf)
      ∧ GoodList g (bcLoop g k B fuel U0 heap bst).2.st (bcLoop g k B fuel U0 heap bst).1)
    (u : Pos) (U0' : List Pos) (heap1 : List (Pos × DVal)) (bst1 : BmsspSt)
    (hinv1 : ChainInv g startNode bst1.st)
    (hug : g.inBounds u) (huf : (bst1.st u).distance ≠ DVal.inf)
    (hU' : GoodList g bst1.st U0') (hh1 : HeapGood g bst1.st heap1) :
    ChainInv g startNode (bcLoop g k B fuel U0'
        ((bmGetNeighbors g u).foldl (bcRelaxOne B u) (bst1, heap1)).2
        ((bmGetNeighbors g u).foldl (bcRelaxOne B u) (bst1, heap1)).1).2.st
    ∧ (∀ q, (bst1.st q).distance ≠ DVal.inf →
        ((bcLoop g k B fuel U0'
          ((bmGetNeighbors g u).foldl (bcRelaxOne B u) (bst1, heap1)).2
          ((bmGetNeighbors g u).foldl (bcRelaxOne B u) (bst1, heap1)).1).2.st q).distance
          ≠ DVal.inf)
    ∧ GoodList g (bcLoop g k B fuel U0'
        ((bmGetNeighbors g u).foldl (bcRelaxOne B u) (bst1, heap1)).2
        ((bmGetNeighbors g u).foldl (bcRelaxOne B u) (bst1, heap1)).1).2.st
        (bcLoop g k B fuel U0'
          ((bmGetNeighbors g u).foldl (bcRelaxOne B u) (bst1, heap1)).2
          ((bmGetNeighbors g u).foldl (bcRelaxOne B u) (bst1, heap1)).1).1 := by
  have hF := foldl_preserves_mem (bcRelaxOne B u)
    (fun acc : BmsspSt × List (Pos × DVal) => ChainInv g startNode acc.1.st
      ∧ (∀ q, (bst1.st q).distance ≠ DVal.inf → (acc.1.st q).distance ≠ DVal.inf)
      ∧ HeapGood g acc.1.st acc.2)
    (bmGetNeighbors g u)
    (by
      intro acc v hv hacc
      obtain ⟨hc, hp, hhp⟩ := hacc
      rcases acc with ⟨bstA, heapA⟩
      have hstep := bcRelaxOne_good g startNode B u bstA heapA v hc hug (hp u huf) hv hhp
      exact ⟨hstep.1, fun q hq => hstep.2.1 q (hp q hq), hstep.2.2⟩)
    (bst1, heap1) ⟨hinv1, fun q hq => hq, hh1⟩
  have hrec := ihyp U0'
    ((bmGetNeighbors g u).foldl (bcRelaxOne B u) (bst1, heap1)).2
    ((bmGetNeighbors g u).foldl (bcRelaxOne B u) (bst1, heap1)).1
    hF.1 (GoodList_transfer hU' hF.2.1) hF.2.2
  exact ⟨hrec.1, fun q hq => hrec.2.1 q (hF.2.1 q hq), hrec.2.2⟩

theorem bcLoop_good (g : Grid) (startNode : Pos) (k : Nat) (B : DVal) :
    ∀ (fuel : Nat) (U0 : List Pos) (heap : List (Pos × DVal)) (bst : BmsspSt),
      ChainInv g startNode bst.st → GoodList g bst.st U0 → HeapGood g bst.st heap →
      ChainInv g startNode (bcLoop g k B fuel U0 heap bst).2.st
      ∧ (∀ q, (bst.st q).distance ≠ DVal.inf →
          ((bcLoop g k B fuel U0 heap bst).2.st q).distance ≠ DVal.inf)
      ∧ GoodList g (bcLoop g k B fuel U0 heap bst).2.st (bcLoop g k B fuel U0 heap bst).1 := by
  intro fuel
  induction fuel with
  | zero => intro U0 heap bst hinv hU hh; exact ⟨hinv, fun q hq => hq, hU⟩
  | succ fuel ih =>
    intro U0 heap bst hinv hU hh
    show ChainInv g startNode (bcLoop g k B (fuel+1) U0 heap bst).2.st ∧ _
    unfold bcLoop
    dsimp only
    split
    · exact ⟨hinv, fun q hq => hq, hU⟩
    · split
      · exact ⟨hinv, fun q hq => hq, hU⟩
      · split
        · exact ⟨hinv, fun q hq => hq, hU⟩
        · next u dist heap1 hpop =>
          split
          · exact ⟨hinv, fun q hq => hq, hU⟩
          · obtain ⟨hupop, hheap1⟩ := heapPop_subset heap u dist heap1 hpop
            have huQ := hh _ hupop
            have hug : g.inBounds u := huQ.1
            have huf : (bst.st u).distance ≠ DVal.inf := huQ.2
            have hU0' : GoodList g bst.st (if u ∈ U0 then U0 else U0 ++ [u]) := by
              split
              · exact hU
              · intro p hp
                rcases List.mem_append.mp hp with hp | hp
                · exact hU p hp
                · rw [List.mem_singleton] at hp
                  subst hp
                  exact ⟨hug, huf⟩
            have hh1 : HeapGood g bst.st heap1 := fun e he => hh e (hheap1 e he)
            set U0x := (if u ∈ U0 then U0 else U0 ++ [u]) with hU0x
            split
            · next hvis =>
              exact bcLoop_step_good g startNode k B fuel ih u U0x heap1 bst hinv hug huf
                hU0' hh1
            · next hvis =>
              have hmark : ∀ q, ((setNode bst.st u
                  { bst.st u with isVisited := true }) q).distance = (bst.st q).distance :=
                mark_dist_eq bst.st u
              have hres := bcLoop_step_good g startNode k B fuel ih u
                U0x heap1
                { bst with st := setNode bst.st u { bst.st u with isVisited := true },
                           trace := bst.trace ++ [u] }
                (ChainInv_mark g startNode bst.st u hinv huf hug)
                hug (by dsimp only; rw [hmark u]; exact huf)
                (by
                  refine GoodList_transfer hU0' ?_
                  intro q hq
                  dsimp only
                  rw [hmark q]
                  exact hq)
                (by
                  refine HeapGood_transfer hh1 ?_
                  intro q hq
                  dsimp only
                  rw [hmark q]
                  exact hq)
              refine ⟨hres.1, ?_, hres.2.2⟩
              intro q hq
              refine hres.2.1 q ?_
              dsimp only
              rw [hmark q]
              exact hq

theorem bcPost_snd_subset (k : Nat) (B : DVal) (U0 : List Pos) (st : Pos → NodeState) :
    ∀ p ∈ (bcPost k B U0 st).2, p ∈ U0 := by
  unfold bcPost
  dsimp only
  split
  · intro p hp; exact hp
  · intro p hp; exact List.mem_of_mem_filter hp

theorem baseCase_good (g : Grid) (startNode : Pos) (k bcFuel : Nat) (B : DVal)
    (S : List Pos) (bst : BmsspSt)
    (hinv : ChainInv g startNode bst.st) (hS : GoodList g bst.st S) :
    ChainInv g startNode (baseCase g k bcFuel B S bst).2.st
    ∧ (∀ q, (bst.st q).distance ≠ DVal.inf →
        ((baseCase g k bcFuel B S bst).2.st q).distance ≠ DVal.inf)
    ∧ GoodList g (baseCase g k bcFuel B S bst).2.st (baseCase g k bcFuel B S bst).1.2 := by
  have hU0init : GoodList g bst.st
      (S.foldl (fun l x => if x ∈ l then l else l ++ [x]) []) := by
    intro p hp
    rcases mem_dedupAppend [] S p hp with h | h
    · exact absurd h (List.not_mem_nil p)
    · exact hS p h
  have hheap0 : HeapGood g bst.st
      (S.foldl (fun h x => heapPush h x ((bst.st x).distance)) []) := by
    refine foldl_preserves_mem _ (fun h => HeapGood g bst.st h) S ?_ []
      (fun e he => absurd he (List.not_mem_nil e))
    intro h x hx hh e he
    rcases heapPush_subset h x _ e he with h1 | h1
    · exact hh e h1
    · rw [h1]
      exact hS x hx
  have hloop := bcLoop_good g startNode k B bcFuel _ _ bst hinv hU0init hheap0
  refine ⟨hloop.1, hloop.2.1, ?_⟩
  intro p hp
  have hp2 : p ∈ (bcPost k B
      (bcLoop g k B bcFuel (S.foldl (fun l x => if x ∈ l then l else l ++ [x]) [])
        (S.foldl (fun h x => heapPush h x ((bst.st x).distance)) []) bst).1
      (bcLoop g k B bcFuel (S.foldl (fun l x => if x ∈ l then l else l ++ [x]) [])
        (S.foldl (fun h x => heapPush h x ((bst.st x).distance)) []) bst).2.st).2 := hp
  exact hloop.2.2 p (bcPost_snd_subset _ _ _ _ p hp2)

/-- Every StructureD entry is a grid cell whose node distance is finite. -/
def DGood (g : Grid) (st : Pos → NodeState) (D : StructureD) : Prop :=
  ∀ e ∈ D.items, g.inBounds e.1 ∧ (st e.1).distance ≠ DVal.inf

theorem DGood_transfer {g : Grid} {st st' : Pos → NodeState} {D : StructureD}
    (h : DGood g st D)
    (hpersist : ∀ q, (st q).distance ≠ DVal.inf → (st' q).distance ≠ DVal.inf) :
    DGood g st' D :=
  fun e he => ⟨(h e he).1, hpersist e.1 (h e he).2⟩

theorem dInsert_subset (D : StructureD) (node : Pos) (val : DVal) :
    ∀ e ∈ (dInsert D node val).items, e ∈ D.items ∨ e.1 = node := by
  unfold dInsert
  dsimp only
  split
  · intro e he
    exact Or.inl he
  · next items1 heq =>
    have hitems1 : ∀ e ∈ items1, e ∈ D.items := by
      split at heq
      · next idx hidx =>
        split at heq
        · rw [Option.some_inj] at heq
          intro e he
          rw [← heq] at he
          exact List.eraseIdx_subset _ _ he
        · exact Option.noConfusion heq
      · rw [Option.some_inj] at heq
        intro e he
        rw [← heq] at he
        exact he
    intro e he
    dsimp only at he
    rcases List.mem_append.mp he with he | he
    · exact Or.inl (hitems1 e (List.take_subset _ _ he))
    · rcases List.mem_cons.mp he with he | he
      · right; rw [he]
      · exact Or.inl (hitems1 e (List.drop_subset _ _ he))

theorem dPull_facts (D : StructureD) :
    (∀ p ∈ (dPull D).1.2, ∃ e ∈ D.items, e.1 = p)
    ∧ ∀ e ∈ (dPull D).2.items, e ∈ D.items := by
  unfold dPull
  split
  · next heq =>
    refine ⟨?_, ?_⟩
    · intro p hp
      exact absurd hp (List.not_mem_nil p)
    · intro e he
      exact he
  · next it rest heq =>
    refine ⟨?_, ?_⟩
    · intro p hp
      dsimp only at hp
      rcases List.mem_map.mp hp with ⟨e, he, hep⟩
      exact ⟨e, List.take_subset _ _ he, hep⟩
    · intro e he
      dsimp only at he
      exact List.drop_subset _ _ he

theorem bmRelaxOne_good (g : Grid) (startNode : Pos) (B Bi Bpi : DVal) (u : Pos)
    (bst : BmsspSt) (D : StructureD) (K : List (Pos × DVal)) (v : Pos)
    (hinv : ChainInv g startNode bst.st)
    (hug : g.inBounds u) (huf : (bst.st u).distance ≠ DVal.inf)
    (hv : v ∈ bmGetNeighbors g u)
    (hD : DGood g bst.st D) (hK : HeapGood g bst.st K) :
    ChainInv g startNode (bmRelaxOne B Bi Bpi u (bst, D, K) v).1.st
    ∧ (∀ q, (bst.st q).distance ≠ DVal.inf →
        ((bmRelaxOne B Bi Bpi u (bst, D, K) v).1.st q).distance ≠ DVal.inf)
    ∧ DGood g (bmRelaxOne B Bi Bpi u (bst, D, K) v).1.st
        (bmRelaxOne B Bi Bpi u (bst, D, K) v).2.1
    ∧ HeapGood g (bmRelaxOne B Bi Bpi u (bst, D, K) v).1.st
        (bmRelaxOne B Bi Bpi u (bst, D, K) v).2.2 := by
  have hvnb := bmGetNeighbors_sub g u v hv
  have hvg : g.inBounds v := neighborPositions_inBounds g u v hug hvnb
  have hvne : v ≠ u := neighborPositions_ne_self g u v hvnb
  unfold bmRelaxOne
  dsimp only
  split
  · next hle =>
    have hchain' : ChainInv g startNode (setNode bst.st v
        { bst.st v with distance := (bst.st u).distance.succ, previousNode := some u }) :=
      ChainInv_write g startNode bst.st u v _ hinv rfl rfl rfl huf hug hvg
        (fun he => hvne he.symm) hle
    have hpersist : ∀ q, (bst.st q).distance ≠ DVal.inf →
        ((setNode bst.st v
          { bst.st v with distance := (bst.st u).distance.succ, previousNode := some u })
          q).distance ≠ DVal.inf :=
      fun q hq => write_keeps_fin bst.st v _ (DVal.succ_ne_inf huf) q hq
    have hvfin : ((setNode bst.st v
        { bst.st v with distance := (bst.st u).distance.succ, previousNode := some u })
        v).distance ≠ DVal.inf := by
      rw [setNode_self]
      exact DVal.succ_ne_inf huf
    have hD' := DGood_transfer hD hpersist
    have hK' := HeapGood_transfer hK hpersist
    have hDins : DGood g (setNode bst.st v
        { bst.st v with distance := (bst.st u).distance.succ, previousNode := some u })
        (dInsert D v ((bmWrite bst v (bst.st u).distance.succ u).st v).distance) := by
      intro e he
      rcases dInsert_subset D v _ e he with h | h
      · exact hD' e h
      · rw [h]
        exact ⟨hvg, hvfin⟩
    have hKext : HeapGood g (setNode bst.st v
        { bst.st v with distance := (bst.st u).distance.succ, previousNode := some u })
        (K ++ [(v, ((bmWrite bst v (bst.st u).distance.succ u).st v).distance)]) := by
      intro e he
      rcases List.mem_append.mp he with he | he
      · exact hK' e he
      · rw [List.mem_singleton] at he
        rw [he]
        exact ⟨hvg, hvfin⟩
    repeat' split
    all_goals
      first
        | exact ⟨hchain', hpersist, hDins, hK'⟩
        | exact ⟨hchain', hpersist, hD', hKext⟩
        | exact ⟨hchain', hpersist, hD', hK'⟩
  · exact ⟨hinv, fun q hq => hq, hD, hK⟩

theorem bmLoopGo_good (g : Grid) (startNode : Pos) (B : DVal) (sizeLimit : Nat)
    (recurse : DVal → List Pos → BmsspSt → (DVal × List Pos) × BmsspSt)
    (hrec : ∀ (Bi : DVal) (Si : List Pos) (bst : BmsspSt),
      ChainInv g startNode bst.st → GoodList g bst.st Si →
      ChainInv g startNode (recurse Bi Si bst).2.st
      ∧ (∀ q, (bst.st q).distance ≠ DVal.inf →
          ((recurse Bi Si bst).2.st q).distance ≠ DVal.inf)
      ∧ GoodList g (recurse Bi Si bst).2.st (recurse Bi Si bst).1.2) :
    ∀ (fuel : Nat) (U : List Pos) (D : StructureD) (Bp : DVal) (bst : BmsspSt),
      ChainInv g startNode bst.st → GoodList g bst.st U → DGood g bst.st D →
      ChainInv g startNode (bmLoopGo g B sizeLimit recurse fuel U D Bp bst).2.st
      ∧ (∀ q, (bst.st q).distance ≠ DVal.inf →
          ((bmLoopGo g B sizeLimit recurse fuel U D Bp bst).2.st q).distance ≠ DVal.inf)
      ∧ GoodList g (bmLoopGo g B sizeLimit recurse fuel U D Bp bst).2.st
          (bmLoopGo g B sizeLimit recurse fuel U D Bp bst).1.2 := by
  intro fuel
  induction fuel with
  | zero => intro U D Bp bst hinv hU hD; exact ⟨hinv, fun q hq => hq, hU⟩
  | succ fuel ih =>
    intro U D Bp bst hinv hU hD
    show ChainInv g startNode (bmLoopGo g B sizeLimit recurse (fuel+1) U D Bp bst).2.st ∧ _
    unfold bmLoopGo
    dsimp only
    split
    · exact ⟨hinv, fun q hq => hq, hU⟩
    · split
      · exact ⟨hinv, fun q hq => hq, hU⟩
      · set pulled := dPull D with hplEq
        set Bi := pulled.1.1 with hBiEq
        set Si := pulled.1.2 with hSiEq
        set D1 := pulled.2 with hD1Eq
        set rec1 := recurse Bi Si bst with hrec1Eq
        set Bpi := rec1.1.1 with hBpiEq
        set Ui := rec1.1.2 with hUiEq
        set bst1 := rec1.2 with hbst1Eq
        have hpull := dPull_facts D
        have hSi : GoodList g bst.st Si := by
          intro p hp
          obtain ⟨e, he, hep⟩ := hpull.1 p hp
          rw [← hep]
          exact hD e he
        have hD1g : DGood g bst.st D1 := fun e he => hD e (hpull.2 e he)
        have hr := hrec Bi Si bst hinv hSi
        set merged := Ui.foldl (fun (acc : List Pos × BmsspSt) node =>
          let U' := if node ∈ acc.1 then acc.1 else acc.1 ++ [node]
          if (acc.2.st node).isVisited then (U', acc.2)
          else (U', { acc.2 with
            st := setNode acc.2.st node { acc.2.st node with isVisited := true },
            trace := acc.2.trace ++ [node] })) (U, bst1) with hmEq
        have hmerged : ChainInv g startNode merged.2.st
            ∧ (∀ q, (merged.2.st q).distance = (bst1.st q).distance)
            ∧ GoodList g merged.2.st merged.1 := by
          refine foldl_preserves_mem _
            (fun acc : List Pos × BmsspSt => ChainInv g startNode acc.2.st
              ∧ (∀ q, (acc.2.st q).distance = (bst1.st q).distance)
              ∧ GoodList g acc.2.st acc.1)
            Ui ?_ (U, bst1)
            ⟨hr.1, fun q => rfl, GoodList_transfer hU hr.2.1⟩
          intro acc node hnode hP
          obtain ⟨hc, hdist, hgl⟩ := hP
          have hng : g.inBounds node := (hr.2.2 node hnode).1
          have hnf : (acc.2.st node).distance ≠ DVal.inf := by
            rw [hdist node]
            exact (hr.2.2 node hnode).2
          dsimp only
          have hU' : GoodList g acc.2.st
              (if node ∈ acc.1 then acc.1 else acc.1 ++ [node]) := by
            split
            · exact hgl
            · intro p hp
              rcases List.mem_append.mp hp with hp | hp
              · exact hgl p hp
              · rw [List.mem_singleton] at hp
                subst hp
                exact ⟨hng, hnf⟩
          split
          · exact ⟨hc, hdist, hU'⟩
          · refine ⟨ChainInv_mark g startNode acc.2.st node hc hnf hng, ?_, ?_⟩
            · intro q
              show ((setNode acc.2.st node
                { acc.2.st node with isVisited := true }) q).distance = _
              rw [mark_dist_eq acc.2.st node q]
              exact hdist q
            · refine GoodList_transfer hU' ?_
              intro q hq
              show ((setNode acc.2.st node
                { acc.2.st node with isVisited := true }) q).distance ≠ _
              rw [mark_dist_eq acc.2.st node q]
              exact hq
        have hpers01 : ∀ q, (bst.st q).distance ≠ DVal.inf →
            (merged.2.st q).distance ≠ DVal.inf := by
          intro q hq
          rw [hmerged.2.1 q]
          exact hr.2.1 q hq
        set relaxed := Ui.foldl (fun acc u =>
          (bmGetNeighbors g u).foldl (bmRelaxOne B Bi Bpi u) acc)
          (merged.2, D1, ([] : List (Pos × DVal))) with hrxEq
        have hrelaxed : ChainInv g startNode relaxed.1.st
            ∧ (∀ q, (merged.2.st q).distance ≠ DVal.inf →
                (relaxed.1.st q).distance ≠ DVal.inf)
            ∧ DGood g relaxed.1.st relaxed.2.1
            ∧ HeapGood g relaxed.1.st relaxed.2.2 := by
          refine foldl_preserves_mem _
            (fun acc : BmsspSt × StructureD × List (Pos × DVal) =>
              ChainInv g startNode acc.1.st
              ∧ (∀ q, (merged.2.st q).distance ≠ DVal.inf →
                  (acc.1.st q).distance ≠ DVal.inf)
              ∧ DGood g acc.1.st acc.2.1
              ∧ HeapGood g acc.1.st acc.2.2)
            Ui ?_ (merged.2, D1, ([] : List (Pos × DVal)))
            ⟨hmerged.1, fun q hq => hq,
              DGood_transfer hD1g hpers01,
              fun e he => absurd he (List.not_mem_nil e)⟩
          intro acc u hu hacc
          have huG := hr.2.2 u hu
          have hufM : (merged.2.st u).distance ≠ DVal.inf := by
            rw [hmerged.2.1 u]
            exact huG.2
          refine foldl_preserves_mem _
            (fun acc2 : BmsspSt × StructureD × List (Pos × DVal) =>
              ChainInv g startNode acc2.1.st
              ∧ (∀ q, (merged.2.st q).distance ≠ DVal.inf →
                  (acc2.1.st q).distance ≠ DVal.inf)
              ∧ DGood g acc2.1.st acc2.2.1
              ∧ HeapGood g acc2.1.st acc2.2.2)
            (bmGetNeighbors g u) ?_ acc hacc
          intro acc2 v hv hacc2
          rcases acc2 with ⟨bstA, DA, KA⟩
          obtain ⟨hc2, hp2, hD2, hK2⟩ := hacc2
          have hstep := bmRelaxOne_good g startNode B Bi Bpi u bstA DA KA v hc2
            huG.1 (hp2 u hufM) hv hD2 hK2
          exact ⟨hstep.1, fun q hq => hstep.2.1 q (hp2 q hq),
            hstep.2.2.1, hstep.2.2.2⟩
        set bst3 := relaxed.1 with hbst3Eq
        set K := relaxed.2.2 with hKEq
        have hpers3 : ∀ q, (bst.st q).distance ≠ DVal.inf →
            (bst3.st q).distance ≠ DVal.inf :=
          fun q hq => hrelaxed.2.1 q (hpers01 q hq)
        set prependList := K ++ (Si.filter (fun x =>
          Bpi.leb ((bst3.st x).distance) && ((bst3.st x).distance).ltb Bi)).map
          (fun x => (x, (bst3.st x).distance)) with hppEq
        have hppG : HeapGood g bst3.st prependList := by
          intro e he
          rcases List.mem_append.mp he with he | he
          · exact hrelaxed.2.2.2 e he
          · rcases List.mem_map.mp he with ⟨x, hx, hxe⟩
            have hxSi := List.mem_of_mem_filter hx
            have hxg := hSi x hxSi
            rw [← hxe]
            exact ⟨hxg.1, hpers3 x hxg.2⟩
        set D3 := prependList.foldl (fun D it => dInsert D it.1 it.2) relaxed.2.1
          with hD3Eq
        have hD3good : DGood g bst3.st D3 := by
          refine foldl_preserves_mem _ (fun Dx => DGood g bst3.st Dx) prependList ?_
            relaxed.2.1 hrelaxed.2.2.1
          intro DA it hit hDA e he
          rcases dInsert_subset DA it.1 it.2 e he with h | h
          · exact hDA e h
          · rw [h]
            exact hppG it hit
        set Bpp := if Bpi.leb B then Bpi else B with hBppEq
        have hU3 : GoodList g bst3.st merged.1 :=
          GoodList_transfer hmerged.2.2 hrelaxed.2.1
        have hfin := ih merged.1 D3 Bpp bst3 hrelaxed.1 hU3 hD3good
        exact ⟨hfin.1, fun q hq => hfin.2.1 q (hpers3 q hq), hfin.2.2⟩

theorem bmsspRecursive_zero (g : Grid) (k t bcFuel loopFuel : Nat) (B : DVal)
    (S : List Pos) (bst : BmsspSt) :
    bmsspRecursive g k t bcFuel loopFuel 0 B S bst = baseCase g k bcFuel B S bst := rfl

theorem bmsspRecursive_succ (g : Grid) (k t bcFuel loopFuel l : Nat) (B : DVal)
    (S : List Pos) (bst : BmsspSt) :
    bmsspRecursive g k t bcFuel loopFuel (l+1) B S bst =
    (let fp := findPivots g k B S bst
     let P := fp.1.1
     let W := fp.1.2
     let bst1 := fp.2
     let M := 2 ^ (l * t)
     let D1 := P.foldl (fun D x => dInsert D x ((bst1.st x).distance))
       ({ items := [], M := M, B := B } : StructureD)
     let Bp0 := P.foldl (fun b x =>
       if ((bst1.st x).distance).ltb b then (bst1.st x).distance else b) DVal.inf
     let Bp1 := if P.isEmpty then B else Bp0
     let sizeLimit := k * 2 ^ ((l + 1) * t)
     let looped := bmLoopGo g B sizeLimit (bmsspRecursive g k t bcFuel loopFuel l)
       loopFuel [] D1 Bp1 bst1
     let Bp2 := looped.1.1
     let U2 := looped.1.2
     let bst4 := looped.2
     let wAbsorbed := W.foldl (fun (acc : List Pos × BmsspSt) x =>
       if ((acc.2.st x).distance).ltb Bp2 then
         let U' := if x ∈ acc.1 then acc.1 else acc.1 ++ [x]
         if (acc.2.st x).isVisited then (U', acc.2)
         else (U', { acc.2 with
           st := setNode acc.2.st x { acc.2.st x with isVisited := true },
           trace := acc.2.trace ++ [x] })
       else acc) (U2, bst4)
     ((Bp2, wAbsorbed.1), wAbsorbed.2)) := rfl

theorem bmsspRecursive_good (g : Grid) (startNode : Pos) (k t bcFuel loopFuel : Nat) :
    ∀ (level : Nat) (B : DVal) (S : List Pos) (bst : BmsspSt),
      ChainInv g startNode bst.st → GoodList g bst.st S →
      ChainInv g startNode (bmsspRecursive g k t bcFuel loopFuel level B S bst).2.st
      ∧ (∀ q, (bst.st q).distance ≠ DVal.inf →
          ((bmsspRecursive g k t bcFuel loopFuel level B S bst).2.st q).distance
            ≠ DVal.inf)
      ∧ GoodList g (bmsspRecursive g k t bcFuel loopFuel level B S bst).2.st
          (bmsspRecursive g k t bcFuel loopFuel level B S bst).1.2 := by
  intro level
  induction level with
  | zero =>
    intro B S bst hinv hS
    rw [bmsspRecursive_zero]
    exact baseCase_good g startNode k bcFuel B S bst hinv hS
  | succ l ihl =>
    intro B S bst hinv hS
    rw [bmsspRecursive_succ]
    dsimp only
    set fp := findPivots g k B S bst with hfpEq
    set P := fp.1.1 with hPEq
    set W := fp.1.2 with hWEq
    set bst1 := fp.2 with hbst1Eq
    have hfp := findPivots_good g startNode k B S bst hinv hS
    set D1 := P.foldl (fun D x => dInsert D x ((bst1.st x).distance))
      ({ items := [], M := 2 ^ (l * t), B := B } : StructureD) with hD1Eq
    have hD1g : DGood g bst1.st D1 := by
      refine foldl_preserves_mem _ (fun Dx => DGood g bst1.st Dx) P ?_ _
        (fun e he => absurd he (List.not_mem_nil e))
      intro DA x hx hDA e he
      rcases dInsert_subset DA x _ e he with h | h
      · exact hDA e h
      · rw [h]
        exact hfp.2.2.1 x hx
    set looped := bmLoopGo g B (k * 2 ^ ((l + 1) * t))
      (bmsspRecursive g k t bcFuel loopFuel l) loopFuel [] D1
      (if P.isEmpty then B
       else P.foldl (fun b x =>
         if ((bst1.st x).distance).ltb b then (bst1.st x).distance else b) DVal.inf)
      bst1 with hloopedEq
    have hloop := bmLoopGo_good g startNode B (k * 2 ^ ((l + 1) * t))
      (bmsspRecursive g k t bcFuel loopFuel l) ihl loopFuel [] D1
      (if P.isEmpty then B
       else P.foldl (fun b x =>
         if ((bst1.st x).distance).ltb b then (bst1.st x).distance else b) DVal.inf)
      bst1 hfp.1 (fun p hp => absurd hp (List.not_mem_nil p)) hD1g
    set wAb := W.foldl (fun (acc : List Pos × BmsspSt) x =>
      if ((acc.2.st x).distance).ltb looped.1.1 then
        let U' := if x ∈ acc.1 then acc.1 else acc.1 ++ [x]
        if (acc.2.st x).isVisited then (U', acc.2)
        else (U', { acc.2 with
          st := setNode acc.2.st x { acc.2.st x with isVisited := true },
          trace := acc.2.trace ++ [x] })
      else acc) (looped.1.2, looped.2) with hwAbEq
    have hwa : ChainInv g startNode wAb.2.st
        ∧ (∀ q, (wAb.2.st q).distance = (looped.2.st q).distance)
        ∧ GoodList g wAb.2.st wAb.1 := by
      refine foldl_preserves_mem _
        (fun acc : List Pos × BmsspSt => ChainInv g startNode acc.2.st
          ∧ (∀ q, (acc.2.st q).distance = (looped.2.st q).distance)
          ∧ GoodList g acc.2.st acc.1)
        W ?_ (looped.1.2, looped.2)
        ⟨hloop.1, fun q => rfl, hloop.2.2⟩
      intro acc x hx hP2
      obtain ⟨hc, hdist, hgl⟩ := hP2
      have hxg : g.inBounds x := (hfp.2.2.2 x hx).1
      have hxf : (acc.2.st x).distance ≠ DVal.inf := by
        rw [hdist x]
        exact hloop.2.1 x (hfp.2.2.2 x hx).2
      dsimp only
      split
      · have hU' : GoodList g acc.2.st
            (if x ∈ acc.1 then acc.1 else acc.1 ++ [x]) := by
          split
          · exact hgl
          · intro p hp
            rcases List.mem_append.mp hp with hp | hp
            · exact hgl p hp
            · rw [List.mem_singleton] at hp
              subst hp
              exact ⟨hxg, hxf⟩
        split
        · exact ⟨hc, hdist, hU'⟩
        · refine ⟨ChainInv_mark g startNode acc.2.st x hc hxf hxg, ?_, ?_⟩
          · intro q
            show ((setNode acc.2.st x
              { acc.2.st x with isVisited := true }) q).distance = _
            rw [mark_dist_eq acc.2.st x q]
            exact hdist q
          · refine GoodList_transfer hU' ?_
            intro q hq
            show ((setNode acc.2.st x
              { acc.2.st x with isVisited := true }) q).distance ≠ _
            rw [mark_dist_eq acc.2.st x q]
            exact hq
      · exact ⟨hc, hdist, hgl⟩
    refine ⟨hwa.1, ?_, hwa.2.2⟩
    intro q hq
    rw [hwa.2.1 q]
    exact hloop.2.1 q (hfp.2.1 q hq)

theorem bmsspReset_fields (g : Grid) (p : Pos) :
    (bmsspReset g resetState p).distance = DVal.inf
    ∧ (bmsspReset g resetState p).isVisited = false
    ∧ (bmsspReset g resetState p).previousNode = none := by
  unfold bmsspReset resetState
  dsimp only
  split
  · exact ⟨rfl, rfl, rfl⟩
  · exact ⟨rfl, rfl, rfl⟩

theorem bmsspInit_ChainInv (g : Grid) (startNode : Pos) :
    ChainInv g startNode (setNode (bmsspReset g resetState) startNode
      { bmsspReset g resetState startNode with distance := DVal.fin 0 }) := by
  have hval : ∀ p, ((setNode (bmsspReset g resetState) startNode
      { bmsspReset g resetState startNode with distance := DVal.fin 0 }) p).previousNode
        = none
      ∧ ((setNode (bmsspReset g resetState) startNode
      { bmsspReset g resetState startNode with distance := DVal.fin 0 }) p).isVisited
        = false := by
    intro p
    by_cases hp : p = startNode
    · subst hp
      rw [setNode_self]
      exact ⟨(bmsspReset_fields g p).2.2, (bmsspReset_fields g p).2.1⟩
    · rw [setNode_ne _ _ _ _ hp]
      exact ⟨(bmsspReset_fields g p).2.2, (bmsspReset_fields g p).2.1⟩
  refine ⟨?_, ?_, ?_, ?_, ?_⟩
  · intro p u h
    rw [(hval p).1] at h
    exact Option.noConfusion h
  · intro p u h
    rw [(hval p).1] at h
    exact Option.noConfusion h
  · intro p hp
    by_cases hps : p = startNode
    · exact Or.inl hps
    · exfalso
      apply hp
      rw [setNode_ne _ _ _ _ hps]
      exact (bmsspReset_fields g p).1
  · intro p hp
    rw [(hval p).2] at hp
    exact Bool.noConfusion hp
  · intro p hp
    rw [(hval p).2] at hp
    exact Bool.noConfusion hp

theorem bmssp_final_ChainInv (g : Grid) (startNode finishNode : Pos)
    (hs : g.inBounds startNode) :
    ChainInv g startNode (bmsspFull g startNode finishNode).bst.st := by
  have hinit := bmsspInit_ChainInv g startNode
  have hgood : GoodList g (setNode (bmsspReset g resetState) startNode
      { bmsspReset g resetState startNode with distance := DVal.fin 0 }) [startNode] := by
    intro p hp
    rw [List.mem_singleton] at hp
    subst hp
    refine ⟨hs, ?_⟩
    rw [setNode_self]
    intro h
    exact DVal.noConfusion h
  exact (bmsspRecursive_good g startNode (kParam (g.rows * g.cols))
    (tParam (g.rows * g.cols)) (bmsspFuel g) (bmsspFuel g)
    (lParam (g.rows * g.cols) (tParam (g.rows * g.cols)))
    DVal.inf [startNode]
    ⟨setNode (bmsspReset g resetState) startNode
      { bmsspReset g resetState startNode with distance := DVal.fin 0 }, [], []⟩
    hinit hgood).1

theorem ChainInv_visited_reaches (g : Grid) (startNode : Pos) (st : Pos → NodeState)
    (inv : ChainInv g startNode st) (p : Pos) (hv : (st p).isVisited = true) :
    (walkPrev st (g.rows * g.cols) p).head? = some startNode
    ∧ (walkPrev st (g.rows * g.cols) p).length ≤ g.rows * g.cols := by
  have hfin := inv.visitedFin p hv
  have hg := inv.visitedGrid p hv
  have hbc := belowCount_lt_card g st p hg
  have hr := walkPrev_reaches g startNode st inv (g.rows * g.cols) p hg hfin hbc
  exact ⟨hr.1, le_trans hr.2 (by omega)⟩

/-! ## Claim C8 -/

/-- C8 counterexample: in the bidirectionalSwarm run on the wall-free 1x2 grid
the finish node (0,1) ends visited with previousNode still null, so the
predecessor chain from this visited node is the single node itself and never
reaches the start node (0,0). -/
theorem c8_counterexample :
    ((swarmIter grid1x2 (0,0) (0,1) (runFuel grid1x2)
        (swarmInit (0,0) (0,1))).st (0,1)).isVisited = true
    ∧ ((swarmIter grid1x2 (0,0) (0,1) (runFuel grid1x2)
        (swarmInit (0,0) (0,1))).st (0,1)).previousNode = none
    ∧ (walkPrev (swarmIter grid1x2 (0,0) (0,1) (runFuel grid1x2)
        (swarmInit (0,0) (0,1))).st (grid1x2.rows * grid1x2.cols) (0,1)).head?
      ≠ some ((0,0) : Pos) := by decide

/-- C8 amended: predecessor chains are acyclic and walking them terminates
within rows*cols steps, and they end at the run's start node for dijkstra,
astar, greedyBfs (at every iteration count) and for bmssp's final state;
bidirectionalSwarm however never writes any node's previousNode (its parent
links live in per-run maps), so from its visited nodes the chain stops
immediately at the node itself rather than at the start node. -/
theorem c8_amended :
    (∀ (g : Grid) (s f : Pos) (n : Nat) (p : Pos), g.inBounds s →
      ((dijkstraIter g f n (dijkstraInit s)).st p).isVisited = true →
      (walkPrev (dijkstraIter g f n (dijkstraInit s)).st (g.rows * g.cols) p).head?
        = some s
      ∧ (walkPrev (dijkstraIter g f n (dijkstraInit s)).st (g.rows * g.cols) p).length
        ≤ g.rows * g.cols)
    ∧ (∀ (g : Grid) (s f : Pos) (n : Nat) (p : Pos), g.inBounds s →
      ((astarIter g f n (astarInit s f)).st p).isVisited = true →
      (walkPrev (astarIter g f n (astarInit s f)).st (g.rows * g.cols) p).head?
        = some s
      ∧ (walkPrev (astarIter g f n (astarInit s f)).st (g.rows * g.cols) p).length
        ≤ g.rows * g.cols)
    ∧ (∀ (g : Grid) (s f : Pos) (n : Nat) (p : Pos), g.inBounds s →
      ((greedyIter g f n (greedyInit s f)).st p).isVisited = true →
      (walkPrev (greedyIter g f n (greedyInit s f)).st (g.rows * g.cols) p).head?
        = some s
      ∧ (walkPrev (greedyIter g f n (greedyInit s f)).st (g.rows * g.cols) p).length
        ≤ g.rows * g.cols)
    ∧ (∀ (g : Grid) (s f p : Pos), g.inBounds s →
      ((bmsspFull g s f).bst.st p).isVisited = true →
      (walkPrev (bmsspFull g s f).bst.st (g.rows * g.cols) p).head? = some s
      ∧ (walkPrev (bmsspFull g s f).bst.st (g.rows * g.cols) p).length
        ≤ g.rows * g.cols)
    ∧ (∀ (g : Grid) (s f : Pos) (n : Nat) (p : Pos),
      ((swarmIter g s f n (swarmInit s f)).st p).previousNode = none) := by
  refine ⟨?_, ?_, ?_, ?_, ?_⟩
  · intro g s f n p hs hv
    exact ChainInv_visited_reaches g s _
      (dijkstraIter_SInv g s f n _ (dijkstraInit_SInv g s hs)).chain p hv
  · intro g s f n p hs hv
    exact ChainInv_visited_reaches g s _
      (astarIter_SInv g s f n _ (astarInit_SInv g s f hs)).chain p hv
  · intro g s f n p hs hv
    exact ChainInv_visited_reaches g s _
      (greedyIter_SInv g s f n _ (greedyInit_SInv g s f hs)).chain p hv
  · intro g s f p hs hv
    exact ChainInv_visited_reaches g s _ (bmssp_final_ChainInv g s f hs) p hv
  · intro g s f n p
    exact (swarmIter_untouched g s f n (swarmInit s f)
      (fun _ => ⟨rfl, rfl, rfl, rfl⟩) p).2.1

set_option maxRecDepth 4000 in
/-- C8 witness: the amended statement instantiated on the wall-free 2x2 grid
(dijkstra component, visited start node) and the 1x2 grid (swarm component). -/
theorem c8_witness :
    grid2x2.inBounds (0,0)
    ∧ ((dijkstraIter grid2x2 (1,1) (runFuel grid2x2)
        (dijkstraInit (0,0))).st (0,0)).isVisited = true
    ∧ (walkPrev (dijkstraIter grid2x2 (1,1) (runFuel grid2x2)
        (dijkstraInit (0,0))).st (grid2x2.rows * grid2x2.cols) (0,0)).head?
      = some ((0,0) : Pos)
    ∧ ((swarmIter grid1x2 (0,0) (0,1) 3
        (swarmInit (0,0) (0,1))).st (0,1)).previousNode = none :=
  ⟨by decide, by decide,
   (c8_amended.1 grid2x2 (0,0) (1,1) (runFuel grid2x2) (0,0) (by decide) (by decide)).1,
   c8_amended.2.2.2.2 grid1x2 (0,0) (0,1) 3 (0,1)⟩

/-! ## Claim C1: machinery

The ground-truth notion of a walk through open cells, used to state what a
correct shortest-path search must compute: ReachN g s p n holds when there is
a walk of n unit moves from the start cell to p whose every visited cell
after the start is an in-bounds non-wall cell. -/

inductive ReachN (g : Grid) (s : Pos) : Pos → Nat → Prop where
  | base : ReachN g s s 0
  | step {p q : Pos} {n : Nat} : ReachN g s p n → q ∈ neighborPositions g p →
      g.isWall q = false → ReachN g s q (n+1)

theorem ReachN_inBounds (g : Grid) (s p : Pos) (n : Nat) (hs : g.inBounds s)
    (h : ReachN g s p n) : g.inBounds p := by
  induction h with
  | base => exact hs
  | step hr hnb hw ih => exact neighborPositions_inBounds g _ _ ih hnb

theorem ReachN_nonwall (g : Grid) (s p : Pos) (n : Nat) (hws : g.isWall s = false)
    (h : ReachN g s p n) : g.isWall p = false := by
  cases h with
  | base => exact hws
  | step hr hnb hw => exact hw

/-! sortedness of the insertion sort, for a total transitive comparator -/

theorem insertSorted_length {α : Type} (le : α → α → Bool) (x : α) :
    ∀ l : List α, (insertSorted le x l).length = l.length + 1 := by
  intro l
  induction l with
  | nil => rfl
  | cons a l ih =>
    unfold insertSorted
    split
    · simp only [List.length_cons, ih]
    · simp only [List.length_cons]

theorem stableSort_length {α : Type} (le : α → α → Bool) (l : List α) :
    (stableSort le l).length = l.length := by
  unfold stableSort
  suffices h : ∀ acc : List α,
      (l.foldl (fun acc y => insertSorted le y acc) acc).length
        = acc.length + l.length by
    simpa using h []
  induction l with
  | nil => intro acc; simp
  | cons a l ih =>
    intro acc
    rw [List.foldl_cons, ih, insertSorted_length]
    simp only [List.length_cons]
    omega

theorem insertSorted_pairwise {α : Type} (le : α → α → Bool)
    (htot : ∀ a b, le a b = true ∨ le b a = true)
    (htr : ∀ a b c, le a b = true → le b c = true → le a c = true) (x : α) :
    ∀ l : List α, l.Pairwise (fun a b => le a b = true) →
      (insertSorted le x l).Pairwise (fun a b => le a b = true) := by
  intro l
  induction l with
  | nil =>
    intro _
    exact List.pairwise_singleton _ x
  | cons a l ih =>
    intro hp
    rw [List.pairwise_cons] at hp
    unfold insertSorted
    split
    · next hax =>
      rw [List.pairwise_cons]
      refine ⟨?_, ih hp.2⟩
      intro y hy
      rcases (mem_insertSorted le x y l).mp hy with hy | hy
      · subst hy
        exact hax
      · exact hp.1 y hy
    · next hax =>
      have hxa : le x a = true := by
        rcases htot a x with h | h
        · exact absurd h hax
        · exact h
      rw [List.pairwise_cons]
      refine ⟨?_, List.pairwise_cons.mpr hp⟩
      intro y hy
      rcases List.mem_cons.mp hy with hy | hy
      · subst hy
        exact hxa
      · exact htr x a y hxa (hp.1 y hy)

theorem stableSort_pairwise {α : Type} (le : α → α → Bool)
    (htot : ∀ a b, le a b = true ∨ le b a = true)
    (htr : ∀ a b c, le a b = true → le b c = true → le a c = true) (l : List α) :
    (stableSort le l).Pairwise (fun a b => le a b = true) := by
  unfold stableSort
  suffices h : ∀ acc : List α, acc.Pairwise (fun a b => le a b = true) →
      (l.foldl (fun acc y => insertSorted le y acc) acc).Pairwise
        (fun a b => le a b = true) by
    exact h [] List.Pairwise.nil
  induction l with
  | nil => intro acc hacc; exact hacc
  | cons a l ih =>
    intro acc hacc
    rw [List.foldl_cons]
    exact ih _ (insertSorted_pairwise le htot htr a acc hacc)

theorem stableSort_head_le {α : Type} (le : α → α → Bool)
    (htot : ∀ a b, le a b = true ∨ le b a = true)
    (htr : ∀ a b c, le a b = true → le b c = true → le a c = true)
    (l : List α) (h : α) (t : List α) (heq : stableSort le l = h :: t) :
    ∀ x ∈ l, le h x = true := by
  intro x hx
  have hmem : x ∈ h :: t := by
    rw [← heq]
    exact (mem_stableSort le x l).mpr hx
  rcases List.mem_cons.mp hmem with hxh | hxt
  · subst hxh
    rcases htot x x with h | h
    · exact h
    · exact h
  · have hp := stableSort_pairwise le htot htr l
    rw [heq, List.pairwise_cons] at hp
    exact hp.1 x hxt

theorem DVal.leb_total (a b : DVal) : a.leb b = true ∨ b.leb a = true := by
  cases a <;> cases b <;> simp [DVal.leb] <;> omega

theorem DVal.leb_trans (a b c : DVal) (h1 : a.leb b = true) (h2 : b.leb c = true) :
    a.leb c = true :=
  DVal.le_trans (a := a) (b := b) (c := c) h1 h2

theorem DVal.succ_le_succ {a : DVal} {n : Nat} (h : a ≤ DVal.fin n) :
    a.succ ≤ DVal.fin (n + 1) := by
  cases a with
  | fin m =>
    rw [DVal.fin_le_fin] at h
    show (DVal.fin (m+1)).leb (DVal.fin (n+1)) = true
    simp [DVal.leb]
    omega
  | inf => exact absurd h (by simp [DVal.le_def, DVal.leb])

theorem DVal.le_fin_elim {a : DVal} {n : Nat} (h : a ≤ DVal.fin n) :
    ∃ m, a = DVal.fin m ∧ m ≤ n := by
  cases a with
  | fin m =>
    rw [DVal.fin_le_fin] at h
    exact ⟨m, rfl, h⟩
  | inf => exact absurd h (by simp [DVal.le_def, DVal.leb])

theorem astarLe_total (st : Pos → NodeState) (a b : Pos) :
    astarLe st a b = true ∨ astarLe st b a = true := by
  unfold astarLe
  by_cases hab : (st a).totalDistance = (st b).totalDistance
  · rw [if_pos hab, if_pos hab.symm]
    exact DVal.leb_total _ _
  · rw [if_neg hab, if_neg (fun h => hab h.symm)]
    exact DVal.leb_total _ _

theorem DVal.leb_antisymm {a b : DVal} (h1 : a.leb b = true) (h2 : b.leb a = true) :
    a = b := by
  cases a <;> cases b <;> simp_all [DVal.leb] <;> omega

theorem astarLe_trans (st : Pos → NodeState) (a b c : Pos)
    (h1 : astarLe st a b = true) (h2 : astarLe st b c = true) :
    astarLe st a c = true := by
  unfold astarLe at h1 h2 ⊢
  by_cases hab : (st a).totalDistance = (st b).totalDistance
  · rw [if_pos hab] at h1
    by_cases hbc : (st b).totalDistance = (st c).totalDistance
    · rw [if_pos hbc] at h2
      rw [if_pos (hab.trans hbc)]
      exact DVal.leb_trans _ _ _ h1 h2
    · rw [if_neg hbc] at h2
      have hac : (st a).totalDistance ≠ (st c).totalDistance := by
        rw [hab]; exact hbc
      rw [if_neg hac, hab]
      exact h2
  · rw [if_neg hab] at h1
    by_cases hbc : (st b).totalDistance = (st c).totalDistance
    · rw [if_pos hbc] at h2
      have hac : (st a).totalDistance ≠ (st c).totalDistance := by
        rw [← hbc]; exact hab
      rw [if_neg hac, ← hbc]
      exact h1
    · rw [if_neg hbc] at h2
      by_cases hac : (st a).totalDistance = (st c).totalDistance
      · exfalso
        apply hab
        apply DVal.leb_antisymm h1
        rw [← hac] at h2
        exact h2
      · rw [if_neg hac]
        exact DVal.leb_trans _ _ _ h1 h2

theorem astarLe_totalDistance (st : Pos → NodeState) (a b : Pos)
    (h : astarLe st a b = true) : (st a).totalDistance ≤ (st b).totalDistance := by
  unfold astarLe at h
  split at h
  · next heq => rw [heq]; exact DVal.le_refl _
  · exact h

/-- The Nat value of the Manhattan heuristic. -/
def manhattanNat (a b : Pos) : Nat :=
  (max a.1 b.1 - min a.1 b.1) + (max a.2 b.2 - min a.2 b.2)

theorem getManhattanDistance_eq (a b : Pos) :
    getManhattanDistance a b = DVal.fin (manhattanNat a b) := rfl

theorem manhattan_consistent (g : Grid) (f u p : Pos)
    (hp : p ∈ neighborPositions g u) :
    manhattanNat u f ≤ manhattanNat p f + 1 := by
  unfold neighborPositions at hp
  simp only [List.mem_append] at hp
  rcases hp with ((h1 | h1) | h1) | h1
  all_goals
    split at h1
  all_goals
    first
      | exact absurd h1 (List.not_mem_nil p)
      | (rw [List.mem_singleton] at h1
         subst h1
         simp only [manhattanNat]
         omega)

/-- The closed-cone argument shared by dijkstra and astar: along any walk of
n moves from the start, either the endpoint is already closed with a recorded
distance at most n, or the open set holds an unclosed cell x whose key
(distance plus heuristic) is at most n plus the endpoint's heuristic. -/
theorem closedCone (g : Grid) (s : Pos) (st : Pos → NodeState) (opn : List Pos)
    (hval : Pos → Nat)
    (hws : g.isWall s = false)
    (hcons : ∀ u p, p ∈ neighborPositions g u → hval u ≤ hval p + 1)
    (hexact : ∀ p, (st p).isVisited = true → ∀ m, ReachN g s p m →
      (st p).distance ≤ DVal.fin m)
    (hfront : ∀ u, (st u).isVisited = true → ∀ p, p ∈ neighborPositions g u →
      (st p).isVisited = false → (st p).distance ≤ ((st u).distance).succ)
    (hopenAll : ∀ p, g.isWall p = false → (st p).isVisited = false →
      (st p).distance ≠ DVal.inf → p ∈ opn)
    (hstart : (st s).isVisited = false → (st s).distance = DVal.fin 0) :
    ∀ (n : Nat) (p : Pos), ReachN g s p n →
      ((st p).isVisited = true ∧ (st p).distance ≤ DVal.fin n)
      ∨ (∃ x dx, x ∈ opn ∧ (st x).isVisited = false
          ∧ (st x).distance = DVal.fin dx ∧ dx + hval x ≤ n + hval p) := by
  intro n p hr
  induction hr with
  | base =>
    by_cases hv : (st s).isVisited = true
    · exact Or.inl ⟨hv, hexact s hv 0 ReachN.base⟩
    · have hv' : (st s).isVisited = false := by
        cases hb : (st s).isVisited
        · rfl
        · exact absurd hb hv
      have hd := hstart hv'
      refine Or.inr ⟨s, 0, hopenAll s hws hv' ?_, hv', hd, Nat.le_refl _⟩
      rw [hd]
      intro h
      exact DVal.noConfusion h
  | @step p' q' n' hru hnb hwq ih =>
    by_cases hvq : (st q').isVisited = true
    · exact Or.inl ⟨hvq, hexact q' hvq (n' + 1) (ReachN.step hru hnb hwq)⟩
    · have hvq' : (st q').isVisited = false := by
        cases hb : (st q').isVisited
        · rfl
        · exact absurd hb hvq
      rcases ih with ⟨hvp, hdp⟩ | ⟨x, dx, hxo, hxv, hxd, hxb⟩
      · have hle : (st q').distance ≤ ((st p').distance).succ :=
          hfront p' hvp q' hnb hvq'
        have hle2 : (st q').distance ≤ DVal.fin (n' + 1) :=
          DVal.le_trans hle (DVal.succ_le_succ hdp)
        obtain ⟨dq, hdq, hdqn⟩ := DVal.le_fin_elim hle2
        refine Or.inr ⟨q', dq, hopenAll q' hwq hvq' ?_, hvq', hdq, by omega⟩
        rw [hdq]
        intro h
        exact DVal.noConfusion h
      · refine Or.inr ⟨x, dx, hxo, hxv, hxd, ?_⟩
        have := hcons p' q' hnb
        omega

theorem walkPrev_exact_length (st : Pos → NodeState) (s : Pos)
    (hstart : (st s).distance = DVal.fin 0)
    (hprevStep : ∀ p u, (st p).previousNode = some u →
      (st p).distance = ((st u).distance).succ)
    (hfinPrev : ∀ p, (st p).distance ≠ DVal.inf → p = s ∨ (st p).previousNode ≠ none) :
    ∀ (m fuel : Nat) (p : Pos), (st p).distance = DVal.fin m → m ≤ fuel →
      (walkPrev st fuel p).length = m + 1 := by
  intro m
  induction m with
  | zero =>
    intro fuel p hd _
    have hnone : (st p).previousNode = none := by
      cases hprev : (st p).previousNode with
      | none => rfl
      | some u =>
        have hstep := hprevStep p u hprev
        rw [hd] at hstep
        cases hdu : (st u).distance with
        | fin k =>
          rw [hdu] at hstep
          simp only [DVal.succ] at hstep
          exact absurd hstep (by intro h; injection h with h; omega)
        | inf =>
          rw [hdu] at hstep
          simp only [DVal.succ] at hstep
          exact DVal.noConfusion hstep
    cases fuel with
    | zero => rfl
    | succ fuel =>
      show (match (st p).previousNode with
        | none => [p]
        | some q => walkPrev st fuel q ++ [p]).length = 1
      rw [hnone]
      rfl
  | succ m ih =>
    intro fuel p hd hle
    have hfin : (st p).distance ≠ DVal.inf := by
      rw [hd]
      intro h
      exact DVal.noConfusion h
    cases hprev : (st p).previousNode with
    | none =>
      rcases hfinPrev p hfin with rfl | hne
      · rw [hstart] at hd
        exact absurd hd (by intro h; injection h with h; omega)
      · exact absurd hprev hne
    | some u =>
      have hstep := hprevStep p u hprev
      rw [hd] at hstep
      have hdu : (st u).distance = DVal.fin m := by
        cases hdu' : (st u).distance with
        | fin k =>
          rw [hdu'] at hstep
          simp only [DVal.succ] at hstep
          injection hstep with h
          have hkm : k = m := by omega
          rw [hkm]
        | inf =>
          rw [hdu'] at hstep
          simp only [DVal.succ] at hstep
          exact DVal.noConfusion hstep
      cases fuel with
      | zero => omega
      | succ fuel =>
        show (match (st p).previousNode with
          | none => [p]
          | some q => walkPrev st fuel q ++ [p]).length = (m + 1) + 1
        rw [hprev]
        rw [List.length_append, ih fuel u hdu (by omega)]
        rfl

theorem dist_le_belowCount (g : Grid) (s : Pos) (st : Pos → NodeState)
    (inv : ChainInv g s st)
    (hprevStep : ∀ p u, (st p).previousNode = some u →
      (st p).distance = ((st u).distance).succ)
    (hstart : (st s).distance = DVal.fin 0) :
    ∀ (m : Nat) (p : Pos), (st p).distance = DVal.fin m →
      m ≤ belowCount g st p := by
  intro m
  induction m with
  | zero => intro p _; exact Nat.zero_le _
  | succ m ih =>
    intro p hd
    have hfin : (st p).distance ≠ DVal.inf := by
      rw [hd]
      intro h
      exact DVal.noConfusion h
    cases hprev : (st p).previousNode with
    | none =>
      rcases inv.finPrev p hfin with rfl | hne
      · rw [hstart] at hd
        exact absurd hd (by intro h; injection h with h; omega)
      · exact absurd hprev hne
    | some u =>
      have hstep := hprevStep p u hprev
      rw [hd] at hstep
      have hdu : (st u).distance = DVal.fin m := by
        cases hdu' : (st u).distance with
        | fin k =>
          rw [hdu'] at hstep
          simp only [DVal.succ] at hstep
          injection hstep with h
          have hkm : k = m := by omega
          rw [hkm]
        | inf =>
          rw [hdu'] at hstep
          simp only [DVal.succ] at hstep
          exact DVal.noConfusion hstep
      have h1 := ih u hdu
      have h2 := belowCount_lt_of_prev g s st inv p u hprev
      omega

/-- The relaxation body of updateUnvisitedNeighbors, factored for the proofs
(definitionally the foldl body of the source). -/
def dijRelax (node : Pos) (s : DijkstraState) (q : Pos) : DijkstraState :=
  let newDistance := (s.st node).distance.succ
  if newDistance < (s.st q).distance then
    { s with
      st := setNode s.st q
        { s.st q with distance := newDistance, previousNode := some node },
      openSet := if q ∈ s.openSet then s.openSet else s.openSet ++ [q] }
  else s

theorem updateUnvisitedNeighbors_eq (g : Grid) (node : Pos) (s : DijkstraState) :
    updateUnvisitedNeighbors g node s
      = (getUnvisitedNeighbors g s.st node).foldl (dijRelax node) s := rfl

/-- The mid-relaxation invariant of the dijkstra loop: all components of the
correctness invariant except the frontier bound at the node currently being
expanded, plus the fixed distance of that node. -/
structure DijMid (g : Grid) (s f node : Pos) (d0 : DVal) (t : DijkstraState) : Prop where
  sinv : SInv g s t
  sound : ∀ p, g.isWall p = false → ∀ dp, (t.st p).distance = DVal.fin dp →
    ReachN g s p dp
  minim : ∀ p, (t.st p).isVisited = true → ∀ m, ReachN g s p m →
    (t.st p).distance ≤ DVal.fin m
  frontierOld : ∀ u, (t.st u).isVisited = true → u ≠ node →
    ∀ p, p ∈ neighborPositions g u → (t.st p).isVisited = false →
      (t.st p).distance ≤ ((t.st u).distance).succ
  openAll : ∀ p, g.isWall p = false → (t.st p).isVisited = false →
    (t.st p).distance ≠ DVal.inf → p ∈ t.openSet
  startZero : (t.st s).distance = DVal.fin 0
  prevStep : ∀ p u, (t.st p).previousNode = some u →
    (t.st p).distance = ((t.st u).distance).succ
  prevVis : ∀ p u, (t.st p).previousNode = some u → (t.st u).isVisited = true
  notFinish : (t.st f).isVisited = false
  nodeVis : (t.st node).isVisited = true
  nodeDist : (t.st node).distance = d0

theorem dijRelax_mid (g : Grid) (s f node : Pos) (d0n : Nat)
    (hg : g.inBounds node) (hwn : g.isWall node = false)
    (t : DijkstraState) (q : Pos) (hq : q ∈ neighborPositions g node)
    (hqunv : (t.st q).isVisited = false)
    (hmid : DijMid g s f node (DVal.fin d0n) t) :
    DijMid g s f node (DVal.fin d0n) (dijRelax node t q)
    ∧ (∀ p, ((dijRelax node t q).st p).isVisited = (t.st p).isVisited)
    ∧ RelaxMono t (dijRelax node t q) := by
  have hqnn : q ≠ node := neighborPositions_ne_self g node q hq
  have hqg : g.inBounds q := neighborPositions_inBounds g node q hg hq
  have hnfin : (t.st node).distance ≠ DVal.inf := by
    rw [hmid.nodeDist]
    intro h
    exact DVal.noConfusion h
  unfold dijRelax
  dsimp only
  split
  · next hlt =>
    have hvisEq : ∀ p, ((setNode t.st q
        { t.st q with
            distance := (t.st node).distance.succ, previousNode := some node }) p).isVisited = (t.st p).isVisited := by
      intro p
      by_cases hpq : p = q
      · subst hpq; rw [setNode_self]
      · rw [setNode_ne _ _ _ _ hpq]
    have hdistNe : ∀ p, p ≠ q → ((setNode t.st q
        { t.st q with
            distance := (t.st node).distance.succ, previousNode := some node }) p).distance = (t.st p).distance := by
      intro p hpq
      rw [setNode_ne _ _ _ _ hpq]
    have hprevNe : ∀ p, p ≠ q → ((setNode t.st q
        { t.st q with
            distance := (t.st node).distance.succ, previousNode := some node }) p).previousNode = (t.st p).previousNode := by
      intro p hpq
      rw [setNode_ne _ _ _ _ hpq]
    have hdistQ : ((setNode t.st q
        { t.st q with
            distance := (t.st node).distance.succ, previousNode := some node }) q).distance = (t.st node).distance.succ := by
      rw [setNode_self]
    have hprevQ : ((setNode t.st q
        { t.st q with
            distance := (t.st node).distance.succ, previousNode := some node }) q).previousNode = some node := by
      rw [setNode_self]
    have hndfin : (t.st node).distance.succ ≠ DVal.inf := DVal.succ_ne_inf hnfin
    have hopenSub : ∀ p, p ∈ t.openSet →
        p ∈ (if q ∈ t.openSet then t.openSet else t.openSet ++ [q]) := by
      intro p hp
      split
      · exact hp
      · exact List.mem_append.mpr (Or.inl hp)
    have hopenQ : q ∈ (if q ∈ t.openSet then t.openSet else t.openSet ++ [q]) := by
      split
      · next h => exact h
      · exact List.mem_append.mpr (Or.inr (List.mem_singleton.mpr rfl))
    have hopenInv : ∀ p, p ∈ (if q ∈ t.openSet then t.openSet else t.openSet ++ [q]) →
        p ∈ t.openSet ∨ p = q := by
      intro p hp
      split at hp
      · exact Or.inl hp
      · rcases List.mem_append.mp hp with hp | hp
        · exact Or.inl hp
        · exact Or.inr (List.mem_singleton.mp hp)
    refine ⟨⟨⟨?_, ?_, ?_⟩, ?_, ?_, ?_, ?_, ?_, ?_, ?_, ?_, ?_, ?_⟩, ?_, ?_⟩
    · exact ChainInv_write g s t.st node q _ hmid.sinv.chain rfl rfl rfl
        hnfin hg hqg (fun he => hqnn he.symm) (DVal.le_of_lt hlt)
    · intro p hp
      by_cases hpq : p = q
      · subst hpq
        rw [hdistQ]
        exact hndfin
      · rw [hdistNe p hpq]
        rcases hopenInv p hp with hp | hp
        · exact hmid.sinv.openFin p hp
        · exact absurd hp hpq
    · intro p hp
      by_cases hpq : p = q
      · subst hpq; exact hqg
      · rcases hopenInv p hp with hp | hp
        · exact hmid.sinv.openGrid p hp
        · exact absurd hp hpq
    · intro p hwp dp hdp
      by_cases hpq : p = q
      · subst hpq
        rw [hdistQ, hmid.nodeDist] at hdp
        simp only [DVal.succ] at hdp
        injection hdp with hdp
        rw [← hdp]
        exact ReachN.step (hmid.sound node hwn d0n hmid.nodeDist) hq hwp
      · rw [hdistNe p hpq] at hdp
        exact hmid.sound p hwp dp hdp
    · intro p hvp m hrm
      rw [hvisEq p] at hvp
      by_cases hpq : p = q
      · subst hpq
        rw [hvp] at hqunv
        exact Bool.noConfusion hqunv
      · rw [hdistNe p hpq]
        exact hmid.minim p hvp m hrm
    · intro u hvu hune p hpnb hpv
      rw [hvisEq u] at hvu
      rw [hvisEq p] at hpv
      have huq : u ≠ q := by
        intro he
        rw [he, hqunv] at hvu
        exact Bool.noConfusion hvu
      rw [hdistNe u huq]
      by_cases hpq : p = q
      · subst hpq
        rw [hdistQ]
        exact DVal.le_trans (DVal.le_of_lt hlt)
          (hmid.frontierOld u hvu hune p hpnb hpv)
      · rw [hdistNe p hpq]
        exact hmid.frontierOld u hvu hune p hpnb hpv
    · intro p hwp hpv hpfin
      rw [hvisEq p] at hpv
      by_cases hpq : p = q
      · subst hpq
        exact hopenQ
      · rw [hdistNe p hpq] at hpfin
        exact hopenSub p (hmid.openAll p hwp hpv hpfin)
    · by_cases hqs : q = s
      · exfalso
        rw [hqs, hmid.startZero, hmid.nodeDist] at hlt
        simp only [DVal.succ] at hlt
        rw [DVal.fin_lt_fin] at hlt
        omega
      · rw [hdistNe s (fun he => hqs he.symm)]
        exact hmid.startZero
    · intro p u hpu
      by_cases hpq : p = q
      · subst hpq
        rw [hprevQ] at hpu
        injection hpu with hpu
        rw [← hpu, hdistQ, hdistNe node (fun he => hqnn he.symm)]
      · rw [hprevNe p hpq] at hpu
        have huq : u ≠ q := by
          intro he
          have := hmid.prevVis p u hpu
          rw [he, hqunv] at this
          exact Bool.noConfusion this
        rw [hdistNe p hpq, hdistNe u huq]
        exact hmid.prevStep p u hpu
    · intro p u hpu
      by_cases hpq : p = q
      · subst hpq
        rw [hprevQ] at hpu
        injection hpu with hpu
        rw [hvisEq u, ← hpu]
        exact hmid.nodeVis
      · rw [hprevNe p hpq] at hpu
        rw [hvisEq u]
        exact hmid.prevVis p u hpu
    · rw [hvisEq f]
      exact hmid.notFinish
    · rw [hvisEq node]
      exact hmid.nodeVis
    · rw [hdistNe node (fun he => hqnn he.symm)]
      exact hmid.nodeDist
    · exact hvisEq
    · intro r
      by_cases hrq : r = q
      · subst hrq
        refine ⟨DVal.le_of_lt ?_, fun _ => ?_⟩
        · rw [hdistQ]; exact hlt
        · rw [hdistQ]; exact hlt
      · rw [hdistNe r hrq, hprevNe r hrq]
        exact ⟨DVal.le_refl _, fun h => absurd rfl h⟩
  · exact ⟨hmid, fun p => rfl, relaxMono_refl t⟩

/-- The dijkstra loop invariant from which correctness of the returned path
follows: the SInv bookkeeping plus soundness, minimality for closed nodes,
the full relaxed frontier, complete open-set coverage and exact predecessor
steps. -/
structure DijInv (g : Grid) (s f : Pos) (ds : DijkstraState) : Prop where
  sinv : SInv g s ds
  sound : ∀ p, g.isWall p = false → ∀ dp, (ds.st p).distance = DVal.fin dp →
    ReachN g s p dp
  minim : ∀ p, (ds.st p).isVisited = true → ∀ m, ReachN g s p m →
    (ds.st p).distance ≤ DVal.fin m
  frontier : ∀ u, (ds.st u).isVisited = true →
    ∀ p, p ∈ neighborPositions g u → (ds.st p).isVisited = false →
      (ds.st p).distance ≤ ((ds.st u).distance).succ
  openAll : ∀ p, g.isWall p = false → (ds.st p).isVisited = false →
    (ds.st p).distance ≠ DVal.inf → p ∈ ds.openSet
  startZero : (ds.st s).distance = DVal.fin 0
  prevStep : ∀ p u, (ds.st p).previousNode = some u →
    (ds.st p).distance = ((ds.st u).distance).succ
  prevVis : ∀ p u, (ds.st p).previousNode = some u → (ds.st u).isVisited = true
  notFinish : (ds.st f).isVisited = false

theorem dijFold_main (g : Grid) (s f node : Pos) (d0n : Nat)
    (hg : g.inBounds node) (hwn : g.isWall node = false) :
    ∀ (l : List Pos) (t : DijkstraState),
      (∀ a ∈ l, a ∈ neighborPositions g node) →
      DijMid g s f node (DVal.fin d0n) t →
      (∀ a ∈ l, (t.st a).isVisited = false) →
      DijMid g s f node (DVal.fin d0n) (l.foldl (dijRelax node) t)
      ∧ (∀ p, ((l.foldl (dijRelax node) t).st p).isVisited = (t.st p).isVisited)
      ∧ RelaxMono t (l.foldl (dijRelax node) t)
      ∧ (∀ a ∈ l, ((l.foldl (dijRelax node) t).st a).distance
          ≤ (DVal.fin d0n).succ) := by
  intro l
  induction l with
  | nil =>
    intro t _ hmid _
    exact ⟨hmid, fun p => rfl, relaxMono_refl t,
      fun a ha => absurd ha (List.not_mem_nil a)⟩
  | cons a l ih =>
    intro t hl hmid hunv
    have ha := hl a (List.mem_cons_self a l)
    have haunv := hunv a (List.mem_cons_self a l)
    have hstep := dijRelax_mid g s f node d0n hg hwn t a ha haunv hmid
    have hrest := ih (dijRelax node t a)
      (fun b hb => hl b (List.mem_cons_of_mem a hb))
      hstep.1
      (fun b hb => by
        rw [hstep.2.1 b]
        exact hunv b (List.mem_cons_of_mem a hb))
    rw [List.foldl_cons]
    refine ⟨hrest.1, ?_, relaxMono_trans hstep.2.2 hrest.2.2.1, ?_⟩
    · intro p
      rw [hrest.2.1 p, hstep.2.1 p]
    · intro b hb
      rcases List.mem_cons.mp hb with hb | hb
      · subst hb
        have hstepBound : ((dijRelax node t b).st b).distance ≤ (DVal.fin d0n).succ := by
          unfold dijRelax
          dsimp only
          split
          · next hlt =>
            show ((setNode t.st b
              { t.st b with
                  distance := (t.st node).distance.succ, previousNode := some node })
              b).distance ≤ (DVal.fin d0n).succ
            rw [setNode_self]
            show (t.st node).distance.succ ≤ _
            rw [hmid.nodeDist]
            exact DVal.le_refl _
          · next hnlt =>
            have h1 : (t.st b).distance ≤ (t.st node).distance.succ :=
              DVal.le_of_not_lt hnlt
            rw [hmid.nodeDist] at h1
            exact h1
        exact DVal.le_trans ((hrest.2.2.1 b).1) hstepBound
      · exact hrest.2.2.2 b hb

theorem dijUpdate_DijInv (g : Grid) (s f node : Pos) (d0n : Nat)
    (hg : g.inBounds node) (hwn : g.isWall node = false)
    (t0 : DijkstraState) (hmid : DijMid g s f node (DVal.fin d0n) t0) :
    DijInv g s f (updateUnvisitedNeighbors g node t0) := by
  rw [updateUnvisitedNeighbors_eq]
  have h := dijFold_main g s f node d0n hg hwn (getUnvisitedNeighbors g t0.st node) t0
    (fun a ha => getUnvisitedNeighbors_sub g t0.st node a ha)
    hmid
    (fun a ha => by
      have hf2 := (List.mem_filter.mp ha).2
      simpa using hf2)
  obtain ⟨hmid', hvisEq, hmono, hbound⟩ := h
  refine ⟨hmid'.sinv, hmid'.sound, hmid'.minim, ?_, hmid'.openAll, hmid'.startZero,
    hmid'.prevStep, hmid'.prevVis, hmid'.notFinish⟩
  intro u hvu p hpnb hpv
  by_cases hun : u = node
  · subst hun
    have hpv0 : (t0.st p).isVisited = false := by
      rw [← hvisEq p]
      exact hpv
    have hpl : p ∈ getUnvisitedNeighbors g t0.st u := by
      unfold getUnvisitedNeighbors
      rw [List.mem_filter]
      refine ⟨hpnb, ?_⟩
      rw [hpv0]
      rfl
    have hb := hbound p hpl
    rw [hmid'.nodeDist]
    exact hb
  · exact hmid'.frontierOld u hvu hun p hpnb hpv

theorem dij_popExact (g : Grid) (s f : Pos) (ds : DijkstraState)
    (hws : g.isWall s = false) (hinv : DijInv g s f ds)
    (c : Pos) (rest : List Pos)
    (heq : stableSort (fun a b => (ds.st a).distance.leb ((ds.st b).distance))
      ds.openSet = c :: rest)
    (hcv : (ds.st c).isVisited = false) :
    ∀ m, ReachN g s c m → (ds.st c).distance ≤ DVal.fin m := by
  intro m hrm
  have hmin : ∀ x ∈ ds.openSet,
      (ds.st c).distance.leb ((ds.st x).distance) = true :=
    stableSort_head_le (fun a b => (ds.st a).distance.leb ((ds.st b).distance))
      (fun a b => DVal.leb_total _ _)
      (fun a b cc h1 h2 => DVal.leb_trans _ _ _ h1 h2) ds.openSet c rest heq
  have hcone := closedCone g s ds.st ds.openSet (fun _ => 0) hws
    (fun u p _ => by dsimp only; omega)
    hinv.minim
    (fun u hvu p hpnb hpv => hinv.frontier u hvu p hpnb hpv)
    hinv.openAll
    (fun _ => hinv.startZero)
    m c hrm
  rcases hcone with ⟨hvc, _⟩ | ⟨x, dx, hxo, hxv, hxd, hxb⟩
  · rw [hvc] at hcv
    exact Bool.noConfusion hcv
  · have h1 : (ds.st c).distance ≤ (ds.st x).distance := hmin x hxo
    rw [hxd] at h1
    dsimp only at hxb
    exact DVal.le_trans h1 (DVal.fin_le_fin.mpr (by omega))

/-- What a finished dijkstra/astar run reports: an empty path exactly when the
finish is unreachable, otherwise a path of minimal-walk-length-plus-one
nodes. -/
def DijFinal (g : Grid) (s f : Pos) (l : List Pos) : Prop :=
  (l = [] ∧ ∀ n, ¬ ReachN g s f n)
  ∨ (∃ df, ReachN g s f df ∧ (∀ n, ReachN g s f n → df ≤ n) ∧ l.length = df + 1)

/-- The run-level property: either still searching with the full invariant, or
returned with a correct report. -/
def DijProp (g : Grid) (s f : Pos) (ds : DijkstraState) : Prop :=
  (ds.result = none ∧ DijInv g s f ds)
  ∨ (∃ l, ds.result = some l ∧ DijFinal g s f l)

theorem DijInv_dropHead (g : Grid) (s f : Pos) (ds : DijkstraState)
    (hinv : DijInv g s f ds) (c : Pos) (rest : List Pos)
    (hmem2 : ∀ x ∈ ds.openSet, x ∈ c :: rest)
    (hrest : ∀ x ∈ rest, x ∈ ds.openSet)
    (hex : ∀ p, g.isWall p = false → (ds.st p).isVisited = false →
      (ds.st p).distance ≠ DVal.inf → p ≠ c) :
    DijInv g s f { ds with openSet := rest } := by
  refine ⟨⟨hinv.sinv.chain, ?_, ?_⟩, hinv.sound, hinv.minim, hinv.frontier, ?_,
    hinv.startZero, hinv.prevStep, hinv.prevVis, hinv.notFinish⟩
  · intro p hp
    exact hinv.sinv.openFin p (hrest p hp)
  · intro p hp
    exact hinv.sinv.openGrid p (hrest p hp)
  · intro p hwp hpv hpfin
    have hp := hinv.openAll p hwp hpv hpfin
    rcases List.mem_cons.mp (hmem2 p hp) with hp2 | hp2
    · exact absurd hp2 (hex p hwp hpv hpfin)
    · exact hp2

theorem dij_unreachable_of_emptyOpen (g : Grid) (s f : Pos) (ds : DijkstraState)
    (hws : g.isWall s = false) (hinv : DijInv g s f ds)
    (hopen : ds.openSet = []) : ∀ n, ¬ ReachN g s f n := by
  intro n hrn
  have hcone := closedCone g s ds.st ds.openSet (fun _ => 0) hws
    (fun u p _ => by dsimp only; omega)
    hinv.minim hinv.frontier hinv.openAll (fun _ => hinv.startZero) n f hrn
  rcases hcone with ⟨hvf, _⟩ | ⟨x, _, hxo, _⟩
  · rw [hinv.notFinish] at hvf
    exact Bool.noConfusion hvf
  · rw [hopen] at hxo
    exact absurd hxo (List.not_mem_nil x)

theorem dijMark_prev_eq (st : Pos → NodeState) (u q : Pos) :
    ((setNode st u { st u with isVisited := true }) q).previousNode
      = (st q).previousNode := by
  by_cases hq : q = u
  · subst hq; rw [setNode_self]
  · rw [setNode_ne _ _ _ _ hq]

theorem dijMark_vis_ne (st : Pos → NodeState) (u q : Pos) (h : q ≠ u) :
    ((setNode st u { st u with isVisited := true }) q).isVisited
      = (st q).isVisited := by
  rw [setNode_ne _ _ _ _ h]

theorem dijMark_vis_self (st : Pos → NodeState) (u : Pos) :
    ((setNode st u { st u with isVisited := true }) u).isVisited = true := by
  rw [setNode_self]

theorem updateUnvisitedNeighbors_result (g : Grid) (node : Pos) (s : DijkstraState) :
    (updateUnvisitedNeighbors g node s).result = s.result := by
  unfold updateUnvisitedNeighbors
  refine foldl_preserves _ (fun t => t.result = s.result) ?_ _ s rfl
  intro t a ht
  dsimp only
  split
  · exact ht
  · exact ht

theorem dijkstraStep_DijProp (g : Grid) (s f : Pos)
    (hws : g.isWall s = false)
    (ds : DijkstraState) (hP : DijProp g s f ds) :
    DijProp g s f (dijkstraStep g f ds) := by
  rcases hP with ⟨hnone, hinv⟩ | ⟨l, hsome, hfinal⟩
  · have hcond : ¬(ds.result.isSome = true) := by
      intro h
      rw [hnone] at h
      exact Bool.noConfusion h
    unfold dijkstraStep
    rw [if_neg hcond]
    split
    · next heq =>
      have hopen : ds.openSet = [] := by
        have hlen := stableSort_length
          (fun a b => (ds.st a).distance.leb ((ds.st b).distance)) ds.openSet
        rw [heq] at hlen
        exact List.length_eq_zero.mp hlen.symm
      exact Or.inr ⟨[], rfl,
        Or.inl ⟨rfl, dij_unreachable_of_emptyOpen g s f ds hws hinv hopen⟩⟩
    · next closest rest heq =>
      have hmemSorted : ∀ x ∈ ds.openSet, x ∈ closest :: rest := by
        intro x hx
        rw [← heq]
        exact (mem_stableSort _ x _).mpr hx
      have hmemBack : ∀ x ∈ closest :: rest, x ∈ ds.openSet := by
        intro x hx
        rw [← heq] at hx
        exact (mem_stableSort _ x _).mp hx
      have hclosest : closest ∈ ds.openSet := hmemBack closest (List.mem_cons_self _ _)
      have hrest : ∀ x ∈ rest, x ∈ ds.openSet :=
        fun x hx => hmemBack x (List.mem_cons_of_mem _ hx)
      have hcfin : (ds.st closest).distance ≠ DVal.inf := hinv.sinv.openFin closest hclosest
      have hcg : g.inBounds closest := hinv.sinv.openGrid closest hclosest
      split
      · next hwall =>
        refine Or.inl ⟨hnone, DijInv_dropHead g s f ds hinv closest rest
          hmemSorted hrest ?_⟩
        intro p hwp _ _ hpc
        rw [hpc, hwall] at hwp
        exact Bool.noConfusion hwp
      · next hnwall =>
        have hwc : g.isWall closest = false := by
          cases hb : g.isWall closest
          · rfl
          · exact absurd hb hnwall
        split
        · next hvis =>
          refine Or.inl ⟨hnone, DijInv_dropHead g s f ds hinv closest rest
            hmemSorted hrest ?_⟩
          intro p _ hpv _ hpc
          rw [hpc, hvis] at hpv
          exact Bool.noConfusion hpv
        · next hnvis =>
          have hcv : (ds.st closest).isVisited = false := by
            cases hb : (ds.st closest).isVisited
            · rfl
            · exact absurd hb hnvis
          obtain ⟨dc, hdc⟩ : ∃ dc, (ds.st closest).distance = DVal.fin dc := by
            cases hb : (ds.st closest).distance with
            | fin k => exact ⟨k, rfl⟩
            | inf => exact absurd hb hcfin
          have hpop := dij_popExact g s f ds hws hinv closest rest heq hcv
          have hchain1 : ChainInv g s
              (setNode ds.st closest { ds.st closest with isVisited := true }) :=
            ChainInv_mark g s ds.st closest hinv.sinv.chain hcfin hcg
          have hdist1 : ∀ p, ((setNode ds.st closest
              { ds.st closest with isVisited := true }) p).distance
                = (ds.st p).distance := mark_dist_eq ds.st closest
          have hprev1 : ∀ p, ((setNode ds.st closest
              { ds.st closest with isVisited := true }) p).previousNode
                = (ds.st p).previousNode := dijMark_prev_eq ds.st closest
          have hprevStep1 : ∀ p u, ((setNode ds.st closest
              { ds.st closest with isVisited := true }) p).previousNode = some u →
              ((setNode ds.st closest
                { ds.st closest with isVisited := true }) p).distance
                = (((setNode ds.st closest
                  { ds.st closest with isVisited := true }) u).distance).succ := by
            intro p u h
            rw [hprev1 p] at h
            rw [hdist1 p, hdist1 u]
            exact hinv.prevStep p u h
          have hstart1 : ((setNode ds.st closest
              { ds.st closest with isVisited := true }) s).distance = DVal.fin 0 := by
            rw [hdist1 s]
            exact hinv.startZero
          dsimp only
          split
          · next hcf =>
            subst hcf
            refine Or.inr ⟨_, rfl, Or.inr ⟨dc, hinv.sound closest hwc dc hdc, ?_, ?_⟩⟩
            · intro n hn
              have hle := hpop n hn
              rw [hdc] at hle
              exact DVal.fin_le_fin.mp hle
            · have hdistf : ((setNode ds.st closest
                  { ds.st closest with isVisited := true }) closest).distance
                  = DVal.fin dc := by
                rw [hdist1 closest]
                exact hdc
              have hbc := dist_le_belowCount g s _ hchain1 hprevStep1 hstart1 dc
                closest hdistf
              have hltc := belowCount_lt_card g
                (setNode ds.st closest { ds.st closest with isVisited := true })
                closest hcg
              exact walkPrev_exact_length _ s hstart1 hprevStep1 hchain1.finPrev dc
                (walkFuel g) closest hdistf (by unfold walkFuel; omega)
          · next hncf =>
            have hmid1 : DijMid g s f closest (DVal.fin dc)
                { ds with
                  st := setNode ds.st closest { ds.st closest with isVisited := true },
                  openSet := rest,
                  visitedOrder := ds.visitedOrder ++ [closest] } := by
              refine ⟨⟨hchain1, ?_, ?_⟩, ?_, ?_, ?_, ?_, ?_, ?_, ?_, ?_, ?_, ?_⟩
              · intro p hp
                show ((setNode ds.st closest _) p).distance ≠ DVal.inf
                rw [hdist1 p]
                exact hinv.sinv.openFin p (hrest p hp)
              · intro p hp
                exact hinv.sinv.openGrid p (hrest p hp)
              · intro p hwp dp hdp
                rw [hdist1 p] at hdp
                exact hinv.sound p hwp dp hdp
              · intro p hvp m hrm
                by_cases hpc : p = closest
                · subst hpc
                  rw [hdist1 p]
                  exact hpop m hrm
                · rw [dijMark_vis_ne _ _ _ hpc] at hvp
                  rw [hdist1 p]
                  exact hinv.minim p hvp m hrm
              · intro u hvu hune p hpnb hpv
                rw [dijMark_vis_ne _ _ _ hune] at hvu
                have hpc : p ≠ closest := by
                  intro he
                  rw [he, dijMark_vis_self] at hpv
                  exact Bool.noConfusion hpv
                rw [dijMark_vis_ne _ _ _ hpc] at hpv
                rw [hdist1 p, hdist1 u]
                exact hinv.frontier u hvu p hpnb hpv
              · intro p hwp hpv hpfin
                have hpc : p ≠ closest := by
                  intro he
                  rw [he, dijMark_vis_self] at hpv
                  exact Bool.noConfusion hpv
                rw [dijMark_vis_ne _ _ _ hpc] at hpv
                rw [hdist1 p] at hpfin
                have hp := hinv.openAll p hwp hpv hpfin
                rcases List.mem_cons.mp (hmemSorted p hp) with hp2 | hp2
                · exact absurd hp2 hpc
                · exact hp2
              · exact hstart1
              · exact hprevStep1
              · intro p u h
                rw [hprev1 p] at h
                have hv := hinv.prevVis p u h
                by_cases huc : u = closest
                · subst huc
                  exact dijMark_vis_self ds.st u
                · rw [dijMark_vis_ne _ _ _ huc]
                  exact hv
              · have hfc : f ≠ closest := fun he => hncf he.symm
                show ((setNode ds.st closest _) f).isVisited = false
                rw [dijMark_vis_ne _ _ _ hfc]
                exact hinv.notFinish
              · exact dijMark_vis_self ds.st closest
              · show ((setNode ds.st closest _) closest).distance = DVal.fin dc
                rw [hdist1 closest]
                exact hdc
            refine Or.inl ⟨?_, dijUpdate_DijInv g s f closest dc hcg hwc _ hmid1⟩
            rw [updateUnvisitedNeighbors_result]
            exact hnone
  · have hcond : ds.result.isSome = true := by
      rw [hsome]
      rfl
    unfold dijkstraStep
    rw [if_pos hcond]
    exact Or.inr ⟨l, hsome, hfinal⟩

theorem dijkstraIter_DijProp (g : Grid) (s f : Pos) (hws : g.isWall s = false) :
    ∀ (n : Nat) (ds : DijkstraState), DijProp g s f ds →
      DijProp g s f (dijkstraIter g f n ds) := by
  intro n
  induction n with
  | zero => intro ds h; exact h
  | succ n ih => intro ds h; exact ih _ (dijkstraStep_DijProp g s f hws ds h)

theorem dijkstraInit_DijProp (g : Grid) (s f : Pos) (hs : g.inBounds s) :
    DijProp g s f (dijkstraInit s) := by
  have hvis : ∀ p, ((dijkstraInit s).st p).isVisited = false := by
    intro p
    show ((setNode resetState s _) p).isVisited = false
    by_cases hp : p = s
    · subst hp; rw [setNode_self]; rfl
    · rw [setNode_ne _ _ _ _ hp]; rfl
  have hprev : ∀ p, ((dijkstraInit s).st p).previousNode = none := by
    intro p
    show ((setNode resetState s _) p).previousNode = none
    by_cases hp : p = s
    · subst hp; rw [setNode_self]; rfl
    · rw [setNode_ne _ _ _ _ hp]; rfl
  have hdist : ∀ p, p ≠ s → ((dijkstraInit s).st p).distance = DVal.inf := by
    intro p hp
    show ((setNode resetState s _) p).distance = DVal.inf
    rw [setNode_ne _ _ _ _ hp]
    rfl
  have hdzero : ((dijkstraInit s).st s).distance = DVal.fin 0 := by
    show ((setNode resetState s _) s).distance = DVal.fin 0
    rw [setNode_self]
  refine Or.inl ⟨rfl, ⟨dijkstraInit_SInv g s hs, ?_, ?_, ?_, ?_, hdzero, ?_, ?_, ?_⟩⟩
  · intro p hwp dp hdp
    by_cases hp : p = s
    · subst hp
      rw [hdzero] at hdp
      injection hdp with hdp
      rw [← hdp]
      exact ReachN.base
    · rw [hdist p hp] at hdp
      exact DVal.noConfusion hdp
  · intro p hvp
    rw [hvis p] at hvp
    exact absurd hvp (by intro h; exact Bool.noConfusion h)
  · intro u hvu
    rw [hvis u] at hvu
    exact absurd hvu (by intro h; exact Bool.noConfusion h)
  · intro p hwp hpv hpfin
    by_cases hp : p = s
    · subst hp
      show p ∈ [p]
      exact List.mem_singleton.mpr rfl
    · exact absurd (hdist p hp) hpfin
  · intro p u hpu
    rw [hprev p] at hpu
    exact Option.noConfusion hpu
  · intro p u hpu
    rw [hprev p] at hpu
    exact Option.noConfusion hpu
  · exact hvis f

/-- Count of unvisited grid cells, the potential of the loop measure. -/
def unvisCount (g : Grid) (ds : DijkstraState) : Nat :=
  ((gridCells g).filter (fun p => !(ds.st p).isVisited)).card

/-- Strictly decreasing measure of the dijkstra/astar/greedy loop. -/
def dijMeasure (g : Grid) (ds : DijkstraState) : Nat :=
  ds.openSet.length + 5 * unvisCount g ds

theorem neighborPositions_length_le (g : Grid) (p : Pos) :
    (neighborPositions g p).length ≤ 4 := by
  unfold neighborPositions
  dsimp only
  repeat' split
  all_goals simp

theorem getUnvisitedNeighbors_length_le (g : Grid) (st : Pos → NodeState) (p : Pos) :
    (getUnvisitedNeighbors g st p).length ≤ 4 :=
  le_trans (List.length_filter_le _ _) (neighborPositions_length_le g p)

theorem dijRelaxFold_openLen (node : Pos) :
    ∀ (l : List Pos) (t : DijkstraState),
      (l.foldl (dijRelax node) t).openSet.length ≤ t.openSet.length + l.length := by
  intro l
  induction l with
  | nil => intro t; simp
  | cons a l ih =>
    intro t
    rw [List.foldl_cons]
    refine le_trans (ih (dijRelax node t a)) ?_
    have hstep : (dijRelax node t a).openSet.length ≤ t.openSet.length + 1 := by
      unfold dijRelax
      dsimp only
      split
      · split
        · simp
        · simp
      · simp
    simp only [List.length_cons]
    omega

theorem unvisCount_mark (g : Grid) (ds : DijkstraState) (c : Pos)
    (hcg : g.inBounds c) (hcv : (ds.st c).isVisited = false)
    (ds' : DijkstraState)
    (hst' : ∀ p, (ds'.st p).isVisited
      = ((setNode ds.st c { ds.st c with isVisited := true }) p).isVisited) :
    unvisCount g ds' + 1 = unvisCount g ds := by
  unfold unvisCount
  have hset : ((gridCells g).filter (fun p => !(ds'.st p).isVisited))
      = ((gridCells g).filter (fun p => !(ds.st p).isVisited)).erase c := by
    ext q
    rw [Finset.mem_filter, Finset.mem_erase, Finset.mem_filter]
    constructor
    · intro ⟨hq, hv⟩
      rw [hst' q] at hv
      by_cases hqc : q = c
      · subst hqc
        rw [setNode_self] at hv
        exact absurd hv (by intro h; exact Bool.noConfusion h)
      · rw [setNode_ne _ _ _ _ hqc] at hv
        exact ⟨hqc, hq, hv⟩
    · intro ⟨hqc, hq, hv⟩
      refine ⟨hq, ?_⟩
      rw [hst' q, setNode_ne _ _ _ _ hqc]
      exact hv
  rw [hset]
  have hcmem : c ∈ (gridCells g).filter (fun p => !(ds.st p).isVisited) := by
    rw [Finset.mem_filter]
    refine ⟨mem_gridCells.mpr hcg, ?_⟩
    rw [hcv]
    rfl
  rw [Finset.card_erase_of_mem hcmem]
  have := Finset.card_pos.mpr ⟨c, hcmem⟩
  omega

theorem dijkstraStep_measure (g : Grid) (s f : Pos) (ds : DijkstraState)
    (hinv : DijInv g s f ds) (hnone : ds.result = none) :
    ((dijkstraStep g f ds).result).isSome = true
    ∨ dijMeasure g (dijkstraStep g f ds) < dijMeasure g ds := by
  have hcond : ¬(ds.result.isSome = true) := by
    intro h
    rw [hnone] at h
    exact Bool.noConfusion h
  unfold dijkstraStep
  rw [if_neg hcond]
  split
  · next heq => left; rfl
  · next closest rest heq =>
    have hlenOpen : ds.openSet.length = rest.length + 1 := by
      have h := stableSort_length
        (fun a b => (ds.st a).distance.leb ((ds.st b).distance)) ds.openSet
      rw [heq] at h
      simp only [List.length_cons] at h
      omega
    have hclosest : closest ∈ ds.openSet := by
      have := (mem_stableSort
        (fun a b => (ds.st a).distance.leb ((ds.st b).distance)) closest ds.openSet).mp
      rw [heq] at this
      exact this (List.mem_cons_self _ _)
    have hcfin : (ds.st closest).distance ≠ DVal.inf := hinv.sinv.openFin closest hclosest
    have hcg : g.inBounds closest := hinv.sinv.openGrid closest hclosest
    split
    · next hwall =>
      right
      unfold dijMeasure
      have hu : unvisCount g { ds with openSet := rest } = unvisCount g ds := by
        unfold unvisCount
        rfl
      rw [hu]
      dsimp only
      omega
    · next hnwall =>
      split
      · next hvis =>
        right
        unfold dijMeasure
        have hu : unvisCount g { ds with openSet := rest } = unvisCount g ds := by
          unfold unvisCount
          rfl
        rw [hu]
        dsimp only
        omega
      · next hnvis =>
        have hcv : (ds.st closest).isVisited = false := by
          cases hb : (ds.st closest).isVisited
          · rfl
          · exact absurd hb hnvis
        dsimp only
        split
        · left; rfl
        · next hncf =>
          right
          have hvisEq := updateUnvisitedNeighbors_isVisited g closest
            { ds with
              st := setNode ds.st closest { ds.st closest with isVisited := true },
              openSet := rest,
              visitedOrder := ds.visitedOrder ++ [closest] }
          have hU := unvisCount_mark g ds closest hcg hcv
            (updateUnvisitedNeighbors g closest
              { ds with
                st := setNode ds.st closest { ds.st closest with isVisited := true },
                openSet := rest,
                visitedOrder := ds.visitedOrder ++ [closest] })
            (fun p => hvisEq p)
          have hopenlen : (updateUnvisitedNeighbors g closest
              { ds with
                st := setNode ds.st closest { ds.st closest with isVisited := true },
                openSet := rest,
                visitedOrder := ds.visitedOrder ++ [closest] }).openSet.length
              ≤ rest.length + 4 := by
            rw [updateUnvisitedNeighbors_eq]
            refine le_trans (dijRelaxFold_openLen closest _ _) ?_
            have h4 := getUnvisitedNeighbors_length_le g
              (setNode ds.st closest { ds.st closest with isVisited := true }) closest
            dsimp only at h4 ⊢
            omega
          unfold dijMeasure
          dsimp only at hU hopenlen ⊢
          omega

theorem dijkstraStep_frozen (g : Grid) (f : Pos) (ds : DijkstraState)
    (h : ds.result.isSome = true) : dijkstraStep g f ds = ds := by
  unfold dijkstraStep
  rw [if_pos h]

theorem dijkstraIter_frozen (g : Grid) (f : Pos) :
    ∀ (n : Nat) (ds : DijkstraState), ds.result.isSome = true →
      dijkstraIter g f n ds = ds := by
  intro n
  induction n with
  | zero => intro ds _; rfl
  | succ n ih =>
    intro ds h
    show dijkstraIter g f n (dijkstraStep g f ds) = ds
    rw [dijkstraStep_frozen g f ds h]
    exact ih ds h

theorem dijkstraIter_terminates (g : Grid) (s f : Pos) (hws : g.isWall s = false) :
    ∀ (n : Nat) (ds : DijkstraState), DijProp g s f ds → dijMeasure g ds < n →
      ((dijkstraIter g f n ds).result).isSome = true := by
  intro n
  induction n with
  | zero => intro ds _ h; omega
  | succ n ih =>
    intro ds hP hm
    cases hres : ds.result with
    | some l =>
      rw [dijkstraIter_frozen g f (n+1) ds (by rw [hres]; rfl), hres]
      rfl
    | none =>
      show ((dijkstraIter g f n (dijkstraStep g f ds)).result).isSome = true
      have hinv : DijInv g s f ds := by
        rcases hP with ⟨_, hinv⟩ | ⟨l, hsome, _⟩
        · exact hinv
        · rw [hres] at hsome
          exact Option.noConfusion hsome
      have hP' := dijkstraStep_DijProp g s f hws ds hP
      rcases dijkstraStep_measure g s f ds hinv hres with hdone | hless
      · rw [dijkstraIter_frozen g f n _ hdone]
        exact hdone
      · exact ih _ hP' (by omega)

theorem unvisCount_le (g : Grid) (ds : DijkstraState) :
    unvisCount g ds ≤ g.rows * g.cols := by
  unfold unvisCount
  rw [← card_gridCells g]
  exact Finset.card_filter_le _ _

theorem dijkstra_correct (g : Grid) (s f : Pos)
    (hs : g.inBounds s) (hws : g.isWall s = false) :
    DijFinal g s f (dijkstra g s f).nodesInShortestPathOrder := by
  have hP := dijkstraIter_DijProp g s f hws (runFuel g) (dijkstraInit s)
    (dijkstraInit_DijProp g s f hs)
  have hmeas : dijMeasure g (dijkstraInit s) < runFuel g := by
    have h1 : (dijkstraInit s).openSet.length = 1 := rfl
    have h2 := unvisCount_le g (dijkstraInit s)
    have hexp : (g.rows * g.cols + 2) * (g.rows * g.cols + 2)
        = g.rows * g.cols * (g.rows * g.cols) + 4 * (g.rows * g.cols) + 4 := by ring
    have h3 : g.rows * g.cols ≤ g.rows * g.cols * (g.rows * g.cols) := by
      rcases Nat.eq_zero_or_pos (g.rows * g.cols) with h | h
      · rw [h]
      · exact Nat.le_mul_of_pos_right _ h
    unfold dijMeasure runFuel
    rw [h1, hexp]
    linarith [h2, h3]
  have hT := dijkstraIter_terminates g s f hws (runFuel g) (dijkstraInit s)
    (dijkstraInit_DijProp g s f hs) hmeas
  rcases hP with ⟨hnone, _⟩ | ⟨l, hsome, hfinal⟩
  · rw [hnone] at hT
    exact Bool.noConfusion hT
  · show DijFinal g s f ((dijkstraIter g f (runFuel g) (dijkstraInit s)).result.getD [])
    rw [hsome]
    exact hfinal

theorem DijFinal_length_eq (g : Grid) (s f : Pos) (l1 l2 : List Pos)
    (h1 : DijFinal g s f l1) (h2 : DijFinal g s f l2) : l1.length = l2.length := by
  rcases h1 with ⟨he1, hu1⟩ | ⟨d1, hr1, hm1, hl1⟩
  · rcases h2 with ⟨he2, _⟩ | ⟨d2, hr2, _, _⟩
    · rw [he1, he2]
    · exact absurd hr2 (hu1 d2)
  · rcases h2 with ⟨_, hu2⟩ | ⟨d2, hr2, hm2, hl2⟩
    · exact absurd hr1 (hu2 d1)
    · have hd : d1 = d2 := Nat.le_antisymm (hm1 d2 hr2) (hm2 d1 hr1)
      rw [hl1, hl2, hd]

/-- The relaxation body of the astar updateUnvisitedNeighbors, factored for
the proofs (definitionally the foldl body of the source). -/
def astRelax (node finishNode : Pos) (s : DijkstraState) (q : Pos) : DijkstraState :=
  let newDistance := (s.st node).distance.succ
  if newDistance < (s.st q).distance then
    let h := getManhattanDistance q finishNode
    { s with
      st := setNode s.st q
        { s.st q with
          distance := newDistance,
          heuristicDistance := h,
          totalDistance := newDistance.add h,
          previousNode := some node },
      openSet := if q ∈ s.openSet then s.openSet else s.openSet ++ [q] }
  else s

theorem astarUpdateNeighbors_eq (g : Grid) (node finishNode : Pos) (s : DijkstraState) :
    astarUpdateNeighbors g node finishNode s
      = (getUnvisitedNeighbors g s.st node).foldl (astRelax node finishNode) s := rfl

/-- The mid-relaxation invariant of the astar loop: the dijkstra one plus the
written-key consistency totalDistance = distance + heuristic-to-finish. -/
structure AstMid (g : Grid) (s f node : Pos) (d0 : DVal) (t : DijkstraState) : Prop where
  sinv : SInv g s t
  sound : ∀ p, g.isWall p = false → ∀ dp, (t.st p).distance = DVal.fin dp →
    ReachN g s p dp
  minim : ∀ p, (t.st p).isVisited = true → ∀ m, ReachN g s p m →
    (t.st p).distance ≤ DVal.fin m
  frontierOld : ∀ u, (t.st u).isVisited = true → u ≠ node →
    ∀ p, p ∈ neighborPositions g u → (t.st p).isVisited = false →
      (t.st p).distance ≤ ((t.st u).distance).succ
  openAll : ∀ p, g.isWall p = false → (t.st p).isVisited = false →
    (t.st p).distance ≠ DVal.inf → p ∈ t.openSet
  startZero : (t.st s).distance = DVal.fin 0
  prevStep : ∀ p u, (t.st p).previousNode = some u →
    (t.st p).distance = ((t.st u).distance).succ
  prevVis : ∀ p u, (t.st p).previousNode = some u → (t.st u).isVisited = true
  notFinish : (t.st f).isVisited = false
  nodeVis : (t.st node).isVisited = true
  nodeDist : (t.st node).distance = d0
  totalEq : ∀ p, (t.st p).distance ≠ DVal.inf →
    (t.st p).heuristicDistance = getManhattanDistance p f
    ∧ (t.st p).totalDistance = ((t.st p).distance).add (getManhattanDistance p f)

theorem astRelax_mid (g : Grid) (s f node : Pos) (d0n : Nat)
    (hg : g.inBounds node) (hwn : g.isWall node = false)
    (t : DijkstraState) (q : Pos) (hq : q ∈ neighborPositions g node)
    (hqunv : (t.st q).isVisited = false)
    (hmid : AstMid g s f node (DVal.fin d0n) t) :
    AstMid g s f node (DVal.fin d0n) (astRelax node f t q)
    ∧ (∀ p, ((astRelax node f t q).st p).isVisited = (t.st p).isVisited)
    ∧ RelaxMono t (astRelax node f t q) := by
  have hqnn : q ≠ node := neighborPositions_ne_self g node q hq
  have hqg : g.inBounds q := neighborPositions_inBounds g node q hg hq
  have hnfin : (t.st node).distance ≠ DVal.inf := by
    rw [hmid.nodeDist]
    intro h
    exact DVal.noConfusion h
  unfold astRelax
  dsimp only
  split
  · next hlt =>
    have hvisEq : ∀ p, ((setNode t.st q
        { t.st q with
            distance := (t.st node).distance.succ,
            heuristicDistance := getManhattanDistance q f,
            totalDistance := ((t.st node).distance.succ).add (getManhattanDistance q f),
            previousNode := some node }) p).isVisited = (t.st p).isVisited := by
      intro p
      by_cases hpq : p = q
      · subst hpq; rw [setNode_self]
      · rw [setNode_ne _ _ _ _ hpq]
    have hdistNe : ∀ p, p ≠ q → ((setNode t.st q
        { t.st q with
            distance := (t.st node).distance.succ,
            heuristicDistance := getManhattanDistance q f,
            totalDistance := ((t.st node).distance.succ).add (getManhattanDistance q f),
            previousNode := some node }) p).distance = (t.st p).distance := by
      intro p hpq
      rw [setNode_ne _ _ _ _ hpq]
    have hprevNe : ∀ p, p ≠ q → ((setNode t.st q
        { t.st q with
            distance := (t.st node).distance.succ,
            heuristicDistance := getManhattanDistance q f,
            totalDistance := ((t.st node).distance.succ).add (getManhattanDistance q f),
            previousNode := some node }) p).previousNode = (t.st p).previousNode := by
      intro p hpq
      rw [setNode_ne _ _ _ _ hpq]
    have hrecNe : ∀ p, p ≠ q → ((setNode t.st q
        { t.st q with
            distance := (t.st node).distance.succ,
            heuristicDistance := getManhattanDistance q f,
            totalDistance := ((t.st node).distance.succ).add (getManhattanDistance q f),
            previousNode := some node }) p) = t.st p := by
      intro p hpq
      rw [setNode_ne _ _ _ _ hpq]
    have hdistQ : ((setNode t.st q
        { t.st q with
            distance := (t.st node).distance.succ,
            heuristicDistance := getManhattanDistance q f,
            totalDistance := ((t.st node).distance.succ).add (getManhattanDistance q f),
            previousNode := some node }) q).distance = (t.st node).distance.succ := by
      rw [setNode_self]
    have hprevQ : ((setNode t.st q
        { t.st q with
            distance := (t.st node).distance.succ,
            heuristicDistance := getManhattanDistance q f,
            totalDistance := ((t.st node).distance.succ).add (getManhattanDistance q f),
            previousNode := some node }) q).previousNode = some node := by
      rw [setNode_self]
    have hrecQ : ((setNode t.st q
        { t.st q with
            distance := (t.st node).distance.succ,
            heuristicDistance := getManhattanDistance q f,
            totalDistance := ((t.st node).distance.succ).add (getManhattanDistance q f),
            previousNode := some node }) q) = { t.st q with
            distance := (t.st node).distance.succ,
            heuristicDistance := getManhattanDistance q f,
            totalDistance := ((t.st node).distance.succ).add (getManhattanDistance q f),
            previousNode := some node } := by
      rw [setNode_self]
    have hndfin : (t.st node).distance.succ ≠ DVal.inf := DVal.succ_ne_inf hnfin
    have hopenSub : ∀ p, p ∈ t.openSet →
        p ∈ (if q ∈ t.openSet then t.openSet else t.openSet ++ [q]) := by
      intro p hp
      split
      · exact hp
      · exact List.mem_append.mpr (Or.inl hp)
    have hopenQ : q ∈ (if q ∈ t.openSet then t.openSet else t.openSet ++ [q]) := by
      split
      · next h => exact h
      · exact List.mem_append.mpr (Or.inr (List.mem_singleton.mpr rfl))
    have hopenInv : ∀ p, p ∈ (if q ∈ t.openSet then t.openSet else t.openSet ++ [q]) →
        p ∈ t.openSet ∨ p = q := by
      intro p hp
      split at hp
      · exact Or.inl hp
      · rcases List.mem_append.mp hp with hp | hp
        · exact Or.inl hp
        · exact Or.inr (List.mem_singleton.mp hp)
    refine ⟨⟨⟨?_, ?_, ?_⟩, ?_, ?_, ?_, ?_, ?_, ?_, ?_, ?_, ?_, ?_, ?_⟩, ?_, ?_⟩
    · exact ChainInv_write g s t.st node q _ hmid.sinv.chain rfl rfl rfl
        hnfin hg hqg (fun he => hqnn he.symm) (DVal.le_of_lt hlt)
    · intro p hp
      by_cases hpq : p = q
      · subst hpq
        rw [hdistQ]
        exact hndfin
      · rw [hdistNe p hpq]
        rcases hopenInv p hp with hp | hp
        · exact hmid.sinv.openFin p hp
        · exact absurd hp hpq
    · intro p hp
      by_cases hpq : p = q
      · subst hpq; exact hqg
      · rcases hopenInv p hp with hp | hp
        · exact hmid.sinv.openGrid p hp
        · exact absurd hp hpq
    · intro p hwp dp hdp
      by_cases hpq : p = q
      · subst hpq
        rw [hdistQ, hmid.nodeDist] at hdp
        simp only [DVal.succ] at hdp
        injection hdp with hdp
        rw [← hdp]
        exact ReachN.step (hmid.sound node hwn d0n hmid.nodeDist) hq hwp
      · rw [hdistNe p hpq] at hdp
        exact hmid.sound p hwp dp hdp
    · intro p hvp m hrm
      rw [hvisEq p] at hvp
      by_cases hpq : p = q
      · subst hpq
        rw [hvp] at hqunv
        exact Bool.noConfusion hqunv
      · rw [hdistNe p hpq]
        exact hmid.minim p hvp m hrm
    · intro u hvu hune p hpnb hpv
      rw [hvisEq u] at hvu
      rw [hvisEq p] at hpv
      have huq : u ≠ q := by
        intro he
        rw [he, hqunv] at hvu
        exact Bool.noConfusion hvu
      rw [hdistNe u huq]
      by_cases hpq : p = q
      · subst hpq
        rw [hdistQ]
        exact DVal.le_trans (DVal.le_of_lt hlt)
          (hmid.frontierOld u hvu hune p hpnb hpv)
      · rw [hdistNe p hpq]
        exact hmid.frontierOld u hvu hune p hpnb hpv
    · intro p hwp hpv hpfin
      rw [hvisEq p] at hpv
      by_cases hpq : p = q
      · subst hpq
        exact hopenQ
      · rw [hdistNe p hpq] at hpfin
        exact hopenSub p (hmid.openAll p hwp hpv hpfin)
    · by_cases hqs : q = s
      · exfalso
        rw [hqs, hmid.startZero, hmid.nodeDist] at hlt
        simp only [DVal.succ] at hlt
        rw [DVal.fin_lt_fin] at hlt
        omega
      · rw [hdistNe s (fun he => hqs he.symm)]
        exact hmid.startZero
    · intro p u hpu
      by_cases hpq : p = q
      · subst hpq
        rw [hprevQ] at hpu
        injection hpu with hpu
        rw [← hpu, hdistQ, hdistNe node (fun he => hqnn he.symm)]
      · rw [hprevNe p hpq] at hpu
        have huq : u ≠ q := by
          intro he
          have := hmid.prevVis p u hpu
          rw [he, hqunv] at this
          exact Bool.noConfusion this
        rw [hdistNe p hpq, hdistNe u huq]
        exact hmid.prevStep p u hpu
    · intro p u hpu
      by_cases hpq : p = q
      · subst hpq
        rw [hprevQ] at hpu
        injection hpu with hpu
        rw [hvisEq u, ← hpu]
        exact hmid.nodeVis
      · rw [hprevNe p hpq] at hpu
        rw [hvisEq u]
        exact hmid.prevVis p u hpu
    · rw [hvisEq f]
      exact hmid.notFinish
    · rw [hvisEq node]
      exact hmid.nodeVis
    · rw [hdistNe node (fun he => hqnn he.symm)]
      exact hmid.nodeDist
    · intro p hpfin
      dsimp only at hpfin ⊢
      by_cases hpq : p = q
      · subst hpq
        rw [setNode_self]
        exact ⟨rfl, rfl⟩
      · rw [setNode_ne _ _ _ _ hpq] at hpfin ⊢
        exact hmid.totalEq p hpfin
    · exact hvisEq
    · intro r
      by_cases hrq : r = q
      · subst hrq
        refine ⟨DVal.le_of_lt ?_, fun _ => ?_⟩
        · rw [hdistQ]; exact hlt
        · rw [hdistQ]; exact hlt
      · rw [hdistNe r hrq, hprevNe r hrq]
        exact ⟨DVal.le_refl _, fun h => absurd rfl h⟩
  · exact ⟨hmid, fun p => rfl, relaxMono_refl t⟩

/-- The astar loop invariant: the dijkstra one plus key consistency. -/
structure AstInv (g : Grid) (s f : Pos) (ds : DijkstraState) : Prop where
  sinv : SInv g s ds
  sound : ∀ p, g.isWall p = false → ∀ dp, (ds.st p).distance = DVal.fin dp →
    ReachN g s p dp
  minim : ∀ p, (ds.st p).isVisited = true → ∀ m, ReachN g s p m →
    (ds.st p).distance ≤ DVal.fin m
  frontier : ∀ u, (ds.st u).isVisited = true →
    ∀ p, p ∈ neighborPositions g u → (ds.st p).isVisited = false →
      (ds.st p).distance ≤ ((ds.st u).distance).succ
  openAll : ∀ p, g.isWall p = false → (ds.st p).isVisited = false →
    (ds.st p).distance ≠ DVal.inf → p ∈ ds.openSet
  startZero : (ds.st s).distance = DVal.fin 0
  prevStep : ∀ p u, (ds.st p).previousNode = some u →
    (ds.st p).distance = ((ds.st u).distance).succ
  prevVis : ∀ p u, (ds.st p).previousNode = some u → (ds.st u).isVisited = true
  notFinish : (ds.st f).isVisited = false
  totalEq : ∀ p, (ds.st p).distance ≠ DVal.inf →
    (ds.st p).heuristicDistance = getManhattanDistance p f
    ∧ (ds.st p).totalDistance = ((ds.st p).distance).add (getManhattanDistance p f)

theorem astFold_main (g : Grid) (s f node : Pos) (d0n : Nat)
    (hg : g.inBounds node) (hwn : g.isWall node = false) :
    ∀ (l : List Pos) (t : DijkstraState),
      (∀ a ∈ l, a ∈ neighborPositions g node) →
      AstMid g s f node (DVal.fin d0n) t →
      (∀ a ∈ l, (t.st a).isVisited = false) →
      AstMid g s f node (DVal.fin d0n) (l.foldl (astRelax node f) t)
      ∧ (∀ p, ((l.foldl (astRelax node f) t).st p).isVisited = (t.st p).isVisited)
      ∧ RelaxMono t (l.foldl (astRelax node f) t)
      ∧ (∀ a ∈ l, ((l.foldl (astRelax node f) t).st a).distance
          ≤ (DVal.fin d0n).succ) := by
  intro l
  induction l with
  | nil =>
    intro t _ hmid _
    exact ⟨hmid, fun p => rfl, relaxMono_refl t,
      fun a ha => absurd ha (List.not_mem_nil a)⟩
  | cons a l ih =>
    intro t hl hmid hunv
    have ha := hl a (List.mem_cons_self a l)
    have haunv := hunv a (List.mem_cons_self a l)
    have hstep := astRelax_mid g s f node d0n hg hwn t a ha haunv hmid
    have hrest := ih (astRelax node f t a)
      (fun b hb => hl b (List.mem_cons_of_mem a hb))
      hstep.1
      (fun b hb => by
        rw [hstep.2.1 b]
        exact hunv b (List.mem_cons_of_mem a hb))
    rw [List.foldl_cons]
    refine ⟨hrest.1, ?_, relaxMono_trans hstep.2.2 hrest.2.2.1, ?_⟩
    · intro p
      rw [hrest.2.1 p, hstep.2.1 p]
    · intro b hb
      rcases List.mem_cons.mp hb with hb | hb
      · subst hb
        have hstepBound : ((astRelax node f t b).st b).distance
            ≤ (DVal.fin d0n).succ := by
          unfold astRelax
          dsimp only
          split
          · next hlt =>
            show ((setNode t.st b
              { t.st b with
                  distance := (t.st node).distance.succ,
                  heuristicDistance := getManhattanDistance b f,
                  totalDistance := ((t.st node).distance.succ).add
                    (getManhattanDistance b f),
                  previousNode := some node })
              b).distance ≤ (DVal.fin d0n).succ
            rw [setNode_self]
            show (t.st node).distance.succ ≤ _
            rw [hmid.nodeDist]
            exact DVal.le_refl _
          · next hnlt =>
            have h1 : (t.st b).distance ≤ (t.st node).distance.succ :=
              DVal.le_of_not_lt hnlt
            rw [hmid.nodeDist] at h1
            exact h1
        exact DVal.le_trans ((hrest.2.2.1 b).1) hstepBound
      · exact hrest.2.2.2 b hb

theorem astUpdate_AstInv (g : Grid) (s f node : Pos) (d0n : Nat)
    (hg : g.inBounds node) (hwn : g.isWall node = false)
    (t0 : DijkstraState) (hmid : AstMid g s f node (DVal.fin d0n) t0) :
    AstInv g s f (astarUpdateNeighbors g node f t0) := by
  rw [astarUpdateNeighbors_eq]
  have h := astFold_main g s f node d0n hg hwn (getUnvisitedNeighbors g t0.st node) t0
    (fun a ha => getUnvisitedNeighbors_sub g t0.st node a ha)
    hmid
    (fun a ha => by
      have hf2 := (List.mem_filter.mp ha).2
      simpa using hf2)
  obtain ⟨hmid', hvisEq, hmono, hbound⟩ := h
  refine ⟨hmid'.sinv, hmid'.sound, hmid'.minim, ?_, hmid'.openAll, hmid'.startZero,
    hmid'.prevStep, hmid'.prevVis, hmid'.notFinish, hmid'.totalEq⟩
  intro u hvu p hpnb hpv
  by_cases hun : u = node
  · subst hun
    have hpv0 : (t0.st p).isVisited = false := by
      rw [← hvisEq p]
      exact hpv
    have hpl : p ∈ getUnvisitedNeighbors g t0.st u := by
      unfold getUnvisitedNeighbors
      rw [List.mem_filter]
      refine ⟨hpnb, ?_⟩
      rw [hpv0]
      rfl
    have hb := hbound p hpl
    rw [hmid'.nodeDist]
    exact hb
  · exact hmid'.frontierOld u hvu hun p hpnb hpv

theorem ast_popExact (g : Grid) (s f : Pos) (ds : DijkstraState)
    (hws : g.isWall s = false) (hinv : AstInv g s f ds)
    (c : Pos) (rest : List Pos)
    (heq : stableSort (astarLe ds.st) ds.openSet = c :: rest)
    (hcv : (ds.st c).isVisited = false)
    (dc : Nat) (hdc : (ds.st c).distance = DVal.fin dc) :
    ∀ m, ReachN g s c m → (ds.st c).distance ≤ DVal.fin m := by
  intro m hrm
  have hmin : ∀ x ∈ ds.openSet, astarLe ds.st c x = true :=
    stableSort_head_le (astarLe ds.st) (astarLe_total ds.st)
      (astarLe_trans ds.st) ds.openSet c rest heq
  have hcone := closedCone g s ds.st ds.openSet (fun p => manhattanNat p f) hws
    (fun u p hpnb => manhattan_consistent g f u p hpnb)
    hinv.minim hinv.frontier hinv.openAll (fun _ => hinv.startZero) m c hrm
  rcases hcone with ⟨hvc, _⟩ | ⟨x, dx, hxo, hxv, hxd, hxb⟩
  · rw [hvc] at hcv
    exact Bool.noConfusion hcv
  · have hxfin : (ds.st x).distance ≠ DVal.inf := by
      rw [hxd]
      intro h
      exact DVal.noConfusion h
    have hcfin : (ds.st c).distance ≠ DVal.inf := by
      rw [hdc]
      intro h
      exact DVal.noConfusion h
    have htc := (hinv.totalEq c hcfin).2
    have htx := (hinv.totalEq x hxfin).2
    have hlex := astarLe_totalDistance ds.st c x (hmin x hxo)
    rw [htc, htx, hdc, hxd] at hlex
    rw [getManhattanDistance_eq, getManhattanDistance_eq] at hlex
    have hlex2 : dc + manhattanNat c f ≤ dx + manhattanNat x f := by
      have : DVal.fin (dc + manhattanNat c f) ≤ DVal.fin (dx + manhattanNat x f) := hlex
      exact DVal.fin_le_fin.mp this
    dsimp only at hxb
    rw [hdc]
    exact DVal.fin_le_fin.mpr (by omega)

/-- Run-level property of the astar loop. -/
def AstProp (g : Grid) (s f : Pos) (ds : DijkstraState) : Prop :=
  (ds.result = none ∧ AstInv g s f ds)
  ∨ (∃ l, ds.result = some l ∧ DijFinal g s f l)

theorem AstInv_dropHead (g : Grid) (s f : Pos) (ds : DijkstraState)
    (hinv : AstInv g s f ds) (c : Pos) (rest : List Pos)
    (hmem2 : ∀ x ∈ ds.openSet, x ∈ c :: rest)
    (hrest : ∀ x ∈ rest, x ∈ ds.openSet)
    (hex : ∀ p, g.isWall p = false → (ds.st p).isVisited = false →
      (ds.st p).distance ≠ DVal.inf → p ≠ c) :
    AstInv g s f { ds with openSet := rest } := by
  refine ⟨⟨hinv.sinv.chain, ?_, ?_⟩, hinv.sound, hinv.minim, hinv.frontier, ?_,
    hinv.startZero, hinv.prevStep, hinv.prevVis, hinv.notFinish, hinv.totalEq⟩
  · intro p hp
    exact hinv.sinv.openFin p (hrest p hp)
  · intro p hp
    exact hinv.sinv.openGrid p (hrest p hp)
  · intro p hwp hpv hpfin
    have hp := hinv.openAll p hwp hpv hpfin
    rcases List.mem_cons.mp (hmem2 p hp) with hp2 | hp2
    · exact absurd hp2 (hex p hwp hpv hpfin)
    · exact hp2

theorem ast_unreachable_of_emptyOpen (g : Grid) (s f : Pos) (ds : DijkstraState)
    (hws : g.isWall s = false) (hinv : AstInv g s f ds)
    (hopen : ds.openSet = []) : ∀ n, ¬ ReachN g s f n := by
  intro n hrn
  have hcone := closedCone g s ds.st ds.openSet (fun _ => 0) hws
    (fun u p _ => by dsimp only; omega)
    hinv.minim hinv.frontier hinv.openAll (fun _ => hinv.startZero) n f hrn
  rcases hcone with ⟨hvf, _⟩ | ⟨x, _, hxo, _⟩
  · rw [hinv.notFinish] at hvf
    exact Bool.noConfusion hvf
  · rw [hopen] at hxo
    exact absurd hxo (List.not_mem_nil x)

theorem astarStep_AstProp (g : Grid) (s f : Pos)
    (hws : g.isWall s = false)
    (ds : DijkstraState) (hP : AstProp g s f ds) :
    AstProp g s f (astarStep g f ds) := by
  rcases hP with ⟨hnone, hinv⟩ | ⟨l, hsome, hfinal⟩
  · have hcond : ¬(ds.result.isSome = true) := by
      intro h
      rw [hnone] at h
      exact Bool.noConfusion h
    unfold astarStep
    rw [if_neg hcond]
    split
    · next heq =>
      have hopen : ds.openSet = [] := by
        have hlen := stableSort_length (astarLe ds.st) ds.openSet
        rw [heq] at hlen
        exact List.length_eq_zero.mp hlen.symm
      exact Or.inr ⟨[], rfl,
        Or.inl ⟨rfl, ast_unreachable_of_emptyOpen g s f ds hws hinv hopen⟩⟩
    · next closest rest heq =>
      have hmemSorted : ∀ x ∈ ds.openSet, x ∈ closest :: rest := by
        intro x hx
        rw [← heq]
        exact (mem_stableSort _ x _).mpr hx
      have hmemBack : ∀ x ∈ closest :: rest, x ∈ ds.openSet := by
        intro x hx
        rw [← heq] at hx
        exact (mem_stableSort _ x _).mp hx
      have hclosest : closest ∈ ds.openSet := hmemBack closest (List.mem_cons_self _ _)
      have hrest : ∀ x ∈ rest, x ∈ ds.openSet :=
        fun x hx => hmemBack x (List.mem_cons_of_mem _ hx)
      have hcfin : (ds.st closest).distance ≠ DVal.inf := hinv.sinv.openFin closest hclosest
      have hcg : g.inBounds closest := hinv.sinv.openGrid closest hclosest
      split
      · next hwall =>
        refine Or.inl ⟨hnone, AstInv_dropHead g s f ds hinv closest rest
          hmemSorted hrest ?_⟩
        intro p hwp _ _ hpc
        rw [hpc, hwall] at hwp
        exact Bool.noConfusion hwp
      · next hnwall =>
        have hwc : g.isWall closest = false := by
          cases hb : g.isWall closest
          · rfl
          · exact absurd hb hnwall
        split
        · next hvis =>
          refine Or.inl ⟨hnone, AstInv_dropHead g s f ds hinv closest rest
            hmemSorted hrest ?_⟩
          intro p _ hpv _ hpc
          rw [hpc, hvis] at hpv
          exact Bool.noConfusion hpv
        · next hnvis =>
          have hcv : (ds.st closest).isVisited = false := by
            cases hb : (ds.st closest).isVisited
            · rfl
            · exact absurd hb hnvis
          obtain ⟨dc, hdc⟩ : ∃ dc, (ds.st closest).distance = DVal.fin dc := by
            cases hb : (ds.st closest).distance with
            | fin k => exact ⟨k, rfl⟩
            | inf => exact absurd hb hcfin
          have hpop := ast_popExact g s f ds hws hinv closest rest heq hcv dc hdc
          have hchain1 : ChainInv g s
              (setNode ds.st closest { ds.st closest with isVisited := true }) :=
            ChainInv_mark g s ds.st closest hinv.sinv.chain hcfin hcg
          have hdist1 : ∀ p, ((setNode ds.st closest
              { ds.st closest with isVisited := true }) p).distance
                = (ds.st p).distance := mark_dist_eq ds.st closest
          have hprev1 : ∀ p, ((setNode ds.st closest
              { ds.st closest with isVisited := true }) p).previousNode
                = (ds.st p).previousNode := dijMark_prev_eq ds.st closest
          have hprevStep1 : ∀ p u, ((setNode ds.st closest
              { ds.st closest with isVisited := true }) p).previousNode = some u →
              ((setNode ds.st closest
                { ds.st closest with isVisited := true }) p).distance
                = (((setNode ds.st closest
                  { ds.st closest with isVisited := true }) u).distance).succ := by
            intro p u h
            rw [hprev1 p] at h
            rw [hdist1 p, hdist1 u]
            exact hinv.prevStep p u h
          have hstart1 : ((setNode ds.st closest
              { ds.st closest with isVisited := true }) s).distance = DVal.fin 0 := by
            rw [hdist1 s]
            exact hinv.startZero
          dsimp only
          split
          · next hcf =>
            subst hcf
            refine Or.inr ⟨_, rfl, Or.inr ⟨dc, hinv.sound closest hwc dc hdc, ?_, ?_⟩⟩
            · intro n hn
              have hle := hpop n hn
              rw [hdc] at hle
              exact DVal.fin_le_fin.mp hle
            · have hdistf : ((setNode ds.st closest
                  { ds.st closest with isVisited := true }) closest).distance
                  = DVal.fin dc := by
                rw [hdist1 closest]
                exact hdc
              have hbc := dist_le_belowCount g s _ hchain1 hprevStep1 hstart1 dc
                closest hdistf
              have hltc := belowCount_lt_card g
                (setNode ds.st closest { ds.st closest with isVisited := true })
                closest hcg
              exact walkPrev_exact_length _ s hstart1 hprevStep1 hchain1.finPrev dc
                (walkFuel g) closest hdistf (by unfold walkFuel; omega)
          · next hncf =>
            have hrec1 : ∀ p, (setNode ds.st closest
                { ds.st closest with isVisited := true }) p
                = { ds.st p with isVisited :=
                    ((setNode ds.st closest
                      { ds.st closest with isVisited := true }) p).isVisited } := by
              intro p
              by_cases hpc : p = closest
              · subst hpc
                rw [setNode_self]
              · rw [setNode_ne _ _ _ _ hpc]
            have hmid1 : AstMid g s f closest (DVal.fin dc)
                { ds with
                  st := setNode ds.st closest { ds.st closest with isVisited := true },
                  openSet := rest,
                  visitedOrder := ds.visitedOrder ++ [closest] } := by
              refine ⟨⟨hchain1, ?_, ?_⟩, ?_, ?_, ?_, ?_, ?_, ?_, ?_, ?_, ?_, ?_, ?_⟩
              · intro p hp
                show ((setNode ds.st closest _) p).distance ≠ DVal.inf
                rw [hdist1 p]
                exact hinv.sinv.openFin p (hrest p hp)
              · intro p hp
                exact hinv.sinv.openGrid p (hrest p hp)
              · intro p hwp dp hdp
                rw [hdist1 p] at hdp
                exact hinv.sound p hwp dp hdp
              · intro p hvp m hrm
                by_cases hpc : p = closest
                · subst hpc
                  rw [hdist1 p]
                  exact hpop m hrm
                · rw [dijMark_vis_ne _ _ _ hpc] at hvp
                  rw [hdist1 p]
                  exact hinv.minim p hvp m hrm
              · intro u hvu hune p hpnb hpv
                rw [dijMark_vis_ne _ _ _ hune] at hvu
                have hpc : p ≠ closest := by
                  intro he
                  rw [he, dijMark_vis_self] at hpv
                  exact Bool.noConfusion hpv
                rw [dijMark_vis_ne _ _ _ hpc] at hpv
                rw [hdist1 p, hdist1 u]
                exact hinv.frontier u hvu p hpnb hpv
              · intro p hwp hpv hpfin
                have hpc : p ≠ closest := by
                  intro he
                  rw [he, dijMark_vis_self] at hpv
                  exact Bool.noConfusion hpv
                rw [dijMark_vis_ne _ _ _ hpc] at hpv
                rw [hdist1 p] at hpfin
                have hp := hinv.openAll p hwp hpv hpfin
                rcases List.mem_cons.mp (hmemSorted p hp) with hp2 | hp2
                · exact absurd hp2 hpc
                · exact hp2
              · exact hstart1
              · exact hprevStep1
              · intro p u h
                rw [hprev1 p] at h
                have hv := hinv.prevVis p u h
                by_cases huc : u = closest
                · subst huc
                  exact dijMark_vis_self ds.st u
                · rw [dijMark_vis_ne _ _ _ huc]
                  exact hv
              · have hfc : f ≠ closest := fun he => hncf he.symm
                show ((setNode ds.st closest _) f).isVisited = false
                rw [dijMark_vis_ne _ _ _ hfc]
                exact hinv.notFinish
              · exact dijMark_vis_self ds.st closest
              · show ((setNode ds.st closest _) closest).distance = DVal.fin dc
                rw [hdist1 closest]
                exact hdc
              · intro p hpfin
                dsimp only at hpfin ⊢
                rw [hdist1 p] at hpfin
                have ht := hinv.totalEq p hpfin
                rw [hrec1 p]
                exact ht
            refine Or.inl ⟨?_, astUpdate_AstInv g s f closest dc hcg hwc _ hmid1⟩
            show (astarUpdateNeighbors g closest f _).result = none
            rw [astarUpdateNeighbors_eq]
            have hres : ∀ (l : List Pos) (t : DijkstraState),
                (l.foldl (astRelax closest f) t).result = t.result := by
              intro l
              induction l with
              | nil => intro t; rfl
              | cons a l ih =>
                intro t
                rw [List.foldl_cons, ih]
                unfold astRelax
                dsimp only
                split
                · rfl
                · rfl
            rw [hres]
            exact hnone
  · have hcond : ds.result.isSome = true := by
      rw [hsome]
      rfl
    unfold astarStep
    rw [if_pos hcond]
    exact Or.inr ⟨l, hsome, hfinal⟩

theorem astarIter_AstProp (g : Grid) (s f : Pos) (hws : g.isWall s = false) :
    ∀ (n : Nat) (ds : DijkstraState), AstProp g s f ds →
      AstProp g s f (astarIter g f n ds) := by
  intro n
  induction n with
  | zero => intro ds h; exact h
  | succ n ih => intro ds h; exact ih _ (astarStep_AstProp g s f hws ds h)

theorem astarInit_AstProp (g : Grid) (s f : Pos) (hs : g.inBounds s) :
    AstProp g s f (astarInit s f) := by
  have hvis : ∀ p, ((astarInit s f).st p).isVisited = false := by
    intro p
    show ((setNode resetState s _) p).isVisited = false
    by_cases hp : p = s
    · subst hp; rw [setNode_self]; rfl
    · rw [setNode_ne _ _ _ _ hp]; rfl
  have hprev : ∀ p, ((astarInit s f).st p).previousNode = none := by
    intro p
    show ((setNode resetState s _) p).previousNode = none
    by_cases hp : p = s
    · subst hp; rw [setNode_self]; rfl
    · rw [setNode_ne _ _ _ _ hp]; rfl
  have hdist : ∀ p, p ≠ s → ((astarInit s f).st p).distance = DVal.inf := by
    intro p hp
    show ((setNode resetState s _) p).distance = DVal.inf
    rw [setNode_ne _ _ _ _ hp]
    rfl
  have hdzero : ((astarInit s f).st s).distance = DVal.fin 0 := by
    show ((setNode resetState s _) s).distance = DVal.fin 0
    rw [setNode_self]
  refine Or.inl ⟨rfl, ⟨astarInit_SInv g s f hs, ?_, ?_, ?_, ?_, hdzero, ?_, ?_, ?_, ?_⟩⟩
  · intro p hwp dp hdp
    by_cases hp : p = s
    · subst hp
      rw [hdzero] at hdp
      injection hdp with hdp
      rw [← hdp]
      exact ReachN.base
    · rw [hdist p hp] at hdp
      exact DVal.noConfusion hdp
  · intro p hvp
    rw [hvis p] at hvp
    exact absurd hvp (by intro h; exact Bool.noConfusion h)
  · intro u hvu
    rw [hvis u] at hvu
    exact absurd hvu (by intro h; exact Bool.noConfusion h)
  · intro p hwp hpv hpfin
    by_cases hp : p = s
    · subst hp
      show p ∈ [p]
      exact List.mem_singleton.mpr rfl
    · exact absurd (hdist p hp) hpfin
  · intro p u hpu
    rw [hprev p] at hpu
    exact Option.noConfusion hpu
  · intro p u hpu
    rw [hprev p] at hpu
    exact Option.noConfusion hpu
  · exact hvis f
  · intro p hpfin
    by_cases hp : p = s
    · subst hp
      show ((setNode resetState p _) p).heuristicDistance = _
        ∧ ((setNode resetState p _) p).totalDistance = _
      rw [setNode_self]
      refine ⟨rfl, ?_⟩
      rw [hdzero]
    · exact absurd (hdist p hp) hpfin

theorem astRelaxFold_openLen (node f : Pos) :
    ∀ (l : List Pos) (t : DijkstraState),
      (l.foldl (astRelax node f) t).openSet.length ≤ t.openSet.length + l.length := by
  intro l
  induction l with
  | nil => intro t; simp
  | cons a l ih =>
    intro t
    rw [List.foldl_cons]
    refine le_trans (ih (astRelax node f t a)) ?_
    have hstep : (astRelax node f t a).openSet.length ≤ t.openSet.length + 1 := by
      unfold astRelax
      dsimp only
      split
      · split
        · simp
        · simp
      · simp
    simp only [List.length_cons]
    omega

theorem astarUpdateNeighbors_result (g : Grid) (node f : Pos) (s : DijkstraState) :
    (astarUpdateNeighbors g node f s).result = s.result := by
  unfold astarUpdateNeighbors
  refine foldl_preserves _ (fun t => t.result = s.result) ?_ _ s rfl
  intro t a ht
  dsimp only
  split
  · exact ht
  · exact ht

theorem astarStep_measure (g : Grid) (s f : Pos) (ds : DijkstraState)
    (hinv : AstInv g s f ds) (hnone : ds.result = none) :
    ((astarStep g f ds).result).isSome = true
    ∨ dijMeasure g (astarStep g f ds) < dijMeasure g ds := by
  have hcond : ¬(ds.result.isSome = true) := by
    intro h
    rw [hnone] at h
    exact Bool.noConfusion h
  unfold astarStep
  rw [if_neg hcond]
  split
  · next heq => left; rfl
  · next closest rest heq =>
    have hlenOpen : ds.openSet.length = rest.length + 1 := by
      have h := stableSort_length (astarLe ds.st) ds.openSet
      rw [heq] at h
      simp only [List.length_cons] at h
      omega
    have hclosest : closest ∈ ds.openSet := by
      have hm := (mem_stableSort (astarLe ds.st) closest ds.openSet).mp
      rw [heq] at hm
      exact hm (List.mem_cons_self _ _)
    have hcfin : (ds.st closest).distance ≠ DVal.inf := hinv.sinv.openFin closest hclosest
    have hcg : g.inBounds closest := hinv.sinv.openGrid closest hclosest
    split
    · next hwall =>
      right
      unfold dijMeasure
      have hu : unvisCount g { ds with openSet := rest } = unvisCount g ds := by
        unfold unvisCount
        rfl
      rw [hu]
      dsimp only
      omega
    · next hnwall =>
      split
      · next hvis =>
        right
        unfold dijMeasure
        have hu : unvisCount g { ds with openSet := rest } = unvisCount g ds := by
          unfold unvisCount
          rfl
        rw [hu]
        dsimp only
        omega
      · next hnvis =>
        have hcv : (ds.st closest).isVisited = false := by
          cases hb : (ds.st closest).isVisited
          · rfl
          · exact absurd hb hnvis
        dsimp only
        split
        · left; rfl
        · next hncf =>
          right
          have hvisEq := astarUpdateNeighbors_isVisited g closest f
            { ds with
              st := setNode ds.st closest { ds.st closest with isVisited := true },
              openSet := rest,
              visitedOrder := ds.visitedOrder ++ [closest] }
          have hU := unvisCount_mark g ds closest hcg hcv
            (astarUpdateNeighbors g closest f
              { ds with
                st := setNode ds.st closest { ds.st closest with isVisited := true },
                openSet := rest,
                visitedOrder := ds.visitedOrder ++ [closest] })
            (fun p => hvisEq p)
          have hopenlen : (astarUpdateNeighbors g closest f
              { ds with
                st := setNode ds.st closest { ds.st closest with isVisited := true },
                openSet := rest,
                visitedOrder := ds.visitedOrder ++ [closest] }).openSet.length
              ≤ rest.length + 4 := by
            rw [astarUpdateNeighbors_eq]
            refine le_trans (astRelaxFold_openLen closest f _ _) ?_
            have h4 := getUnvisitedNeighbors_length_le g
              (setNode ds.st closest { ds.st closest with isVisited := true }) closest
            dsimp only at h4 ⊢
            omega
          unfold dijMeasure
          dsimp only at hU hopenlen ⊢
          omega

theorem astarStep_frozen (g : Grid) (f : Pos) (ds : DijkstraState)
    (h : ds.result.isSome = true) : astarStep g f ds = ds := by
  unfold astarStep
  rw [if_pos h]

theorem astarIter_frozen (g : Grid) (f : Pos) :
    ∀ (n : Nat) (ds : DijkstraState), ds.result.isSome = true →
      astarIter g f n ds = ds := by
  intro n
  induction n with
  | zero => intro ds _; rfl
  | succ n ih =>
    intro ds h
    show astarIter g f n (astarStep g f ds) = ds
    rw [astarStep_frozen g f ds h]
    exact ih ds h

theorem astarIter_terminates (g : Grid) (s f : Pos) (hws : g.isWall s = false) :
    ∀ (n : Nat) (ds : DijkstraState), AstProp g s f ds → dijMeasure g ds < n →
      ((astarIter g f n ds).result).isSome = true := by
  intro n
  induction n with
  | zero => intro ds _ h; omega
  | succ n ih =>
    intro ds hP hm
    cases hres : ds.result with
    | some l =>
      rw [astarIter_frozen g f (n+1) ds (by rw [hres]; rfl), hres]
      rfl
    | none =>
      show ((astarIter g f n (astarStep g f ds)).result).isSome = true
      have hinv : AstInv g s f ds := by
        rcases hP with ⟨_, hinv⟩ | ⟨l, hsome, _⟩
        · exact hinv
        · rw [hres] at hsome
          exact Option.noConfusion hsome
      have hP' := astarStep_AstProp g s f hws ds hP
      rcases astarStep_measure g s f ds hinv hres with hdone | hless
      · rw [astarIter_frozen g f n _ hdone]
        exact hdone
      · exact ih _ hP' (by omega)

theorem astar_correct (g : Grid) (s f : Pos)
    (hs : g.inBounds s) (hws : g.isWall s = false) :
    DijFinal g s f (astar g s f).nodesInShortestPathOrder := by
  have hP := astarIter_AstProp g s f hws (runFuel g) (astarInit s f)
    (astarInit_AstProp g s f hs)
  have hmeas : dijMeasure g (astarInit s f) < runFuel g := by
    have h1 : (astarInit s f).openSet.length = 1 := rfl
    have h2 := unvisCount_le g (astarInit s f)
    have hexp : (g.rows * g.cols + 2) * (g.rows * g.cols + 2)
        = g.rows * g.cols * (g.rows * g.cols) + 4 * (g.rows * g.cols) + 4 := by ring
    have h3 : g.rows * g.cols ≤ g.rows * g.cols * (g.rows * g.cols) := by
      rcases Nat.eq_zero_or_pos (g.rows * g.cols) with h | h
      · rw [h]
      · exact Nat.le_mul_of_pos_right _ h
    unfold dijMeasure runFuel
    rw [h1, hexp]
    linarith [h2, h3]
  have hT := astarIter_terminates g s f hws (runFuel g) (astarInit s f)
    (astarInit_AstProp g s f hs) hmeas
  rcases hP with ⟨hnone, _⟩ | ⟨l, hsome, hfinal⟩
  · rw [hnone] at hT
    exact Bool.noConfusion hT
  · show DijFinal g s f ((astarIter g f (runFuel g) (astarInit s f)).result.getD [])
    rw [hsome]
    exact hfinal

/-- C1: on every grid meeting the contract preconditions (in-bounds distinct
non-wall start and finish, reset fields), the path astar returns has exactly
the same length as the path dijkstra returns, and when no wall-free walk from
start to finish exists both strategies return the empty path. -/
theorem c1_astar_matches_dijkstra (g : Grid) (s f : Pos)
    (hs : g.inBounds s) (hf : g.inBounds f) (hsf : s ≠ f)
    (hws : g.isWall s = false) (hwf : g.isWall f = false) :
    (astar g s f).nodesInShortestPathOrder.length
      = (dijkstra g s f).nodesInShortestPathOrder.length
    ∧ ((∀ n, ¬ ReachN g s f n) →
        (astar g s f).nodesInShortestPathOrder = []
        ∧ (dijkstra g s f).nodesInShortestPathOrder = []) := by
  have ha := astar_correct g s f hs hws
  have hd := dijkstra_correct g s f hs hws
  refine ⟨DijFinal_length_eq g s f _ _ ha hd, ?_⟩
  intro hun
  constructor
  · rcases ha with ⟨he, _⟩ | ⟨d, hr, _, _⟩
    · exact he
    · exact absurd hr (hun d)
  · rcases hd with ⟨he, _⟩ | ⟨d, hr, _, _⟩
    · exact he
    · exact absurd hr (hun d)

set_option maxRecDepth 4000 in
/-- C1 witness: the theorem instantiated on the wall-free 2x2 grid with start
(0,0) and finish (1,1), every precondition discharged by evaluation. -/
theorem c1_witness :
    grid2x2.inBounds (0,0) ∧ grid2x2.inBounds (1,1) ∧ ((0,0) : Pos) ≠ (1,1)
    ∧ grid2x2.isWall (0,0) = false ∧ grid2x2.isWall (1,1) = false
    ∧ (astar grid2x2 (0,0) (1,1)).nodesInShortestPathOrder.length
      = (dijkstra grid2x2 (0,0) (1,1)).nodesInShortestPathOrder.length :=
  ⟨by decide, by decide, by decide, by decide, by decide,
   (c1_astar_matches_dijkstra grid2x2 (0,0) (1,1) (by decide) (by decide) (by decide)
     (by decide) (by decide)).1⟩

/-! ## Claim C5, bmssp part: walls never enter the visited set

The bmssp module marks nodes visited in three places (the baseCase pop loop,
the recursive merge, the W-absorption step), always at members of its tracked
node collections; every collection is populated from the sources or from the
wall-filtered getNeighbors, so from a non-wall source set no wall is ever
marked. -/

/-- Every listed cell is free of wall. -/
def WallsFreeL (g : Grid) (l : List Pos) : Prop := ∀ p ∈ l, g.isWall p = false

/-- Every keyed entry names a wall-free cell. -/
def WallsFreeE (g : Grid) (es : List (Pos × DVal)) : Prop :=
  ∀ e ∈ es, g.isWall e.1 = false

theorem bmWrite_isVisited (bst : BmsspSt) (v : Pos) (nd : DVal) (u : Pos) (p : Pos) :
    ((bmWrite bst v nd u).st p).isVisited = (bst.st p).isVisited := by
  unfold bmWrite
  dsimp only
  by_cases hp : p = v
  · subst hp
    rw [setNode_self]
  · rw [setNode_ne _ _ _ _ hp]

theorem bmGetNeighbors_nonwall (g : Grid) (u v : Pos) (hv : v ∈ bmGetNeighbors g u) :
    g.isWall v = false := by
  have := List.mem_filter.mp hv
  simpa using this.2

theorem fpRelaxOne_walls (g : Grid) (B : DVal) (u : Pos)
    (bst : BmsspSt) (w : List Pos) (v : Pos)
    (hv : v ∈ bmGetNeighbors g u) (hw : WallsFreeL g w) :
    (∀ p, ((fpRelaxOne B u (bst, w) v).1.st p).isVisited = (bst.st p).isVisited)
    ∧ WallsFreeL g (fpRelaxOne B u (bst, w) v).2 := by
  have hvw : g.isWall v = false := bmGetNeighbors_nonwall g u v hv
  have hwext : WallsFreeL g (w ++ [v]) := by
    intro p hp
    rcases List.mem_append.mp hp with hp | hp
    · exact hw p hp
    · rw [List.mem_singleton] at hp
      subst hp
      exact hvw
  unfold fpRelaxOne
  dsimp only
  repeat' split
  all_goals first
    | exact ⟨fun p => bmWrite_isVisited bst v _ u p, hwext⟩
    | exact ⟨fun p => bmWrite_isVisited bst v _ u p, hw⟩
    | exact ⟨fun p => rfl, hw⟩

theorem fpRound_walls (g : Grid) (B : DVal) (wPrev : List Pos) (bst : BmsspSt) :
    (∀ p, ((fpRound g B wPrev bst).1.st p).isVisited = (bst.st p).isVisited)
    ∧ WallsFreeL g (fpRound g B wPrev bst).2 := by
  unfold fpRound
  refine foldl_preserves_mem _
    (fun acc : BmsspSt × List Pos =>
      (∀ p, (acc.1.st p).isVisited = (bst.st p).isVisited) ∧ WallsFreeL g acc.2)
    wPrev ?_ (bst, [])
    ⟨fun p => rfl, fun p hp => absurd hp (List.not_mem_nil p)⟩
  intro acc u hu hacc
  refine foldl_preserves_mem _
    (fun acc2 : BmsspSt × List Pos =>
      (∀ p, (acc2.1.st p).isVisited = (bst.st p).isVisited) ∧ WallsFreeL g acc2.2)
    (bmGetNeighbors g u) ?_ acc hacc
  intro acc2 v hv hacc2
  rcases acc2 with ⟨bst2, w2⟩
  have hstep := fpRelaxOne_walls g B u bst2 w2 v hv hacc2.2
  exact ⟨fun p => (hstep.1 p).trans (hacc2.1 p), hstep.2⟩

theorem fpLoop_walls (g : Grid) (k : Nat) (B : DVal) (S : List Pos) :
    ∀ (fuel : Nat) (wPrev wList : List Pos) (bst : BmsspSt),
      WallsFreeL g wList →
      (∀ p, ((fpLoop g k B S fuel wPrev wList bst).2.st p).isVisited
        = (bst.st p).isVisited)
      ∧ WallsFreeL g (fpLoop g k B S fuel wPrev wList bst).1.2 := by
  intro fuel
  induction fuel with
  | zero => intro wPrev wList bst hl; exact ⟨fun p => rfl, hl⟩
  | succ fuel ih =>
    intro wPrev wList bst hl
    have hr := fpRound_walls g B wPrev bst
    have hl1 : WallsFreeL g ((fpRound g B wPrev bst).2.foldl
        (fun wl v => if v ∈ wl then wl else wl ++ [v]) wList) := by
      intro x hx
      rcases mem_dedupAppend wList (fpRound g B wPrev bst).2 x hx with hx | hx
      · exact hl x hx
      · exact hr.2 x hx
    show (∀ p, ((fpLoop g k B S (fuel+1) wPrev wList bst).2.st p).isVisited = _) ∧ _
    unfold fpLoop
    rcases hround : fpRound g B wPrev bst with ⟨bst1, wCurr⟩
    rw [hround] at hr hl1
    dsimp only at hr hl1 ⊢
    split
    · exact ⟨hr.1, hl1⟩
    · split
      · exact ⟨hr.1, hl1⟩
      · have hrec := ih wCurr _ bst1 hl1
        exact ⟨fun p => (hrec.1 p).trans (hr.1 p), hrec.2⟩

theorem findPivots_walls (g : Grid) (k : Nat) (B : DVal) (S : List Pos)
    (bst : BmsspSt) (hS : WallsFreeL g S) :
    (∀ p, ((findPivots g k B S bst).2.st p).isVisited = (bst.st p).isVisited)
    ∧ WallsFreeL g (findPivots g k B S bst).1.1
    ∧ WallsFreeL g (findPivots g k B S bst).1.2 := by
  have h := fpLoop_walls g k B S k S S bst hS
  have hP : (findPivots g k B S bst).1.1 = S := fpLoop_P_eq g k B S k S S bst
  exact ⟨h.1, by rw [hP]; exact hS, h.2⟩

theorem bcRelaxOne_walls (g : Grid) (B : DVal) (u : Pos)
    (bst : BmsspSt) (heap : List (Pos × DVal)) (v : Pos)
    (hv : v ∈ bmGetNeighbors g u) (hh : WallsFreeE g heap) :
    (∀ p, ((bcRelaxOne B u (bst, heap) v).1.st p).isVisited = (bst.st p).isVisited)
    ∧ WallsFreeE g (bcRelaxOne B u (bst, heap) v).2 := by
  have hvw := bmGetNeighbors_nonwall g u v hv
  unfold bcRelaxOne
  dsimp only
  split
  · refine ⟨fun p => bmWrite_isVisited bst v _ u p, ?_⟩
    intro e he
    dsimp only at he
    split at he
    · rcases heapDecreaseKey_subset heap v _ e he with h | h
      · exact hh e h
      · rw [h]
        exact hvw
    · rcases heapPush_subset heap v _ e he with h | h
      · exact hh e h
      · rw [h]
        exact hvw
  · exact ⟨fun p => rfl, hh⟩

theorem bcLoop_step_walls (g : Grid) (k : Nat) (B : DVal) (fuel : Nat)
    (ihyp : ∀ (U0 : List Pos) (heap : List (Pos × DVal)) (bst : BmsspSt),
      WallsUnvisited g bst.st → WallsFreeL g U0 → WallsFreeE g heap →
      WallsUnvisited g (bcLoop g k B fuel U0 heap bst).2.st
      ∧ WallsFreeL g (bcLoop g k B fuel U0 heap bst).1)
    (u : Pos) (U0' : List Pos) (heap1 : List (Pos × DVal)) (bst1 : BmsspSt)
    (hw1 : WallsUnvisited g bst1.st) (hU' : WallsFreeL g U0')
    (hh1 : WallsFreeE g heap1) :
    WallsUnvisited g (bcLoop g k B fuel U0'
        ((bmGetNeighbors g u).foldl (bcRelaxOne B u) (bst1, heap1)).2
        ((bmGetNeighbors g u).foldl (bcRelaxOne B u) (bst1, heap1)).1).2.st
    ∧ WallsFreeL g (bcLoop g k B fuel U0'
        ((bmGetNeighbors g u).foldl (bcRelaxOne B u) (bst1, heap1)).2
        ((bmGetNeighbors g u).foldl (bcRelaxOne B u) (bst1, heap1)).1).1 := by
  have hF := foldl_preserves_mem (bcRelaxOne B u)
    (fun acc : BmsspSt × List (Pos × DVal) =>
      (∀ p, (acc.1.st p).isVisited = (bst1.st p).isVisited) ∧ WallsFreeE g acc.2)
    (bmGetNeighbors g u)
    (by
      intro acc v hv hacc
      rcases acc with ⟨bstA, heapA⟩
      have hstep := bcRelaxOne_walls g B u bstA heapA v hv hacc.2
      exact ⟨fun p => (hstep.1 p).trans (hacc.1 p), hstep.2⟩)
    (bst1, heap1) ⟨fun p => rfl, hh1⟩
  have hwF : WallsUnvisited g
      ((bmGetNeighbors g u).foldl (bcRelaxOne B u) (bst1, heap1)).1.st := by
    intro p hp
    rw [hF.1 p]
    exact hw1 p hp
  exact ihyp U0' _ _ hwF hU' hF.2

theorem bcLoop_walls (g : Grid) (k : Nat) (B : DVal) :
    ∀ (fuel : Nat) (U0 : List Pos) (heap : List (Pos × DVal)) (bst : BmsspSt),
      WallsUnvisited g bst.st → WallsFreeL g U0 → WallsFreeE g heap →
      WallsUnvisited g (bcLoop g k B fuel U0 heap bst).2.st
      ∧ WallsFreeL g (bcLoop g k B fuel U0 heap bst).1 := by
  intro fuel
  induction fuel with
  | zero => intro U0 heap bst hw hU hh; exact ⟨hw, hU⟩
  | succ fuel ih =>
    intro U0 heap bst hw hU hh
    show WallsUnvisited g (bcLoop g k B (fuel+1) U0 heap bst).2.st ∧ _
    unfold bcLoop
    dsimp only
    split
    · exact ⟨hw, hU⟩
    · split
      · exact ⟨hw, hU⟩
      · split
        · exact ⟨hw, hU⟩
        · next u dist heap1 hpop =>
          split
          · exact ⟨hw, hU⟩
          · obtain ⟨hupop, hheap1⟩ := heapPop_subset heap u dist heap1 hpop
            have huw : g.isWall u = false := hh _ hupop
            have hU0' : WallsFreeL g (if u ∈ U0 then U0 else U0 ++ [u]) := by
              split
              · exact hU
              · intro p hp
                rcases List.mem_append.mp hp with hp | hp
                · exact hU p hp
                · rw [List.mem_singleton] at hp
                  subst hp
                  exact huw
            have hh1 : WallsFreeE g heap1 := fun e he => hh e (hheap1 e he)
            set U0x := (if u ∈ U0 then U0 else U0 ++ [u]) with hU0x
            split
            · exact bcLoop_step_walls g k B fuel ih u U0x heap1 bst hw hU0' hh1
            · refine bcLoop_step_walls g k B fuel ih u U0x heap1
                { bst with st := setNode bst.st u { bst.st u with isVisited := true },
                           trace := bst.trace ++ [u] }
                ?_ hU0' hh1
              intro p hp
              have hne : p ≠ u := by
                intro he
                rw [he] at hp
                rw [hp] at huw
                exact Bool.noConfusion huw
              dsimp only
              rw [setNode_ne _ _ _ _ hne]
              exact hw p hp

theorem baseCase_walls (g : Grid) (k bcFuel : Nat) (B : DVal)
    (S : List Pos) (bst : BmsspSt)
    (hw : WallsUnvisited g bst.st) (hS : WallsFreeL g S) :
    WallsUnvisited g (baseCase g k bcFuel B S bst).2.st
    ∧ WallsFreeL g (baseCase g k bcFuel B S bst).1.2 := by
  have hU0init : WallsFreeL g
      (S.foldl (fun l x => if x ∈ l then l else l ++ [x]) []) := by
    intro p hp
    rcases mem_dedupAppend [] S p hp with h | h
    · exact absurd h (List.not_mem_nil p)
    · exact hS p h
  have hheap0 : WallsFreeE g
      (S.foldl (fun h x => heapPush h x ((bst.st x).distance)) []) := by
    refine foldl_preserves_mem _ (fun h => WallsFreeE g h) S ?_ []
      (fun e he => absurd he (List.not_mem_nil e))
    intro h x hx hh e he
    rcases heapPush_subset h x _ e he with h1 | h1
    · exact hh e h1
    · rw [h1]
      exact hS x hx
  have hloop := bcLoop_walls g k B bcFuel _ _ bst hw hU0init hheap0
  refine ⟨hloop.1, ?_⟩
  intro p hp
  exact hloop.2 p (bcPost_snd_subset k B _ _ p hp)

theorem bmRelaxOne_walls (g : Grid) (B Bi Bpi : DVal) (u : Pos)
    (bst : BmsspSt) (D : StructureD) (K : List (Pos × DVal)) (v : Pos)
    (hv : v ∈ bmGetNeighbors g u)
    (hD : WallsFreeE g D.items) (hK : WallsFreeE g K) :
    (∀ p, ((bmRelaxOne B Bi Bpi u (bst, D, K) v).1.st p).isVisited
      = (bst.st p).isVisited)
    ∧ WallsFreeE g (bmRelaxOne B Bi Bpi u (bst, D, K) v).2.1.items
    ∧ WallsFreeE g (bmRelaxOne B Bi Bpi u (bst, D, K) v).2.2 := by
  have hvw := bmGetNeighbors_nonwall g u v hv
  have hvis : ∀ p, ((bmWrite bst v (bst.st u).distance.succ u).st p).isVisited
      = (bst.st p).isVisited :=
    fun p => bmWrite_isVisited bst v _ u p
  have hDins : WallsFreeE g (dInsert D v
      ((bmWrite bst v (bst.st u).distance.succ u).st v).distance).items := by
    intro e he
    rcases dInsert_subset D v _ e he with h | h
    · exact hD e h
    · rw [h]
      exact hvw
  have hKext : WallsFreeE g
      (K ++ [(v, ((bmWrite bst v (bst.st u).distance.succ u).st v).distance)]) := by
    intro e he
    rcases List.mem_append.mp he with he | he
    · exact hK e he
    · rw [List.mem_singleton] at he
      rw [he]
      exact hvw
  unfold bmRelaxOne
  dsimp only
  repeat' split
  all_goals
    first
      | exact ⟨hvis, hDins, hK⟩
      | exact ⟨hvis, hD, hKext⟩
      | exact ⟨hvis, hD, hK⟩
      | exact ⟨fun p => rfl, hD, hK⟩

theorem bmLoopGo_walls (g : Grid) (B : DVal) (sizeLimit : Nat)
    (recurse : DVal → List Pos → BmsspSt → (DVal × List Pos) × BmsspSt)
    (hrec : ∀ (Bi : DVal) (Si : List Pos) (bst : BmsspSt),
      WallsUnvisited g bst.st → WallsFreeL g Si →
      WallsUnvisited g (recurse Bi Si bst).2.st
      ∧ WallsFreeL g (recurse Bi Si bst).1.2) :
    ∀ (fuel : Nat) (U : List Pos) (D : StructureD) (Bp : DVal) (bst : BmsspSt),
      WallsUnvisited g bst.st → WallsFreeL g U → WallsFreeE g D.items →
      WallsUnvisited g (bmLoopGo g B sizeLimit recurse fuel U D Bp bst).2.st
      ∧ WallsFreeL g (bmLoopGo g B sizeLimit recurse fuel U D Bp bst).1.2 := by
  intro fuel
  induction fuel with
  | zero => intro U D Bp bst hw hU hD; exact ⟨hw, hU⟩
  | succ fuel ih =>
    intro U D Bp bst hw hU hD
    show WallsUnvisited g (bmLoopGo g B sizeLimit recurse (fuel+1) U D Bp bst).2.st ∧ _
    unfold bmLoopGo
    dsimp only
    split
    · exact ⟨hw, hU⟩
    · split
      · exact ⟨hw, hU⟩
      · set pulled := dPull D with hplEq
        set Bi := pulled.1.1 with hBiEq
        set Si := pulled.1.2 with hSiEq
        set D1 := pulled.2 with hD1Eq
        set rec1 := recurse Bi Si bst with hrec1Eq
        set Bpi := rec1.1.1 with hBpiEq
        set Ui := rec1.1.2 with hUiEq
        set bst1 := rec1.2 with hbst1Eq
        have hpull := dPull_facts D
        have hSi : WallsFreeL g Si := by
          intro p hp
          obtain ⟨e, he, hep⟩ := hpull.1 p hp
          rw [← hep]
          exact hD e he
        have hD1w : WallsFreeE g D1.items := fun e he => hD e (hpull.2 e he)
        have hr := hrec Bi Si bst hw hSi
        set merged := Ui.foldl (fun (acc : List Pos × BmsspSt) node =>
          let U' := if node ∈ acc.1 then acc.1 else acc.1 ++ [node]
          if (acc.2.st node).isVisited then (U', acc.2)
          else (U', { acc.2 with
            st := setNode acc.2.st node { acc.2.st node with isVisited := true },
            trace := acc.2.trace ++ [node] })) (U, bst1) with hmEq
        have hmerged : WallsUnvisited g merged.2.st ∧ WallsFreeL g merged.1 := by
          refine foldl_preserves_mem _
            (fun acc : List Pos × BmsspSt =>
              WallsUnvisited g acc.2.st ∧ WallsFreeL g acc.1)
            Ui ?_ (U, bst1) ⟨hr.1, hU⟩
          intro acc node hnode hP
          obtain ⟨hwa, hla⟩ := hP
          have hnw : g.isWall node = false := hr.2 node hnode
          dsimp only
          have hU' : WallsFreeL g
              (if node ∈ acc.1 then acc.1 else acc.1 ++ [node]) := by
            split
            · exact hla
            · intro p hp
              rcases List.mem_append.mp hp with hp | hp
              · exact hla p hp
              · rw [List.mem_singleton] at hp
                subst hp
                exact hnw
          split
          · exact ⟨hwa, hU'⟩
          · refine ⟨?_, hU'⟩
            intro p hp
            have hne : p ≠ node := by
              intro he
              rw [he] at hp
              rw [hp] at hnw
              exact Bool.noConfusion hnw
            show ((setNode acc.2.st node
              { acc.2.st node with isVisited := true }) p).isVisited = false
            rw [setNode_ne _ _ _ _ hne]
            exact hwa p hp
        set relaxed := Ui.foldl (fun acc u =>
          (bmGetNeighbors g u).foldl (bmRelaxOne B Bi Bpi u) acc)
          (merged.2, D1, ([] : List (Pos × DVal))) with hrxEq
        have hrelaxed : (∀ p, (relaxed.1.st p).isVisited = (merged.2.st p).isVisited)
            ∧ WallsFreeE g relaxed.2.1.items
            ∧ WallsFreeE g relaxed.2.2 := by
          refine foldl_preserves_mem _
            (fun acc : BmsspSt × StructureD × List (Pos × DVal) =>
              (∀ p, (acc.1.st p).isVisited = (merged.2.st p).isVisited)
              ∧ WallsFreeE g acc.2.1.items
              ∧ WallsFreeE g acc.2.2)
            Ui ?_ (merged.2, D1, ([] : List (Pos × DVal)))
            ⟨fun p => rfl, hD1w, fun e he => absurd he (List.not_mem_nil e)⟩
          intro acc u hu hacc
          refine foldl_preserves_mem _
            (fun acc2 : BmsspSt × StructureD × List (Pos × DVal) =>
              (∀ p, (acc2.1.st p).isVisited = (merged.2.st p).isVisited)
              ∧ WallsFreeE g acc2.2.1.items
              ∧ WallsFreeE g acc2.2.2)
            (bmGetNeighbors g u) ?_ acc hacc
          intro acc2 v hv hacc2
          rcases acc2 with ⟨bstA, DA, KA⟩
          obtain ⟨hv2, hD2, hK2⟩ := hacc2
          have hstep := bmRelaxOne_walls g B Bi Bpi u bstA DA KA v hv hD2 hK2
          exact ⟨fun p => (hstep.1 p).trans (hv2 p), hstep.2.1, hstep.2.2⟩
        set bst3 := relaxed.1 with hbst3Eq
        set K := relaxed.2.2 with hKEq
        have hw3 : WallsUnvisited g bst3.st := by
          intro p hp
          rw [hrelaxed.1 p]
          exact hmerged.1 p hp
        set prependList := K ++ (Si.filter (fun x =>
          Bpi.leb ((bst3.st x).distance) && ((bst3.st x).distance).ltb Bi)).map
          (fun x => (x, (bst3.st x).distance)) with hppEq
        have hppW : WallsFreeE g prependList := by
          intro e he
          rcases List.mem_append.mp he with he | he
          · exact hrelaxed.2.2 e he
          · rcases List.mem_map.mp he with ⟨x, hx, hxe⟩
            rw [← hxe]
            exact hSi x (List.mem_of_mem_filter hx)
        set D3 := prependList.foldl (fun D it => dInsert D it.1 it.2) relaxed.2.1
          with hD3Eq
        have hD3w : WallsFreeE g D3.items := by
          refine foldl_preserves_mem _ (fun Dx => WallsFreeE g Dx.items) prependList ?_
            relaxed.2.1 hrelaxed.2.1
          intro DA it hit hDA e he
          rcases dInsert_subset DA it.1 it.2 e he with h | h
          · exact hDA e h
          · rw [h]
            exact hppW it hit
        set Bpp := if Bpi.leb B then Bpi else B with hBppEq
        exact ih merged.1 D3 Bpp bst3 hw3 hmerged.2 hD3w

theorem bmsspRecursive_walls (g : Grid) (k t bcFuel loopFuel : Nat) :
    ∀ (level : Nat) (B : DVal) (S : List Pos) (bst : BmsspSt),
      WallsUnvisited g bst.st → WallsFreeL g S →
      WallsUnvisited g (bmsspRecursive g k t bcFuel loopFuel level B S bst).2.st
      ∧ WallsFreeL g (bmsspRecursive g k t bcFuel loopFuel level B S bst).1.2 := by
  intro level
  induction level with
  | zero =>
    intro B S bst hw hS
    rw [bmsspRecursive_zero]
    exact baseCase_walls g k bcFuel B S bst hw hS
  | succ l ihl =>
    intro B S bst hw hS
    rw [bmsspRecursive_succ]
    dsimp only
    set fp := findPivots g k B S bst with hfpEq
    set P := fp.1.1 with hPEq
    set W := fp.1.2 with hWEq
    set bst1 := fp.2 with hbst1Eq
    have hfp := findPivots_walls g k B S bst hS
    have hw1 : WallsUnvisited g bst1.st :=
      fun p hp => (hfp.1 p).trans (hw p hp)
    have hPw : WallsFreeL g P := hfp.2.1
    have hWw : WallsFreeL g W := hfp.2.2
    set D1 := P.foldl (fun D x => dInsert D x ((bst1.st x).distance))
      ({ items := [], M := 2 ^ (l * t), B := B } : StructureD) with hD1Eq
    have hD1w : WallsFreeE g D1.items := by
      refine foldl_preserves_mem _ (fun Dx : StructureD => WallsFreeE g Dx.items) P ?_ _
        (fun e he => absurd he (List.not_mem_nil e))
      intro DA x hx hDA e he
      rcases dInsert_subset DA x _ e he with h | h
      · exact hDA e h
      · rw [h]
        exact hPw x hx
    set looped := bmLoopGo g B (k * 2 ^ ((l + 1) * t))
      (bmsspRecursive g k t bcFuel loopFuel l) loopFuel [] D1
      (if P.isEmpty then B
       else P.foldl (fun b x =>
         if ((bst1.st x).distance).ltb b then (bst1.st x).distance else b) DVal.inf)
      bst1 with hloopedEq
    have hloop := bmLoopGo_walls g B (k * 2 ^ ((l + 1) * t))
      (bmsspRecursive g k t bcFuel loopFuel l) ihl loopFuel [] D1
      (if P.isEmpty then B
       else P.foldl (fun b x =>
         if ((bst1.st x).distance).ltb b then (bst1.st x).distance else b) DVal.inf)
      bst1 hw1 (fun p hp => absurd hp (List.not_mem_nil p)) hD1w
    set wAb := W.foldl (fun (acc : List Pos × BmsspSt) x =>
      if ((acc.2.st x).distance).ltb looped.1.1 then
        let U' := if x ∈ acc.1 then acc.1 else acc.1 ++ [x]
        if (acc.2.st x).isVisited then (U', acc.2)
        else (U', { acc.2 with
          st := setNode acc.2.st x { acc.2.st x with isVisited := true },
          trace := acc.2.trace ++ [x] })
      else acc) (looped.1.2, looped.2) with hwAbEq
    have hwa : WallsUnvisited g wAb.2.st ∧ WallsFreeL g wAb.1 := by
      refine foldl_preserves_mem _
        (fun acc : List Pos × BmsspSt =>
          WallsUnvisited g acc.2.st ∧ WallsFreeL g acc.1)
        W ?_ (looped.1.2, looped.2) ⟨hloop.1, hloop.2⟩
      intro acc x hx hP2
      obtain ⟨hwa2, hla⟩ := hP2
      have hxw : g.isWall x = false := hWw x hx
      dsimp only
      split
      · have hU' : WallsFreeL g (if x ∈ acc.1 then acc.1 else acc.1 ++ [x]) := by
          split
          · exact hla
          · intro p hp
            rcases List.mem_append.mp hp with hp | hp
            · exact hla p hp
            · rw [List.mem_singleton] at hp
              subst hp
              exact hxw
        split
        · exact ⟨hwa2, hU'⟩
        · refine ⟨?_, hU'⟩
          intro p hp
          have hne : p ≠ x := by
            intro he
            rw [he] at hp
            rw [hp] at hxw
            exact Bool.noConfusion hxw
          show ((setNode acc.2.st x
            { acc.2.st x with isVisited := true }) p).isVisited = false
          rw [setNode_ne _ _ _ _ hne]
          exact hwa2 p hp
      · exact ⟨hwa2, hla⟩
    exact ⟨hwa.1, hwa.2⟩

theorem bmsspInit_WallsUnvisited (g : Grid) (startNode : Pos) :
    WallsUnvisited g (setNode (bmsspReset g resetState) startNode
      { bmsspReset g resetState startNode with distance := DVal.fin 0 }) := by
  intro p hp
  by_cases hps : p = startNode
  · subst hps
    rw [setNode_self]
    exact (bmsspReset_fields g p).2.1
  · rw [setNode_ne _ _ _ _ hps]
    exact (bmsspReset_fields g p).2.1

theorem bmssp_walls_unvisited (g : Grid) (startNode finishNode p : Pos)
    (hws : g.isWall startNode = false) (hp : g.isWall p = true) :
    ((bmsspFull g startNode finishNode).bst.st p).isVisited = false := by
  have hS : WallsFreeL g [startNode] := by
    intro q hq
    rw [List.mem_singleton] at hq
    subst hq
    exact hws
  exact (bmsspRecursive_walls g (kParam (g.rows * g.cols))
    (tParam (g.rows * g.cols)) (bmsspFuel g) (bmsspFuel g)
    (lParam (g.rows * g.cols) (tParam (g.rows * g.cols)))
    DVal.inf [startNode]
    ⟨setNode (bmsspReset g resetState) startNode
      { bmsspReset g resetState startNode with distance := DVal.fin 0 }, [], []⟩
    (bmsspInit_WallsUnvisited g startNode) hS).1 p hp

/-- C5 amended: the bmssp module's neighbour enumeration filters walls out,
and bidirectionalSwarm's relaxation returns immediately on a wall (and never
writes node fields at all); dijkstra, astar and greedyBfs enumerate wall
neighbours and can set a wall's distance and previousNode — witnessed on the
corridor grid — but a wall node is never marked visited: for dijkstra, astar,
greedyBfs and bidirectionalSwarm at every iteration count, and for bmssp's
final state whenever the run's start node is not itself a wall (bmssp marks
its sources, so a wall start would be the one exception). -/
theorem c5_amended :
    (∀ (g : Grid) (p q : Pos), q ∈ bmGetNeighbors g p → g.isWall q = false)
  ∧ (∀ (g : Grid) (nb cur : Pos) (gMap fMap : List (Pos × DVal))
        (vMap : List (Pos × Pos)) (os : List Pos) (tgt : Pos),
        g.isWall nb = true →
        updateNeighbor g nb cur gMap fMap vMap os tgt = (gMap, fMap, vMap, os))
  ∧ (grid1x3w.isWall (0,0) = true
      ∧ ((dijkstraIter grid1x3w (0,2) (runFuel grid1x3w)
            (dijkstraInit (0,1))).st (0,0)).distance = DVal.fin 1
      ∧ ((dijkstraIter grid1x3w (0,2) (runFuel grid1x3w)
            (dijkstraInit (0,1))).st (0,0)).previousNode = some (0,1))
  ∧ (∀ (g : Grid) (s f : Pos) (n : Nat) (p : Pos), g.isWall p = true →
        ((dijkstraIter g f n (dijkstraInit s)).st p).isVisited = false)
  ∧ (∀ (g : Grid) (s f : Pos) (n : Nat) (p : Pos), g.isWall p = true →
        ((astarIter g f n (astarInit s f)).st p).isVisited = false)
  ∧ (∀ (g : Grid) (s f : Pos) (n : Nat) (p : Pos), g.isWall p = true →
        ((greedyIter g f n (greedyInit s f)).st p).isVisited = false)
  ∧ (∀ (g : Grid) (s f : Pos) (n : Nat) (p : Pos), g.isWall p = true →
        ((swarmIter g s f n (swarmInit s f)).st p).isVisited = false)
  ∧ (∀ (g : Grid) (s f p : Pos), g.isWall s = false → g.isWall p = true →
        ((bmsspFull g s f).bst.st p).isVisited = false) := by
  refine ⟨?_, ?_, ⟨by decide, by decide, by decide⟩, ?_, ?_, ?_, ?_, ?_⟩
  · intro g p q hq
    have := List.mem_filter.mp hq
    simpa using this.2
  · intro g nb cur gMap fMap vMap os tgt hw
    unfold updateNeighbor
    rw [if_pos hw]
  · intro g s f n p hp
    refine dijkstraIter_wallsUnvisited g f n _ ?_ p hp
    intro q hq
    unfold dijkstraInit setNode
    dsimp only
    split <;> rfl
  · intro g s f n p hp
    refine astarIter_wallsUnvisited g f n _ ?_ p hp
    intro q hq
    unfold astarInit setNode
    dsimp only
    split <;> rfl
  · intro g s f n p hp
    refine greedyIter_wallsUnvisited g f n _ ?_ p hp
    intro q hq
    unfold greedyInit setNode
    dsimp only
    split <;> rfl
  · intro g s f n p hp
    refine swarmIter_wallsUnvisited g s f n _ ?_ p hp
    intro q hq
    rfl
  · intro g s f p hws hp
    exact bmssp_walls_unvisited g s f p hws hp

theorem c5_witness :
    grid1x2.isWall (0,1) = false
    ∧ ((dijkstraIter grid1x3w (0,2) 3 (dijkstraInit (0,1))).st (0,0)).isVisited = false
    ∧ ((bmsspFull grid1x3w (0,1) (0,2)).bst.st (0,0)).isVisited = false :=
  ⟨c5_amended.1 grid1x2 (0,0) (0,1) (by decide),
   c5_amended.2.2.2.1 grid1x3w (0,1) (0,2) 3 (0,0) (by decide),
   c5_amended.2.2.2.2.2.2.2 grid1x3w (0,1) (0,2) (0,0) (by decide) (by decide)⟩
